import Mathlib

/-! config-service: the document data-access layer

A shallow embedding of `db/aggregation.go` (`uniqueValuePipeline`,
`matchFiltersForUnwind`, `transformArrayConditionsForUnwind`,
`processElemMatchConditions`, `addArrayPath2Keys`, `AggregateWithTemplate`),
of `types/api_info.go` (`SchemaInfo.GetArrayDetails`), of `db/utils.go`
(`ReadContext`, the generic CRUD operations and the tenant-wide deletion) and
of `routes/customer/routes.go` (`getCustomer`, `postCustomerTenant`).

Modelling conventions

* Go strings are Lean `String`s; `strings.HasPrefix`, `strings.TrimPrefix` and
  `strings.ReplaceAll` act on the character list of the string.
* A Go slice is a `List`; the nil slice and the empty slice are both `[]`.
* `interface{}` values that occur in filters are the inductive type `BVal`:
  one constructor per dynamic type the code inspects (`bson.D`, `bson.A`,
  `bson.M`, `[]bson.M`) and constructors for the scalars the code builds.
* A failed type assertion `x.(bson.D)` panics; functions that can reach one
  return `Option`, and `none` is the panic.
* A Go map `bson.M` is an association list with pairwise distinct keys; the
  order of its entries carries no meaning, `m[k] = v` is `mapSet`,
  reading `m[k]` is `mapGet`.
* The store, the template engine and the JSON decoder are collaborators: an
  operation takes their answers as functions of the arguments it sends and
  returns, with its result, the list of the calls it made.
* A Go `int` or `int64` is an `Int`; where the source adds two of them the
  sum is wrapped to 64 bits (`wrapInt64`).
* The goroutines of `AdminDeleteCustomersDocs` are a step function on their
  shared state (`DelState`): a step is one visible action of one goroutine
  (a store call, a channel send or receive, an atomic add, a wait), a run is
  the list of the goroutines in the order in which they get the turn, and
  statements about the function hold for every such list.
-/

namespace ConfigService

/-- Dynamic values stored in a filter or a pipeline stage (`interface{}`).
`doc` is `bson.D` (ordered list of `bson.E` key/value entries), `arr` is `bson.A`,
`map` is `bson.M`, `maps` is `[]bson.M`; `int` is a Go `int`, `int64` a Go
`int64`, `null` is the untyped `nil`, `other` stands for any value of another
dynamic type (bool, float, date, ...). -/
inductive BVal where
  | null
  | int (i : Int)
  | int64 (i : Int)
  | str (s : String)
  | doc (d : List (String × BVal))
  | arr (a : List BVal)
  | map (m : List (String × BVal))
  | maps (ms : List (List (String × BVal)))
  | other (tag : Nat)

/-- The type `bson.E`: one key/value entry. -/
abbrev BsonE := String × BVal

/-- The type `bson.D`: an ordered document. -/
abbrev BsonD := List BsonE

/-- The type `bson.M`: a map from keys to values, as an association list. -/
abbrev BsonM := List (String × BVal)

/-- The type `mongo.Pipeline`, a slice of `bson.D` stages. -/
abbrev Pipeline := List BsonD

/-- Go `strings.HasPrefix(s, p)`. -/
def stringsHasPrefix (s p : String) : Bool := p.data.isPrefixOf s.data

/-- Go `strings.TrimPrefix(s, p)`. -/
def stringsTrimPrefix (s p : String) : String :=
  if stringsHasPrefix s p then ⟨s.data.drop p.data.length⟩ else s

/-- Go `strings.ReplaceAll(s, old, new)` for one-character `old` and `new`
(the only use in the source is `strings.ReplaceAll(field, ".", "_")`). -/
def stringsReplaceAll (s : String) (old new : Char) : String :=
  ⟨s.data.map fun c => if c = old then new else c⟩

/-- Writing `m[k] = v` on a Go map: overwrite the entry of `k` when present,
add it otherwise. -/
def mapSet : BsonM → String → BVal → BsonM
  | [], k, v => [(k, v)]
  | (k', v') :: rest, k, v =>
    if k' = k then (k, v) :: rest else (k', v') :: mapSet rest k v

/-- Reading `m[k]` on a Go map. -/
def mapGet : BsonM → String → Option BVal
  | [], _ => none
  | (k', v') :: rest, k => if k' = k then some v' else mapGet rest k

/-- Source: `isBsonD` (aggregation.go 190-195). -/
def isBsonD : BVal → Bool
  | .doc _ => true
  | _ => false

/-- Key rewriting of the `bson.D` and `bson.M` cases of `addArrayPath2Keys`:
every key becomes `arrayPath + "." + key`, the value is kept. -/
def prefixKeys (arrayPath : String) (d : List (String × BVal)) : List (String × BVal) :=
  d.map fun e => (arrayPath ++ "." ++ e.1, e.2)

mutual
/-- Source: `addArrayPath2Keys` (aggregation.go 224-253), the type switch on
the dynamic type of `filterVal`. -/
def addArrayPath2Keys (arrayPath : String) : BVal → BVal
  | .doc v => .doc (prefixKeys arrayPath v)
  | .arr v => .arr (addArrayPath2KeysArr arrayPath v)
  | .map v => .map (prefixKeys arrayPath v)
  | .maps v => .maps (v.map fun elem => prefixKeys arrayPath elem)
  | .null => .null
  | .int i => .int i
  | .int64 i => .int64 i
  | .str s => .str s
  | .other t => .other t
/-- The loop of the `bson.A` case of `addArrayPath2Keys`. -/
def addArrayPath2KeysArr (arrayPath : String) : List BVal → List BVal
  | [] => []
  | elem :: rest => addArrayPath2Keys arrayPath elem :: addArrayPath2KeysArr arrayPath rest
end

/-- Source: `processElemMatchConditions` (aggregation.go 211-222). -/
def processElemMatchConditions (arrayName : String) : BsonD → BsonD
  | [] => []
  | cond :: rest =>
    (if stringsHasPrefix cond.1 "$" then
      (cond.1, addArrayPath2Keys arrayName cond.2)
    else
      (arrayName ++ "." ++ cond.1, cond.2)) :: processElemMatchConditions arrayName rest

/-- Source: `transformArrayConditionsForUnwind` (aggregation.go 198-208).
`cond.Value.(bson.D)` panics (`none`) when the value of `$elemMatch` is not
a `bson.D`. -/
def transformArrayConditionsForUnwind (arrayName : String) : BsonD → Option BsonD
  | [] => some []
  | cond :: rest =>
    if cond.1 = "$elemMatch" then
      match cond.2 with
      | .doc conditions =>
        (transformArrayConditionsForUnwind arrayName rest).map
          fun t => processElemMatchConditions arrayName conditions ++ t
      | _ => none
    else
      (transformArrayConditionsForUnwind arrayName rest).map fun t => cond :: t

/-- Source: `matchFiltersForUnwind` (aggregation.go 178-188). -/
def matchFiltersForUnwind (arrayName : String) : BsonD → Option BsonD
  | [] => some []
  | elem :: rest =>
    if elem.1 = arrayName ∧ isBsonD elem.2 = true then
      match elem.2 with
      | .doc filter =>
        (transformArrayConditionsForUnwind arrayName filter).bind fun t =>
          (matchFiltersForUnwind arrayName rest).map fun u => t ++ u
      | _ => none
    else
      (matchFiltersForUnwind arrayName rest).map fun u => elem :: u

/-- Source: `SchemaInfo` (api_info.go 17-19). -/
structure SchemaInfo where
  ArrayPaths : List String

/-- The loop of `GetArrayDetails` over `s.ArrayPaths` (api_info.go 41-51):
the first entry that is a string prefix of `path` decides the result; the
named results keep their zero values when no entry matches. -/
def getArrayDetailsLoop (path : String) : List String → Bool × String × String
  | [] => (false, "", "")
  | ap :: rest =>
    if stringsHasPrefix path ap then
      (true, ap,
        if stringsHasPrefix path (ap ++ ".") then stringsTrimPrefix path (ap ++ ".") else "")
    else getArrayDetailsLoop path rest

/-- Source: `SchemaInfo.GetArrayDetails` (api_info.go 40-52); the result is
`(isArray, arrayPath, subPath)`. -/
def SchemaInfo.GetArrayDetails (s : SchemaInfo) (path : String) : Bool × String × String :=
  getArrayDetailsLoop path s.ArrayPaths

/-- The stage `bson.D{{Key: "$unwind", Value: "$" + arrayPath}}`. -/
def unwindStage (arrayPath : String) : BsonD := [("$unwind", .str ("$" ++ arrayPath))]

/-- The stage `bson.D{{Key: "$match", Value: m}}`. -/
def matchStage (m : BsonD) : BsonD := [("$match", .doc m)]

/-- The first loop of `uniqueValuePipeline` (aggregation.go 110-120) as a
function of the fields still to visit and of the loop state
`(pipeline, handledArrays)`; `handledArrays` is the list of the keys set to
`true`. -/
def unwindLoop (schemaInfo : SchemaInfo) (mtch : BsonD) :
    List String → Pipeline × List String → Option (Pipeline × List String)
  | [], st => some st
  | field :: rest, (pipeline, handledArrays) =>
    let r := schemaInfo.GetArrayDetails field
    if r.1 = true ∧ ¬ r.2.1 ∈ handledArrays then
      match matchFiltersForUnwind r.2.1 mtch with
      | none => none
      | some m =>
        unwindLoop schemaInfo mtch rest
          (pipeline ++ [unwindStage r.2.1, matchStage m], r.2.1 :: handledArrays)
    else unwindLoop schemaInfo mtch rest (pipeline, handledArrays)

/-- The second loop of `uniqueValuePipeline` (aggregation.go 127-131) on the
state `(setM, groupM)`. -/
def setLoop : List String → BsonM × BsonM → BsonM × BsonM
  | [], st => st
  | field :: rest, (setM, groupM) =>
    let cleanField := stringsReplaceAll field '.' '_'
    setLoop rest
      (mapSet setM cleanField (.str ("$" ++ field)),
       mapSet groupM cleanField (.str ("$" ++ cleanField)))

/-- The first `$group` stage (aggregation.go 136-139). -/
def groupStage (filedRef : BVal) : BsonD :=
  [("$group", .doc [("_id", filedRef), ("count", .doc [("$sum", .int 1)])])]

/-- The `$sort` stage (aggregation.go 140-142). -/
def sortStage : BsonD := [("$sort", .doc [("_id", .int 1)])]

/-- The `$skip` stage (aggregation.go 145). -/
def skipStage (skip : Int) : BsonD := [("$skip", .int64 skip)]

/-- The `$limit` stage (aggregation.go 148). -/
def limitStage (limit : Int) : BsonD := [("$limit", .int64 limit)]

/-- The collapsing `$group` stage (aggregation.go 149-153). -/
def collectStage : BsonD :=
  [("$group", .doc [("_id", .null),
    ("values", .doc [("$push", .str "$_id")]),
    ("count", .doc [("$push", .doc [("key", .str "$_id"), ("count", .str "$count")])])])]

/-- The `$project` stage (aggregation.go 154-158). -/
def projectStage : BsonD :=
  [("$project", .doc [("_id", .int 0), ("values", .int 1), ("count", .int 1)])]

/-- Source: `uniqueValuePipeline` (aggregation.go 105-161). `skip` and
`limit` are `int64` values, only compared and stored. The result is `none`
when a `matchFiltersForUnwind` call panics. -/
def uniqueValuePipeline (fields : List String) (mtch : BsonD) (skip limit : Int)
    (schemaInfo : SchemaInfo) : Option Pipeline :=
  match unwindLoop schemaInfo mtch fields ([matchStage mtch], []) with
  | none => none
  | some (pipeline, _) =>
    let (pipeline, filedRef) : Pipeline × BVal :=
      match fields with
      | [field] => (pipeline, BVal.str ("$" ++ field))
      | _ =>
        let (setM, groupM) := setLoop fields ([], [])
        (pipeline ++ [[("$set", BVal.map setM)]], BVal.map groupM)
    let pipeline := pipeline ++ [groupStage filedRef, sortStage]
    let pipeline := if skip > 0 then pipeline ++ [skipStage skip] else pipeline
    some (pipeline ++ [limitStage limit, collectStage, projectStage])

/-! ## Vocabulary of the statements -/

/-- The name of a pipeline stage: the key of its first entry (`$match`,
`$unwind`, `$set`, `$group`, ...). -/
def stageName (st : BsonD) : Option String := st.head?.map fun e => e.1

/-- The synthetic key of a field in `uniqueValuePipeline`:
`strings.ReplaceAll(field, ".", "_")`. -/
def cleanField (field : String) : String := stringsReplaceAll field '.' '_'

/-- The array path `ap` encloses the field path `path`: the path is the array
path itself, or the array path followed by `.` and a sub-path. -/
def encloses (ap path : String) : Bool :=
  decide (path = ap) || stringsHasPrefix path (ap ++ ".")

/-- The array paths that the first loop of `uniqueValuePipeline` unwinds, in
the order in which it does, when it visits `fields` with `handled` already
marked. -/
def newPaths (s : SchemaInfo) : List String → List String → List String
  | [], _ => []
  | field :: rest, handled =>
    let r := s.GetArrayDetails field
    if r.1 = true ∧ ¬ r.2.1 ∈ handled then r.2.1 :: newPaths s rest (r.2.1 :: handled)
    else newPaths s rest handled

/-- The two stages that the first loop appends for an array path. -/
def unwindStages (mtch : BsonD) (A : String) : List BsonD :=
  [unwindStage A, matchStage ((matchFiltersForUnwind A mtch).getD [])]

/-- The `$set` stage of `uniqueValuePipeline`, absent when exactly one field
is requested. -/
def setStages : List String → List BsonD
  | [_] => []
  | fields => [[("$set", BVal.map (setLoop fields ([], [])).1)]]

/-- The value `filedRef` that `uniqueValuePipeline` groups on. -/
def groupRef : List String → BVal
  | [field] => BVal.str ("$" ++ field)
  | fields => BVal.map (setLoop fields ([], [])).2

/-- The stages from `$skip` on: `$skip` (when `skip > 0`), `$limit`, the
collapsing `$group` and `$project`. -/
def pagingStages (skip limit : Int) : List BsonD :=
  (if skip > 0 then [skipStage skip] else []) ++ [limitStage limit, collectStage, projectStage]

/-- No rewrite of the match filter panics: for every requested field that
lies under an array path, `matchFiltersForUnwind` of that path returns. -/
def RewritesSucceed (s : SchemaInfo) (mtch : BsonD) (fields : List String) : Prop :=
  ∀ f ∈ fields, (s.GetArrayDetails f).1 = true →
    (matchFiltersForUnwind (s.GetArrayDetails f).2.1 mtch).isSome = true

instance (s : SchemaInfo) (mtch : BsonD) (fields : List String) :
    Decidable (RewritesSucceed s mtch fields) := by
  unfold RewritesSucceed
  infer_instance

/-! ## Errors and the call context (`db/utils.go`) -/

/-- A Go `error` value that is not a compound error: `errorf msg` is
`fmt.Errorf(msg)`, `noDocuments` is `mongoDB.ErrNoDocuments`, `driver code` is
any other error reported by an external collaborator (store driver, template
engine, JSON decoder). -/
inductive BaseErr where
  | errorf (msg : String)
  | noDocuments
  | driver (code : Nat)
  deriving DecidableEq

/-- A non-nil Go `error`: a plain error or a `*multierror.Error` holding a
list of errors. The nil error is `none` of `Option GoErr`. -/
inductive GoErr where
  | base (e : BaseErr)
  | multi (errs : List BaseErr)
  deriving DecidableEq

/-- The call `multierror.Append(err, e)` of go-multierror for a plain non-nil
`e`: a nil `err` gives a compound error holding `e`, a plain `err` gives a
compound error holding both, a compound `err` gets `e` appended. -/
def multierrorAppend (err : Option GoErr) (e : BaseErr) : Option GoErr :=
  match err with
  | none => some (.multi [e])
  | some (.base b) => some (.multi [b, e])
  | some (.multi es) => some (.multi (es ++ [e]))

/-- A value stored in a `context.Context`: a string or a value of another
dynamic type. -/
inductive CtxVal where
  | str (s : String)
  | other (tag : Nat)
  deriving DecidableEq

/-- The two values of the request context that the db package reads:
`c.Value(consts.Collection)` and `c.Value(consts.CustomerGUID)`; `none` is the
nil returned for an absent key. -/
structure Context where
  collection : Option CtxVal
  customerGUID : Option CtxVal

/-- The pattern `if val := c.Value(key); val != nil { s = val.(string) }`:
an absent value leaves the zero string, a string is taken, and the type
assertion on any other value panics (`none`). -/
def ctxString : Option CtxVal → Option String
  | none => some ""
  | some (.str s) => some s
  | some (.other _) => none

/-- Source: `readCustomerGUID` (utils.go 528-536). -/
def readCustomerGUID (c : Context) : Option (String × Option BaseErr) :=
  (ctxString c.customerGUID).map fun customerGUID =>
    (customerGUID,
      if customerGUID = "" then some (.errorf "customerGUID is not in context") else none)

/-- Source: `readCollection` (utils.go 538-546). -/
def readCollection (c : Context) : Option (String × Option BaseErr) :=
  (ctxString c.collection).map fun collection =>
    (collection,
      if collection = "" then some (.errorf "collection is not in context") else none)

/-- Source: `ReadContext` (utils.go 516-526); the result is
`(collection, customerGUID, err)`, `none` when a type assertion panics. -/
def ReadContext (c : Context) : Option (String × String × Option GoErr) :=
  match readCollection c with
  | none => none
  | some (collection, errCollection) =>
    let err : Option GoErr :=
      match errCollection with
      | some e => multierrorAppend none e
      | none => none
    match readCustomerGUID c with
    | none => none
    | some (customerGUID, errGuid) =>
      let err : Option GoErr :=
        match errGuid with
        | some e => multierrorAppend err e
        | none => err
      some (collection, customerGUID, err)

/-- The context in which the two keys hold the given strings (`none`: the key
is absent). -/
def stringContext (collection customerGUID : Option String) : Context :=
  ⟨collection.map CtxVal.str, customerGUID.map CtxVal.str⟩

/-! ## Template-driven aggregation (`db/aggregation.go`) -/

/-- Source: `MaxAggregationLimit` (aggregation.go 22). -/
def MaxAggregationLimit : Int := 10000

/-- The value of a Go `int` (64 bits) that holds the mathematical integer
`x` after wrap-around: the representative of `x` modulo `2^64` in the range
from `-2^63` to `2^63 - 1`. -/
def wrapInt64 (x : Int) : Int :=
  (x + 9223372036854775808) % 18446744073709551616 - 9223372036854775808

/-- Source: `Metadata` (aggregation.go 40-44). -/
structure Metadata where
  Total : Int
  Limit : Int
  NextSkip : Int
  deriving DecidableEq

/-- Source: `AggResult` (aggregation.go 46-49). -/
structure AggResult (T : Type) where
  Metadata : Metadata
  Results : List T

/-- Source: `aggResponse` (aggregation.go 51-54), one decoded row of the
store's answer. -/
structure aggResponse (T : Type) where
  Metadata : List Metadata
  Results : List T

/-- The external collaborators of `AggregateWithTemplate`:
`rootTemplate.ExecuteTemplate` (the rendered text or an error),
`json.Unmarshal` into `[]bson.M`, and the store's `Aggregate` followed by
`dbCursor.All` (each may fail). -/
structure AggEnv (T : Type) where
  executeTemplate : String → BsonM → Except BaseErr String
  unmarshal : String → Except BaseErr (List BsonM)
  aggregate : String → List BsonM → Except BaseErr (Except BaseErr (List (aggResponse T)))

/-- A call that `AggregateWithTemplate` makes to a collaborator, with its
arguments. -/
inductive AggCall where
  | executeTemplate (name : String) (args : BsonM)
  | unmarshal (text : String)
  | aggregate (collection : String) (pipeline : List BsonM)

/-- Lines 89-102 of `AggregateWithTemplate`: the result built from the
decoded rows, the effective `limit` and the `cursor`. -/
def aggResultOf {T : Type} (limit cursor : Int) (resultsSlice : List (aggResponse T)) :
    AggResult T :=
  let results : AggResult T := ⟨⟨0, 0, 0⟩, []⟩
  match resultsSlice with
  | [] => results
  | first :: _ =>
    let results : AggResult T :=
      match first.Metadata with
      | [] => results
      | m :: _ => { results with Metadata := m }
    let results : AggResult T := { results with Metadata := { results.Metadata with Limit := limit } }
    let results : AggResult T := { results with Results := first.Results }
    if wrapInt64 (cursor + results.Results.length) < results.Metadata.Total then
      { results with Metadata :=
          { results.Metadata with NextSkip := wrapInt64 (cursor + results.Results.length) } }
    else results

/-- Source: `AggregateWithTemplate` (aggregation.go 56-103). `templateArgs`
is `none` for a nil map. The result is the list of calls made, the returned
pointer (`none` for nil) and the returned error. -/
def AggregateWithTemplate {T : Type} (env : AggEnv T) (limit cursor : Int) (collection : String)
    (queryTemplateName : String) (templateArgs : Option BsonM) :
    List AggCall × Option (AggResult T) × Option GoErr :=
  let templateArgs : BsonM := match templateArgs with
    | none => []
    | some m => m
  let templateArgs := mapSet templateArgs "skip" (.int cursor)
  let limit := if limit = 0 ∨ limit > MaxAggregationLimit then MaxAggregationLimit else limit
  let templateArgs := mapSet templateArgs "limit" (.int limit)
  match env.executeTemplate queryTemplateName templateArgs with
  | .error err => ([.executeTemplate queryTemplateName templateArgs], none, some (.base err))
  | .ok buf =>
    match env.unmarshal buf with
    | .error err =>
      ([.executeTemplate queryTemplateName templateArgs, .unmarshal buf], none, some (.base err))
    | .ok pipeline =>
      let calls := [AggCall.executeTemplate queryTemplateName templateArgs, .unmarshal buf,
        .aggregate collection pipeline]
      match env.aggregate collection pipeline with
      | .error err => (calls, none, some (.base err))
      | .ok (.error err) => (calls, none, some (.base err))
      | .ok (.ok resultsSlice) => (calls, some (aggResultOf limit cursor resultsSlice), none)


/-! ## Generic CRUD operations (`db/utils.go`) -/

/-- Modelled from the spec: the Filter Builder and the update commands
(`NewFilterBuilder`, `WithNotDeleteForCustomer`,
`WithNotDeleteForCustomerAndGlobal`, `WithID`, `WithName`, `WithIn`,
`WithIDs`, `WithCustomers`, `WithFilter`, `get`, `GetUpdateAddToSetCommand`,
`GetUpdatePullFromSetCommand` and the constants `consts.IdField` and
`consts.CustomersCollection` are declared outside src). By the spec
(4.1) a builder has chainable methods, each adding one clause, `get()` returns
the compiled filter and no clause is dropped: a builder is the list of its
clauses, `NewFilterBuilder()` is the empty list, a method appends the clauses
it stands for and `WithFilter` appends the clauses of the given builder. Which
clauses a method stands for is a parameter; the tenant scope is read from the
context. -/
structure Builders where
  notDeleteForCustomer : Context → BsonD
  notDeleteForCustomerAndGlobal : Context → BsonD
  withID : String → BsonD
  withName : String → BsonD
  withIn : String → List String → BsonD
  updateAddToSet : String → List BVal → BVal
  updatePullFromSet : String → List BVal → BVal
  idField : String
  withIDs : List String → BsonD
  withCustomers : List String → BsonD
  customersCollection : String

/-- Modelled from the spec: Find Options (4.2), a type declared outside src:
filter, projection, sort, skip and limit of a query. -/
structure FindOptions where
  filter : BsonD
  projection : BsonD
  sort : BsonD
  skip : Int
  limit : Int

/-- The options built by `NewFindOptions()` and the zero value
`&FindOptions{}`: match everything, no sort, no projection, no paging. -/
def NewFindOptions : FindOptions := ⟨[], [], [], 0, 0⟩

/-- The envelope `types.Document[T]` as built in `routes.go`: id, payload and
owner list. -/
structure Document (T : Type) where
  ID : String
  Content : T
  Customers : List String

/-- Source: `paginatedResult` and `TotalDocuments` (utils.go 85-91); a
`TotalDocuments` entry is its `Count`. -/
structure paginatedResult (T : Type) where
  TotalDocuments : List Int
  LimitedResults : List T

/-- The result `types.SearchResult[T]` as filled by `AdminFindPaginated`. -/
structure SearchResult (T : Type) where
  Total : Int
  Results : List T

/-- The document store as seen by the db package: what each driver call
answers for its arguments. `find` is `Find` followed by `cur.All`,
`aggregate` is `Aggregate` followed by `cursor.Next` (`none`: no row) and
`cursor.Decode`, `findOne` and `findOneAndUpdate` include the `Decode`,
`updateOne` answers the modified count of a non-nil result and the error,
`countDocuments` the count and the error, `deleteMany` the deleted count of a
non-nil result and the error, `listCollectionNames` is
`mongo.ListCollectionNames`. The handles returned by `GetReadCollection` and
`GetWriteCollection` are not told apart. -/
structure Store (T : Type) where
  find : String → BsonD → BsonD → BsonD → Int → Except BaseErr (Except BaseErr (List T))
  aggregate : String → Pipeline → Except BaseErr (Option (Except BaseErr (paginatedResult T)))
  findOne : String → BsonD → Except BaseErr T
  findOneAndUpdate : String → BsonD → BsonD → Except BaseErr T
  updateOne : String → BsonD → BVal → Option Int × Option BaseErr
  countDocuments : String → BsonD → Option Int → Int × Option BaseErr
  insertOne : String → Document T → Option BaseErr
  insertMany : String → List (Document T) → Option BaseErr
  deleteOne : String → BsonM → Except BaseErr Int
  deleteMany : String → BsonD → Option Int × Option BaseErr
  listCollectionNames : Except BaseErr (List String)

/-- A call sent to the store, with the collection and the arguments. -/
inductive Call (T : Type) where
  | find (collection : String) (filter projection sort : BsonD) (skip : Int)
  | aggregate (collection : String) (pipeline : Pipeline)
  | findOne (collection : String) (filter : BsonD)
  | findOneAndUpdate (collection : String) (filter update : BsonD)
  | updateOne (collection : String) (filter : BsonD) (update : BVal)
  | countDocuments (collection : String) (filter : BsonD) (limit : Option Int)
  | insertOne (collection : String) (doc : Document T)
  | insertMany (collection : String) (docs : List (Document T))
  | deleteOne (collection : String) (filter : BsonM)
  | deleteMany (collection : String) (filter : BsonD)
  | listCollectionNames

/-- The Go error for a plain error value. -/
def goErr (e : BaseErr) : Option GoErr := some (.base e)

/-- The outcome of an operation of the db package: the store calls it made, in
order, and the pair it returned (value and error), `none` when it panicked. -/
abbrev Outcome (T α : Type) := List (Call T) × Option (α × Option GoErr)

/-- Source: `AdminFind` (utils.go 58-83); a nil slice is `none`. -/
def AdminFind {T : Type} (st : Store T) (c : Context) (findOps : Option FindOptions) :
    Outcome T (Option (List T)) :=
  match ReadContext c with
  | none => ([], none)
  | some (_, _, some err) => ([], some (none, some err))
  | some (collection, _, none) =>
    let findOps := findOps.getD NewFindOptions
    let call := Call.find collection findOps.filter findOps.projection findOps.sort findOps.skip
    match st.find collection findOps.filter findOps.projection findOps.sort findOps.skip with
    | .error err => ([call], some (none, goErr err))
    | .ok (.error err) => ([call], some (none, goErr err))
    | .ok (.ok result) => ([call], some (some result, none))

/-- Source: `GetAllForCustomer` (utils.go 29-37). -/
def GetAllForCustomer {T : Type} (B : Builders) (st : Store T) (c : Context)
    (includeGlobals : Bool) : Outcome T (Option (List T)) :=
  let findOps := NewFindOptions
  let findOps : FindOptions :=
    if includeGlobals then
      { findOps with filter := findOps.filter ++ B.notDeleteForCustomerAndGlobal c }
    else { findOps with filter := findOps.filter ++ B.notDeleteForCustomer c }
  AdminFind st c (some findOps)

/-- Source: `FindForCustomerWithGlobals` (utils.go 39-46). -/
def FindForCustomerWithGlobals {T : Type} (B : Builders) (st : Store T) (c : Context)
    (findOpts : Option FindOptions) : Outcome T (Option (List T)) :=
  let findOpts := findOpts.getD NewFindOptions
  AdminFind st c
    (some { findOpts with filter := findOpts.filter ++ B.notDeleteForCustomerAndGlobal c })

/-- Source: `FindForCustomer` (utils.go 48-55). -/
def FindForCustomer {T : Type} (B : Builders) (st : Store T) (c : Context)
    (findOpts : Option FindOptions) : Outcome T (Option (List T)) :=
  let findOpts := findOpts.getD NewFindOptions
  AdminFind st c (some { findOpts with filter := findOpts.filter ++ B.notDeleteForCustomer c })


/-- The slice `resultsPipe` of `AdminFindPaginated` (utils.go 112-126). -/
def resultsPipe (findOps : FindOptions) : List BsonM :=
  let resultsPipe : List BsonM := [[("$match", BVal.doc findOps.filter)]]
  let resultsPipe :=
    if findOps.sort.length > 0 then resultsPipe ++ [[("$sort", BVal.doc findOps.sort)]]
    else resultsPipe
  let resultsPipe :=
    if findOps.skip > 0 then resultsPipe ++ [[("$skip", BVal.int findOps.skip)]]
    else resultsPipe
  let resultsPipe :=
    if findOps.limit > 0 then resultsPipe ++ [[("$limit", BVal.int findOps.limit)]]
    else resultsPipe
  if findOps.projection.length > 0 then
    resultsPipe ++ [[("$project", BVal.doc findOps.projection)]]
  else resultsPipe

/-- The pipeline of `AdminFindPaginated` (utils.go 128-135): one `$facet`
stage with the branches `totalDocuments` and `limitedResults`. -/
def paginatedPipeline (findOps : FindOptions) : Pipeline :=
  [[("$facet", BVal.map
      [("totalDocuments", BVal.maps [[("$count", BVal.str "count")]]),
       ("limitedResults", BVal.maps (resultsPipe findOps))])]]

/-- Source: `AdminFindPaginated` (utils.go 102-154). When the cursor has no
row `result` keeps its zero value; `result.TotalDocuments[0]` panics (`none`)
on an empty `TotalDocuments`. -/
def AdminFindPaginated {T : Type} (st : Store T) (c : Context) (findOps : Option FindOptions) :
    Outcome T (Option (SearchResult T)) :=
  match ReadContext c with
  | none => ([], none)
  | some (_, _, some err) => ([], some (none, some err))
  | some (collection, _, none) =>
    let findOps := findOps.getD NewFindOptions
    let pipeline := paginatedPipeline findOps
    match st.aggregate collection pipeline with
    | .error err => ([.aggregate collection pipeline], some (none, goErr err))
    | .ok cursor =>
      let decoded : Except BaseErr (paginatedResult T) :=
        match cursor with
        | none => .ok ⟨[], []⟩
        | some row => row
      match decoded with
      | .error err => ([.aggregate collection pipeline], some (none, goErr err))
      | .ok result =>
        match result.TotalDocuments with
        | [] => ([.aggregate collection pipeline], none)
        | count :: _ =>
          ([.aggregate collection pipeline], some (some ⟨count, result.LimitedResults⟩, none))

/-- Source: `FindPaginatedForCustomer` (utils.go 93-100). -/
def FindPaginatedForCustomer {T : Type} (B : Builders) (st : Store T) (c : Context)
    (findOps : Option FindOptions) :
    Outcome T (Option (SearchResult T)) :=
  let findOps := findOps.getD NewFindOptions
  AdminFindPaginated st c
    (some { findOps with filter := findOps.filter ++ B.notDeleteForCustomer c })

/-- Source: `UpdateDocument` (utils.go 157-185). -/
def UpdateDocument {T : Type} (B : Builders) (st : Store T) (c : Context) (id : String)
    (update : BsonD) : Outcome T (Option (List T)) :=
  match ReadContext c with
  | none => ([], none)
  | some (_, _, some err) => ([], some (none, some err))
  | some (collection, _, none) =>
    let filter := B.notDeleteForCustomer c ++ B.withID id
    match st.findOne collection filter with
    | .error err =>
      if err = BaseErr.noDocuments then ([.findOne collection filter], some (none, none))
      else ([.findOne collection filter], some (none, goErr err))
    | .ok oldDoc =>
      match st.findOneAndUpdate collection filter update with
      | .error err =>
        ([.findOne collection filter, .findOneAndUpdate collection filter update],
          some (none, goErr err))
      | .ok newDoc =>
        ([.findOne collection filter, .findOneAndUpdate collection filter update],
          some (some [oldDoc, newDoc], none))

/-- The common body of `AddToArray`, `UpdateOne` and `PullFromArray`
(utils.go 187-231): read the context, send `UpdateOne` with the tenant-scoped
id filter, return the modified count of a non-nil result (0 otherwise) and the
error. -/
def updateOneScoped {T : Type} (B : Builders) (st : Store T) (c : Context) (id : String)
    (update : BVal) : Outcome T Int :=
  match ReadContext c with
  | none => ([], none)
  | some (_, _, some err) => ([], some (0, some err))
  | some (collection, _, none) =>
    let filter := B.notDeleteForCustomer c ++ B.withID id
    let r := st.updateOne collection filter update
    let modified : Int := match r.1 with
      | some n => n
      | none => 0
    ([.updateOne collection filter update], some (modified, r.2.map GoErr.base))

/-- Source: `AddToArray` (utils.go 187-202). -/
def AddToArray {T : Type} (B : Builders) (st : Store T) (c : Context) (id arrayPath : String)
    (values : List BVal) : Outcome T Int :=
  updateOneScoped B st c id (B.updateAddToSet arrayPath values)

/-- Source: `UpdateOne` (utils.go 204-216). -/
def UpdateOne {T : Type} (B : Builders) (st : Store T) (c : Context) (id : String)
    (update : BVal) : Outcome T Int :=
  updateOneScoped B st c id update

/-- Source: `PullFromArray` (utils.go 218-231). -/
def PullFromArray {T : Type} (B : Builders) (st : Store T) (c : Context) (id arrayPath : String)
    (values : List BVal) : Outcome T Int :=
  updateOneScoped B st c id (B.updatePullFromSet arrayPath values)

/-- Source: `DocExist` (utils.go 234-246); `filterBuilder` is `none` for a nil
pointer. -/
def DocExist {T : Type} (B : Builders) (st : Store T) (c : Context)
    (filterBuilder : Option BsonD) : Outcome T Bool :=
  match ReadContext c with
  | none => ([], none)
  | some (_, _, some err) => ([], some (false, some err))
  | some (collection, _, none) =>
    let filter := B.notDeleteForCustomer c ++ filterBuilder.getD []
    let r := st.countDocuments collection filter (some 1)
    ([.countDocuments collection filter (some 1)], some (decide (r.1 > 0), r.2.map GoErr.base))

/-- Source: `DocWithNameExist` (utils.go 249-254). -/
def DocWithNameExist {T : Type} (B : Builders) (st : Store T) (c : Context) (name : String) :
    Outcome T Bool :=
  DocExist B st c (some (B.withName name))

/-- Source: `CountDocs` (utils.go 329-340). -/
def CountDocs {T : Type} (B : Builders) (st : Store T) (c : Context)
    (filterBuilder : Option BsonD) : Outcome T Int :=
  match ReadContext c with
  | none => ([], none)
  | some (_, _, some err) => ([], some (0, some err))
  | some (collection, _, none) =>
    let filter := B.notDeleteForCustomer c ++ filterBuilder.getD []
    let r := st.countDocuments collection filter none
    ([.countDocuments collection filter none], some (r.1, r.2.map GoErr.base))


/-- The common tail of the point lookups (utils.go 264-277, 292-301,
312-325): `FindOne(...).Decode(&result)`; `ErrNoDocuments` gives `(nil, nil)`,
another error gives `(nil, err)`, a document gives `(&result, nil)`. -/
def findOneDoc {T : Type} (st : Store T) (collection : String) (filter : BsonD) :
    List (Call T) × Option T × Option GoErr :=
  match st.findOne collection filter with
  | .error err =>
    if err = BaseErr.noDocuments then ([.findOne collection filter], none, none)
    else ([.findOne collection filter], none, goErr err)
  | .ok result => ([.findOne collection filter], some result, none)

/-- Source: `GetDocByGUID` (utils.go 257-278). -/
def GetDocByGUID {T : Type} (B : Builders) (st : Store T) (c : Context) (guid : String) :
    Outcome T (Option T) :=
  match ReadContext c with
  | none => ([], none)
  | some (_, _, some err) => ([], some (none, some err))
  | some (collection, _, none) =>
    let r := findOneDoc st collection (B.notDeleteForCustomer c ++ B.withID guid)
    (r.1, some r.2)

/-- Source: `GetDoc` (utils.go 281-302); `filter` is `none` for a nil
pointer, and then the empty `bson.D` is sent. -/
def GetDoc {T : Type} (st : Store T) (c : Context) (filter : Option BsonD) :
    Outcome T (Option T) :=
  match ReadContext c with
  | none => ([], none)
  | some (_, _, some err) => ([], some (none, some err))
  | some (collection, _, none) =>
    let bfilter : BsonD := match filter with
      | some f => f
      | none => []
    let r := findOneDoc st collection bfilter
    (r.1, some r.2)

/-- Source: `GetDocByName` (utils.go 305-326). -/
def GetDocByName {T : Type} (B : Builders) (st : Store T) (c : Context) (name : String) :
    Outcome T (Option T) :=
  match ReadContext c with
  | none => ([], none)
  | some (_, _, some err) => ([], some (none, some err))
  | some (collection, _, none) =>
    let r := findOneDoc st collection (B.notDeleteForCustomer c ++ B.withName name)
    (r.1, some r.2)

/-- Source: `InsertDBDocument` (utils.go 342-353). -/
def InsertDBDocument {T : Type} (st : Store T) (c : Context) (dbDoc : Document T) :
    Outcome T (Option T) :=
  match readCollection c with
  | none => ([], none)
  | some (_, some err) => ([], some (none, goErr err))
  | some (collection, none) =>
    match st.insertOne collection dbDoc with
    | some err => ([.insertOne collection dbDoc], some (none, goErr err))
    | none => ([.insertOne collection dbDoc], some (some dbDoc.Content, none))

/-- The error `mongo.ErrEmptySlice` of the store driver. -/
def ErrEmptySlice : BaseErr := .errorf "must provide at least one element in input slice"

/-- Source: `InsertDocuments` (utils.go 355-379); `newDocument` is
`types.NewDocument`, declared outside src. In the branch of `InsertMany` the
driver returns `ErrEmptySlice` for an empty list of documents before anything
is sent to the store. -/
def InsertDocuments {T : Type} (newDocument : T → String → Document T) (st : Store T)
    (c : Context) (docs : List T) : Outcome T (Option (List T)) :=
  match ReadContext c with
  | none => ([], none)
  | some (_, _, some err) => ([], some (none, some err))
  | some (collection, customerGUID, none) =>
    let dbDocs := docs.map fun doc => newDocument doc customerGUID
    match dbDocs with
    | [dbDoc] =>
      match st.insertOne collection dbDoc with
      | some err => ([.insertOne collection dbDoc], some (none, goErr err))
      | none => ([.insertOne collection dbDoc], some (some docs, none))
    | [] => ([], some (none, goErr ErrEmptySlice))
    | _ =>
      match st.insertMany collection dbDocs with
      | some err => ([.insertMany collection dbDocs], some (none, goErr err))
      | none => ([.insertMany collection dbDocs], some (some docs, none))

/-- The common tail of `DeleteByName` and `DeleteByGUID` (utils.go 387-399,
408-419) after the lookup: `lookup` is the result of `GetDocByName` or
`GetDocByGUID`, `idOf` gives the id put in the delete filter. -/
def deleteFound {T : Type} (B : Builders) (st : Store T) (collection : String)
    (lookup : List (Call T) × Option T × Option GoErr) (idOf : T → String) :
    List (Call T) × Option T × Option GoErr :=
  match lookup with
  | (calls, _, some err) => (calls, none, some err)
  | (calls, none, none) => (calls, none, none)
  | (calls, some toBeDeleted, none) =>
    let filter : BsonM := [(B.idField, BVal.str (idOf toBeDeleted))]
    match st.deleteOne collection filter with
    | .error err => (calls ++ [.deleteOne collection filter], none, goErr err)
    | .ok deletedCount =>
      if deletedCount = 0 then (calls ++ [.deleteOne collection filter], none, none)
      else (calls ++ [.deleteOne collection filter], some toBeDeleted, none)

/-- Source: `DeleteByName` (utils.go 381-400); `getGUID` is the method
`GetGUID` of the document payload. -/
def DeleteByName {T : Type} (B : Builders) (st : Store T) (getGUID : T → String) (c : Context)
    (name : String) : Outcome T (Option T) :=
  match readCollection c with
  | none => ([], none)
  | some (_, some err) => ([], some (none, goErr err))
  | some (collection, none) =>
    match GetDocByName B st c name with
    | (calls, none) => (calls, none)
    | (calls, some lookup) =>
      let r := deleteFound B st collection (calls, lookup) getGUID
      (r.1, some r.2)

/-- Source: `DeleteByGUID` (utils.go 402-420). -/
def DeleteByGUID {T : Type} (B : Builders) (st : Store T) (c : Context) (guid : String) :
    Outcome T (Option T) :=
  match readCollection c with
  | none => ([], none)
  | some (_, some err) => ([], some (none, goErr err))
  | some (collection, none) =>
    match GetDocByGUID B st c guid with
    | (calls, none) => (calls, none)
    | (calls, some lookup) =>
      let r := deleteFound B st collection (calls, lookup) fun _ => guid
      (r.1, some r.2)

/-- Source: `BulkDelete` (utils.go 428-440); `filter` is the caller's
builder. With a nil error the count is read from the result, which panics
(`none`) on a nil result. -/
def BulkDelete {T : Type} (B : Builders) (st : Store T) (c : Context) (filter : BsonD) :
    Outcome T Int :=
  match readCollection c with
  | none => ([], none)
  | some (_, some err) => ([], some (0, goErr err))
  | some (collection, none) =>
    let filter := filter ++ B.notDeleteForCustomer c
    match st.deleteMany collection filter with
    | (_, some err) => ([.deleteMany collection filter], some (0, goErr err))
    | (some deletedCount, none) => ([.deleteMany collection filter], some (deletedCount, none))
    | (none, none) => ([.deleteMany collection filter], none)

/-- Source: `BulkDeleteByName` (utils.go 422-426). -/
def BulkDeleteByName {T : Type} (B : Builders) (st : Store T) (c : Context)
    (names : List String) : Outcome T Int :=
  BulkDelete B st c (B.withIn "name" names)

/-- Source: `DeleteCustomerDocs` (utils.go 441-448); `adminDelete` is the
call `AdminDeleteCustomersDocs(c, customerGUID)`. -/
def DeleteCustomerDocs {T : Type}
    (adminDelete : Context → List String → List (Call T) × Int × Option GoErr) (c : Context) :
    Outcome T Int :=
  match readCustomerGUID c with
  | none => ([], none)
  | some (_, some err) => ([], some (0, goErr err))
  | some (customerGUID, none) =>
    let r := adminDelete c [customerGUID]
    (r.1, some r.2)

/-- The filter document of a store call that takes one as a `bson.D`. -/
def Call.filterOf {T : Type} : Call T → Option BsonD
  | .find _ filter _ _ _ => some filter
  | .findOne _ filter => some filter
  | .findOneAndUpdate _ filter _ => some filter
  | .updateOne _ filter _ => some filter
  | .countDocuments _ filter _ => some filter
  | .deleteMany _ filter => some filter
  | .listCollectionNames => none
  | .aggregate _ _ => none
  | .insertOne _ _ => none
  | .insertMany _ _ => none
  | .deleteOne _ _ => none

/-- The call carries a filter that contains the clauses `scope` and the
clauses `own`, each as a block of consecutive clauses. -/
def ScopedCall {T : Type} (scope own : BsonD) (call : Call T) : Prop :=
  ∃ f, call.filterOf = some f ∧ scope <:+: f ∧ own <:+: f

/-- A store that answers every call with the driver error `driver 0` (counts
are 0, no result objects). -/
def failingStore (T : Type) : Store T where
  find := fun _ _ _ _ _ => .error (.driver 0)
  aggregate := fun _ _ => .error (.driver 0)
  findOne := fun _ _ => .error (.driver 0)
  findOneAndUpdate := fun _ _ _ => .error (.driver 0)
  updateOne := fun _ _ _ => (none, some (.driver 0))
  countDocuments := fun _ _ _ => (0, some (.driver 0))
  insertOne := fun _ _ => some (.driver 0)
  insertMany := fun _ _ => some (.driver 0)
  deleteOne := fun _ _ => .error (.driver 0)
  deleteMany := fun _ _ => (none, some (.driver 0))
  listCollectionNames := .error (.driver 0)


/-! ## The store's reading of the paginated pipeline -/

/-- What the store does with a document for the stages that depend on the
contents of documents: whether a document matches a filter, how documents are
ordered by a sort specification, what a projection keeps. -/
structure StageSem (T : Type) where
  accepts : BsonD → T → Bool
  sort : BsonD → List T → List T
  project : BsonD → T → T

/-- One stage of a result branch applied to the documents flowing in
(MongoDB: `$match` keeps the matching documents, `$sort` orders, `$skip`
drops and `$limit` keeps the first `n`, `$project` maps); `none` for any
other stage. -/
def evalStage {T : Type} (sem : StageSem T) (stage : BsonM) (docs : List T) :
    Option (List T) :=
  match stage with
  | [(k, BVal.doc d)] =>
    if k = "$match" then some (docs.filter (sem.accepts d))
    else if k = "$sort" then some (sem.sort d docs)
    else if k = "$project" then some (docs.map (sem.project d))
    else none
  | [(k, BVal.int n)] =>
    if k = "$skip" then some (docs.drop n.toNat)
    else if k = "$limit" then some (docs.take n.toNat)
    else none
  | _ => none

/-- The stages of a branch applied in order. -/
def evalStages {T : Type} (sem : StageSem T) : List BsonM → List T → Option (List T)
  | [], docs => some docs
  | stage :: rest, docs => (evalStage sem stage docs).bind (evalStages sem rest)

/-- A branch that ends in `$count` (MongoDB: one document holding the number
of documents flowing into the stage, and no document at all when none flows
in). -/
def evalCount {T : Type} (sem : StageSem T) : List BsonM → List T → Option (List Int)
  | [], _ => none
  | [[(k, BVal.str _)]], docs =>
    if k = "$count" then some (if docs.isEmpty then [] else [(docs.length : Int)]) else none
  | stage :: rest, docs => (evalStage sem stage docs).bind (evalCount sem rest)

/-- The row that a pipeline made of one `$facet` stage yields on a
collection holding `docs` (MongoDB: every branch of `$facet` runs on the same
input, the documents flowing into the stage, and the stage yields exactly one
row). -/
def evalFacet {T : Type} (sem : StageSem T) (docs : List T) (pipeline : Pipeline) :
    Option (paginatedResult T) :=
  match pipeline with
  | [[(k, BVal.map m)]] =>
    if k = "$facet" then
      match mapGet m "totalDocuments", mapGet m "limitedResults" with
      | some (BVal.maps countBranch), some (BVal.maps resultBranch) =>
        (evalCount sem countBranch docs).bind fun counts =>
          (evalStages sem resultBranch docs).map fun results => ⟨counts, results⟩
      | _, _ => none
    else none
  | _ => none

/-- The answer to `Aggregate` of a store whose collections all hold `docs`:
the row of `evalFacet`, or a driver error for a pipeline of another shape. -/
def mongoAggregate {T : Type} (sem : StageSem T) (docs : List T) :
    String → Pipeline → Except BaseErr (Option (Except BaseErr (paginatedResult T))) :=
  fun _ pipeline =>
    match evalFacet sem docs pipeline with
    | some row => .ok (some (.ok row))
    | none => .error (.driver 1)


/-- An instance of the builders, for examples: the tenant scope is the
clause `customers: <customerGUID of the context>` followed by
`is_deleted: false`, the tenant-or-global scope names the tenant and the
empty owner, ids and names are equality clauses, id sets and owner sets are
`$in` clauses, the tenant records live in the collection `customers`. -/
def exampleBuilders : Builders where
  notDeleteForCustomer := fun c =>
    [("customers", BVal.str ((ctxString c.customerGUID).getD "")), ("is_deleted", BVal.other 0)]
  notDeleteForCustomerAndGlobal := fun c =>
    [("customers", BVal.arr [BVal.str ((ctxString c.customerGUID).getD ""), BVal.str ""]),
     ("is_deleted", BVal.other 0)]
  withID := fun id => [("_id", BVal.str id)]
  withName := fun name => [("name", BVal.str name)]
  withIn := fun key values => [(key, BVal.arr (values.map BVal.str))]
  updateAddToSet := fun arrayPath values =>
    BVal.doc [("$addToSet", BVal.doc [(arrayPath, BVal.arr values)])]
  updatePullFromSet := fun arrayPath values =>
    BVal.doc [("$pull", BVal.doc [(arrayPath, BVal.arr values)])]
  idField := "_id"
  withIDs := fun ids => [("_id", BVal.doc [("$in", BVal.arr (ids.map BVal.str))])]
  withCustomers := fun guids =>
    [("customers", BVal.doc [("$in", BVal.arr (guids.map BVal.str))])]
  customersCollection := "customers"


/-! ## Tenant-wide deletion (`db/utils.go`) -/

/-- The deletions launched by `AdminDeleteCustomersDocs` (utils.go 473-503), in
launch order, each with its collection and its filter: the tenant records by
id, then every listed collection other than the tenant-record collection by
owner. -/
def deletionJobs (B : Builders) (collections customerGUIDs : List String) :
    List (String × BsonD) :=
  (B.customersCollection, B.withIDs customerGUIDs) ::
    (collections.filter fun collection => collection != B.customersCollection).map
      fun collection => (collection, B.withCustomers customerGUIDs)

/-- What a deletion goroutine of `AdminDeleteCustomersDocs` still has to do:
`start` is the call of `DeleteMany`; `send err res` is `errChanel <- err` for
the non-nil error of the call, with the result `res` in hand; `add res` is
`atomic.AddInt64` for a non-nil `res`, followed by `wg.Done()`; `done` is
nothing. -/
inductive Phase where
  | start
  | send (err : BaseErr) (res : Option Int)
  | add (res : Option Int)
  | done

/-- A deletion goroutine: the collection it deletes from, the filter it
sends, and how far it got. -/
structure Worker where
  collection : String
  filter : BsonD
  phase : Phase

/-- Whether the goroutine has signalled `wg.Done()`. -/
def Worker.isDone (w : Worker) : Bool :=
  match w.phase with
  | .done => true
  | _ => false

/-- The goroutines of `AdminDeleteCustomersDocs`: the deletion launched
`i`-th, the collector of the errors, and the calling goroutine. -/
inductive Thread where
  | worker (i : Nat)
  | collector
  | caller
  deriving DecidableEq

/-- The shared state of a run of `AdminDeleteCustomersDocs` after the
goroutines are launched: the deletion goroutines, the buffer of `errChanel`
(oldest first) and whether it is closed, whether the collector has signalled
`errWg.Done()`, the variables `deletionErrs` and `deletedCount`, the store
calls made so far, whether the function has returned, and whether a goroutine
has panicked. -/
structure DelState (T : Type) where
  workers : List Worker
  errChanel : List BaseErr
  closed : Bool
  collected : Bool
  deletionErrs : Option GoErr
  deletedCount : Int
  calls : List (Call T)
  returned : Bool
  panicked : Bool

/-- The state in which every deletion of `jobs` is launched and nothing has
run. The source launches the goroutines one after the other; a goroutine does
nothing before it is launched, and the caller does nothing but launching
until `wg.Wait()`, so the runs from this state include the runs of the
source. -/
def launched {T : Type} (jobs : List (String × BsonD)) : DelState T where
  workers := jobs.map fun job => ⟨job.1, job.2, .start⟩
  errChanel := []
  closed := false
  collected := false
  deletionErrs := none
  deletedCount := 0
  calls := []
  returned := false
  panicked := false

/-- One step of the deletion goroutine `i` (utils.go 475-484, 493-503), `none`
when it cannot move. `cap` is the capacity of `errChanel`: a send on a closed
channel panics, a send on a channel without buffer hands the error to the
collector, which waits in its `range` and appends it, a send on a full buffer
blocks. -/
def stepWorker {T : Type} (st : Store T) (cap : Nat) (s : DelState T) (i : Nat) :
    Option (DelState T) :=
  match s.workers[i]? with
  | none => none
  | some w =>
    match w.phase with
    | .start =>
      let r := st.deleteMany w.collection w.filter
      let phase :=
        match r.2 with
        | some err => Phase.send err r.1
        | none => Phase.add r.1
      some { s with
        workers := s.workers.set i { w with phase := phase }
        calls := s.calls ++ [.deleteMany w.collection w.filter] }
    | .send err res =>
      if s.closed then some { s with panicked := true }
      else if cap = 0 then
        some { s with
          workers := s.workers.set i { w with phase := .add res }
          deletionErrs := multierrorAppend s.deletionErrs err }
      else if s.errChanel.length < cap then
        some { s with
          workers := s.workers.set i { w with phase := .add res }
          errChanel := s.errChanel ++ [err] }
      else none
    | .add res =>
      some { s with
        workers := s.workers.set i { w with phase := .done }
        deletedCount :=
          match res with
          | some deleted => wrapInt64 (s.deletedCount + deleted)
          | none => s.deletedCount }
    | .done => none

/-- One step of the collector goroutine (utils.go 464-469): it takes the
oldest error of the buffer and appends it to `deletionErrs`, waits on an empty
open channel, and ends on an empty closed one. -/
def stepCollector {T : Type} (s : DelState T) : Option (DelState T) :=
  if s.collected then none
  else
    match s.errChanel with
    | err :: rest =>
      some { s with errChanel := rest, deletionErrs := multierrorAppend s.deletionErrs err }
    | [] => if s.closed then some { s with collected := true } else none

/-- One step of the calling goroutine (utils.go 506-509): `wg.Wait()`
followed by `close(errChanel)` once every deletion goroutine is done, then
`errWg.Wait()` followed by the `return` once the collector is done. -/
def stepCaller {T : Type} (s : DelState T) : Option (DelState T) :=
  if s.returned then none
  else if s.closed then
    if s.collected then some { s with returned := true } else none
  else if s.workers.all Worker.isDone then some { s with closed := true }
  else none

/-- One step of the goroutine `t`; nothing moves after a panic. -/
def step {T : Type} (st : Store T) (cap : Nat) (s : DelState T) (t : Thread) :
    Option (DelState T) :=
  if s.panicked then none
  else
    match t with
    | .worker i => stepWorker st cap s i
    | .collector => stepCollector s
    | .caller => stepCaller s

/-- The run in which the goroutines are given the turn in the order of
`schedule`; a goroutine that cannot move when it is given the turn is passed
over. -/
def runSchedule {T : Type} (st : Store T) (cap : Nat) (s : DelState T) :
    List Thread → DelState T
  | [] => s
  | t :: schedule => runSchedule st cap ((step st cap s t).getD s) schedule

/-- Source: `AdminDeleteCustomersDocs` (utils.go 450-511) under the schedule
`schedule` of its goroutines: the store calls made and the returned pair,
`none` when the function has not returned by the end of the schedule. -/
def AdminDeleteCustomersDocs {T : Type} (B : Builders) (st : Store T) (schedule : List Thread)
    (_c : Context) (customerGUIDs : List String) : Option (List (Call T) × Int × Option GoErr) :=
  if customerGUIDs.length = 0 then some ([], 0, none)
  else
    match st.listCollectionNames with
    | .error err => some ([.listCollectionNames], 0, goErr err)
    | .ok collections =>
      let s := runSchedule st collections.length
        (launched (deletionJobs B collections customerGUIDs)) schedule
      if s.returned then
        some (Call.listCollectionNames :: s.calls, s.deletedCount, s.deletionErrs)
      else none

/-- The deleted count that the store reports for a deletion (0 when it gives
no result). -/
def reported {T : Type} (st : Store T) (job : String × BsonD) : Int :=
  (st.deleteMany job.1 job.2).1.getD 0

/-- The error that the store reports for a deletion. -/
def failure {T : Type} (st : Store T) (job : String × BsonD) : Option BaseErr :=
  (st.deleteMany job.1 job.2).2

/-- The entries of an error value: those of a compound error, the error
itself for a plain one, none for nil. -/
def errorEntries : Option GoErr → List BaseErr
  | none => []
  | some (.base e) => [e]
  | some (.multi errs) => errs

/-- The round-robin schedule of `rounds` rounds for `n` deletions: in each
round every deletion goroutine, then the collector, then the caller. -/
def roundRobin (n : Nat) : Nat → List Thread
  | 0 => []
  | rounds + 1 =>
    (List.range n).map Thread.worker ++ [Thread.collector, Thread.caller] ++ roundRobin n rounds

/-- A store for the scenario of the tenant-wide delete: it lists the
collections X, Y and `failing`; the deletion reports 3 documents in X, 0 in Y
and anywhere else, and fails in `failing` with the driver error 7 and no
result. -/
def scenarioStore (failing : String) : Store Nat :=
  { failingStore Nat with
    listCollectionNames := .ok ["X", "Y", failing]
    deleteMany := fun collection _ =>
      if collection = failing then (none, some (.driver 7))
      else if collection = "X" then (some 3, none)
      else (some 0, none) }

/-- The errors that a deletion goroutine has yet to hand over: the error of
the call it has yet to make, or the error it has yet to send. -/
def Worker.unsent {T : Type} (st : Store T) (w : Worker) : List BaseErr :=
  match w.phase with
  | .start => (failure st (w.collection, w.filter)).toList
  | .send err _ => [err]
  | _ => []

/-- The deleted count that a deletion goroutine has added to the counter. -/
def Worker.added {T : Type} (st : Store T) (w : Worker) : Int :=
  match w.phase with
  | .done => reported st (w.collection, w.filter)
  | _ => 0

/-- The store call that a deletion goroutine has yet to make. -/
def Worker.uncalled {T : Type} (w : Worker) : List (Call T) :=
  match w.phase with
  | .start => [.deleteMany w.collection w.filter]
  | _ => []

/-- The values a deletion goroutine has in hand are the ones the store
answered to its call. -/
def Worker.Consistent {T : Type} (st : Store T) (w : Worker) : Prop :=
  match w.phase with
  | .send err res => st.deleteMany w.collection w.filter = (res, some err)
  | .add res => (st.deleteMany w.collection w.filter).1 = res
  | _ => True

/-- A bound on the steps a deletion goroutine can still cause (its own and
the collector's). -/
def Worker.weight (w : Worker) : Nat :=
  match w.phase with
  | .start => 5
  | .send _ _ => 3
  | .add _ => 1
  | .done => 0

/-- A bound on the steps that a run can still take from a state. -/
def DelState.weight {T : Type} (s : DelState T) : Nat :=
  (s.workers.map Worker.weight).sum + s.errChanel.length + (if s.closed then 0 else 1) +
    (if s.collected then 0 else 1) + (if s.returned then 0 else 1)

/-- The invariant of the runs of `AdminDeleteCustomersDocs` for the launched
deletions `jobs`: every error of a failed deletion is in `deletionErrs`, in
the channel or yet to be sent, and nowhere twice; the counter holds the counts
of the goroutines that are done; the channel is closed only after every
deletion goroutine is done, the collector ends only on the closed and drained
channel, and the function returns only after the collector has ended. -/
structure DelInv {T : Type} (st : Store T) (jobs : List (String × BsonD)) (s : DelState T) :
    Prop where
  jobs_eq : s.workers.map (fun w => (w.collection, w.filter)) = jobs
  consistent : ∀ w ∈ s.workers, w.Consistent st
  errs : ((errorEntries s.deletionErrs ++ s.errChanel ++ s.workers.flatMap (Worker.unsent st) :
      List BaseErr) : Multiset BaseErr) = (jobs.filterMap (failure st) : List BaseErr)
  count : s.deletedCount = wrapInt64 (s.workers.map (Worker.added st)).sum
  calls : ((s.calls ++ s.workers.flatMap Worker.uncalled : List (Call T)) :
      Multiset (Call T)) = (jobs.map fun job => Call.deleteMany job.1 job.2 : List (Call T))
  closed_done : s.closed = true → ∀ w ∈ s.workers, w.isDone = true
  collected_closed : s.collected = true → s.closed = true ∧ s.errChanel = []
  returned_collected : s.returned = true → s.collected = true
  not_panicked : s.panicked = false
  compound : s.deletionErrs = none ∨ ∃ errs, errs ≠ [] ∧ s.deletionErrs = some (.multi errs)

/-- A store for the tenant-wide delete that tells the filters apart: it lists
the collections X, `customers`, Y and Z; the deletion by `_id` reports 1
document in `customers`; the deletion by `customers` (the owners) reports 3
documents in X and 0 in Y, and fails in Z with the driver error 7 and no
result; any other deletion reports 100 documents. -/
def filteringStore : Store Nat :=
  { failingStore Nat with
    listCollectionNames := .ok ["X", "customers", "Y", "Z"]
    deleteMany := fun collection filter =>
      match filter with
      | [(key, _)] =>
        if collection = "customers" then
          (if key = "_id" then (some 1, none) else (some 100, none))
        else if key = "customers" then
          (if collection = "Z" then (none, some (.driver 7))
            else if collection = "X" then (some 3, none) else (some 0, none))
        else (some 100, none)
      | _ => (some 100, none) }

/-! ## The customer routes (`routes/customer/routes.go`) -/

/-- Modelled from the spec: the responses that the handlers write. The
functions `ResponseInternalServerError`, `ResponseDocumentNotFound`,
`ResponseFailedToBindJson`, `ResponseMissingGUID` and `ResponseDuplicateKey`
of the package `dbhandler` are declared outside src; by the spec (7) the
callers turn a not-found lookup and a duplicate key into responses of their
own. Each function is a response of its own kind, `json status body` is
`c.JSON(status, body)`. -/
inductive Response (T : Type) where
  | json (status : Nat) (body : T)
  | internalServerError (msg : String) (err : GoErr)
  | documentNotFound
  | failedToBindJson (err : Option BaseErr)
  | missingGUID
  | duplicateKey (field : String)

/-- Modelled from the spec: the type `types.Customer`, declared outside src,
as far as the handlers use it: the field `GUID` and the method `InitNew`. -/
structure CustomerType (T : Type) where
  GUID : T → String
  InitNew : T → T

/-- Source: `postCustomerTenant` (routes.go 43-70). `body` is the result of
`c.ShouldBindBodyWith(&customer, binding.JSON)`: an error, a nil customer or
a customer; `isDuplicateKeyError` is the predicate of the store driver and
`guidField` is `consts.GUIDField`. -/
def postCustomerTenant {T : Type} (B : Builders) (K : CustomerType T)
    (isDuplicateKeyError : BaseErr → Bool) (guidField : String) (st : Store T)
    (body : Except BaseErr (Option T)) : List (Call T) × Response T :=
  match body with
  | .error err => ([], .failedToBindJson (some err))
  | .ok none => ([], .failedToBindJson none)
  | .ok (some customer) =>
    if K.GUID customer = "" then ([], .missingGUID)
    else
      let customer := K.InitNew customer
      let dbDoc : Document T := ⟨K.GUID customer, customer, [K.GUID customer]⟩
      match st.insertOne B.customersCollection dbDoc with
      | some err =>
        if isDuplicateKeyError err = true then
          ([.insertOne B.customersCollection dbDoc], .duplicateKey guidField)
        else
          ([.insertOne B.customersCollection dbDoc],
            .internalServerError "failed to create document" (.base err))
      | none => ([.insertOne B.customersCollection dbDoc], .json 201 customer)

/-- Source: `getCustomer` (routes.go 25-41). `readContext` and `getDocByGUID`
are the functions `ReadContext` and `GetDocByGUID` of the package `dbhandler`
that the file imports, which is not under src; `db/utils.go` holds the
functions of these names. The response is `none` when a call panics. -/
def getCustomer {T : Type} (readContext : Context → Option (String × String × Option GoErr))
    (getDocByGUID : Context → String → Outcome T (Option T)) (c : Context) :
    List (Call T) × Option (Response T) :=
  match readContext c with
  | none => ([], none)
  | some (_, _, some err) =>
    ([], some (.internalServerError "failed to read customer guid from context" err))
  | some (_, customerGUID, none) =>
    match getDocByGUID c customerGUID with
    | (calls, none) => (calls, none)
    | (calls, some (_, some err)) =>
      (calls, some (.internalServerError "failed to read document" err))
    | (calls, some (none, none)) => (calls, some .documentNotFound)
    | (calls, some (some doc, none)) => (calls, some (.json 200 doc))

/-- A store whose collection `collection` holds the documents `docs`, as far
as `FindOne` goes: it answers the content of the first document for which the
filter holds and `ErrNoDocuments` when there is none; `holds` tells for which
documents a filter holds. -/
def holdingStore {T : Type} (holds : BsonD → Document T → Bool) (collection : String)
    (docs : List (Document T)) : Store T :=
  { failingStore T with
    findOne := fun coll filter =>
      if coll = collection then
        match docs.find? (holds filter) with
        | some doc => .ok doc.Content
        | none => .error .noDocuments
      else .error .noDocuments }

/-- For which documents a filter of `exampleBuilders` holds: a clause
`customers: g` holds when `g` is one of the owners, a clause `_id: id` when
the id is `id`, any other clause holds. -/
def exampleHolds {T : Type} : BsonD → Document T → Bool
  | [], _ => true
  | (key, BVal.str s) :: rest, doc =>
    (if key = "customers" then decide (s ∈ doc.Customers)
      else if key = "_id" then decide (doc.ID = s) else true) && exampleHolds rest doc
  | _ :: rest, doc => exampleHolds rest doc

/-! ## Rewriting of the match filter after `$unwind` -/

theorem processElemMatchConditions_plain (A : String) (body : BsonD)
    (h : ∀ kv ∈ body, stringsHasPrefix kv.1 "$" = false) :
    processElemMatchConditions A body = body.map fun kv => (A ++ "." ++ kv.1, kv.2) := by
  induction body with
  | nil => rfl
  | cons kv rest ih =>
    have hk : stringsHasPrefix kv.1 "$" = false := h kv (List.mem_cons_self _ _)
    have hr := ih fun x hx => h x (List.mem_cons_of_mem _ hx)
    simp [processElemMatchConditions, hk, hr]

theorem transformArrayConditionsForUnwind_append (A : String) (l1 l2 : BsonD) :
    transformArrayConditionsForUnwind A (l1 ++ l2) =
      (transformArrayConditionsForUnwind A l1).bind fun a =>
        (transformArrayConditionsForUnwind A l2).map fun b => a ++ b := by
  induction l1 with
  | nil => simp [transformArrayConditionsForUnwind]
  | cons cond rest ih =>
    obtain ⟨k, v⟩ := cond
    by_cases hk : k = "$elemMatch"
    · cases v <;> simp [transformArrayConditionsForUnwind, hk, ih]
      cases transformArrayConditionsForUnwind A rest <;>
        cases transformArrayConditionsForUnwind A l2 <;> simp
    · simp [transformArrayConditionsForUnwind, hk, ih]
      cases transformArrayConditionsForUnwind A rest <;>
        cases transformArrayConditionsForUnwind A l2 <;> simp

theorem matchFiltersForUnwind_append (A : String) (l1 l2 : BsonD) :
    matchFiltersForUnwind A (l1 ++ l2) =
      (matchFiltersForUnwind A l1).bind fun a =>
        (matchFiltersForUnwind A l2).map fun b => a ++ b := by
  induction l1 with
  | nil => simp [matchFiltersForUnwind]
  | cons elem rest ih =>
    obtain ⟨k, v⟩ := elem
    by_cases hk : k = A
    · cases v <;> simp [matchFiltersForUnwind, hk, ih, isBsonD] <;>
        cases matchFiltersForUnwind A rest <;>
        cases matchFiltersForUnwind A l2 <;> simp
      cases transformArrayConditionsForUnwind A _ <;> simp
    · simp [matchFiltersForUnwind, hk, ih]
      cases matchFiltersForUnwind A rest <;>
        cases matchFiltersForUnwind A l2 <;> simp

/-- C1: for an array path `A` and a match filter `pre ++ [clause] ++ post`
whose clause has key `A` and an ordered-document value holding `$elemMatch`
with a body of plain field conditions `(k1: v1), ..., (kn: vn)` (no key
begins with `$`), `matchFiltersForUnwind` puts, at the position of the
clause, the top-level clauses `(A.k1: v1), ..., (A.kn: vn)`, in the same order
and with the values unchanged. `preOut` and `postOut` are what the clauses
before and after turn into; `sibLOut` and `sibROut` are what the entries
standing beside `$elemMatch` in the same document turn into (all four are
empty when there are none, and then the clause is replaced by exactly the
`n` hoisted clauses). -/
theorem matchFiltersForUnwind_hoists_elemMatch (A : String)
    (pre post sibL sibR body preOut postOut sibLOut sibROut : BsonD)
    (hbody : ∀ kv ∈ body, stringsHasPrefix kv.1 "$" = false)
    (hpre : matchFiltersForUnwind A pre = some preOut)
    (hpost : matchFiltersForUnwind A post = some postOut)
    (hL : transformArrayConditionsForUnwind A sibL = some sibLOut)
    (hR : transformArrayConditionsForUnwind A sibR = some sibROut) :
    matchFiltersForUnwind A
        (pre ++ (A, BVal.doc (sibL ++ ("$elemMatch", BVal.doc body) :: sibR)) :: post) =
      some (preOut ++
        (sibLOut ++ (body.map fun kv => (A ++ "." ++ kv.1, kv.2)) ++ sibROut) ++ postOut) := by
  have hdoc : transformArrayConditionsForUnwind A (sibL ++ ("$elemMatch", BVal.doc body) :: sibR) =
      some (sibLOut ++ (body.map fun kv => (A ++ "." ++ kv.1, kv.2)) ++ sibROut) := by
    rw [transformArrayConditionsForUnwind_append, hL]
    simp [transformArrayConditionsForUnwind, hR, processElemMatchConditions_plain A body hbody]
  rw [matchFiltersForUnwind_append, hpre]
  simp [matchFiltersForUnwind, isBsonD, hdoc, hpost]

theorem matchFiltersForUnwind_hoists_elemMatch_witness :
    matchFiltersForUnwind "arr"
        ([("x", BVal.int 1)] ++
          ("arr", BVal.doc ([] ++ ("$elemMatch",
            BVal.doc [("a", BVal.int 1), ("b", BVal.str "s")]) :: [])) :: [("y", BVal.int 2)]) =
      some ([("x", BVal.int 1)] ++
        ([] ++ ([("a", BVal.int 1), ("b", BVal.str "s")].map
          fun kv => ("arr" ++ "." ++ kv.1, kv.2)) ++ []) ++ [("y", BVal.int 2)]) :=
  matchFiltersForUnwind_hoists_elemMatch "arr" [("x", BVal.int 1)] [("y", BVal.int 2)] [] []
    [("a", BVal.int 1), ("b", BVal.str "s")] [("x", BVal.int 1)] [("y", BVal.int 2)] [] []
    (by decide) rfl rfl rfl rfl

/-- C2 (evaluation of the code at the claim's own example): for the array
path `A` and the `$elemMatch` body `$or: [ ($and: [ (a: 1) ]) ]`, the
hoisted clause is `$or: [ (A.$and: [ (a: 1) ]) ]`: below the first level the
operator key `$and` is prefixed and the field key `a` under it is not. -/
theorem matchFiltersForUnwind_nested_operator :
    matchFiltersForUnwind "A"
        [("A", BVal.doc [("$elemMatch", BVal.doc
          [("$or", BVal.arr [BVal.doc [("$and", BVal.arr [BVal.doc [("a", BVal.int 1)]])]])])])] =
      some [("$or", BVal.arr [BVal.doc [("A.$and", BVal.arr [BVal.doc [("a", BVal.int 1)]])]])] :=
  rfl

/-- C3: every clause of the match filter whose key differs from `A`, or
whose value is not an ordered document, appears unchanged in the output of
`matchFiltersForUnwind A`, and these clauses keep their relative order (they
form a subsequence of the output); when no clause is keyed `A` with an
ordered-document value, the call returns exactly the clauses of the input. -/
theorem matchFiltersForUnwind_frame (A : String) (mtch : BsonD) :
    (∀ out, matchFiltersForUnwind A mtch = some out →
      (mtch.filter fun c => !(decide (c.1 = A) && isBsonD c.2)).Sublist out) ∧
    ((∀ c ∈ mtch, ¬ (c.1 = A ∧ isBsonD c.2 = true)) →
      matchFiltersForUnwind A mtch = some mtch) := by
  constructor
  · induction mtch with
    | nil => intro out _; simp
    | cons elem rest ih =>
      intro out h
      obtain ⟨k, v⟩ := elem
      by_cases hc : k = A ∧ isBsonD v = true
      · obtain ⟨hk, hv⟩ := hc
        cases v with
        | doc d =>
          simp only [matchFiltersForUnwind, hk, isBsonD, and_self, if_true] at h
          cases ht : transformArrayConditionsForUnwind A d with
          | none => simp [ht] at h
          | some t =>
            cases hm : matchFiltersForUnwind A rest with
            | none => simp [ht, hm] at h
            | some u =>
              simp [ht, hm] at h
              subst h
              have hsub := ih _ hm
              simp only [List.filter, hk, isBsonD, decide_True, Bool.and_self, Bool.not_true]
              exact List.Sublist.trans hsub (List.sublist_append_right _ _)
        | _ => simp [isBsonD] at hv
      · have hc2 : (!(decide (k = A) && isBsonD v)) = true := by
          by_cases hk : k = A
          · simp [hk] at hc ⊢; simpa using hc
          · simp [hk]
        simp only [matchFiltersForUnwind, hc, if_false] at h
        cases hm : matchFiltersForUnwind A rest <;> simp [hm] at h
        subst h
        simp only [List.filter, hc2]
        exact (ih _ hm).cons₂ _
  · induction mtch with
    | nil => intro _; rfl
    | cons elem rest ih =>
      intro h
      have h1 := h elem (List.mem_cons_self _ _)
      have h2 := ih fun c hc => h c (List.mem_cons_of_mem _ hc)
      simp [matchFiltersForUnwind, h1, h2]

theorem matchFiltersForUnwind_frame_witness :
    (([("x", BVal.int 1), ("arr", BVal.doc [("$elemMatch", BVal.doc [("a", BVal.int 1)])]),
        ("arr", BVal.int 3), ("y", BVal.doc [])] : BsonD).filter
          fun c => !(decide (c.1 = "arr") && isBsonD c.2)).Sublist
        [("x", BVal.int 1), ("arr.a", BVal.int 1), ("arr", BVal.int 3), ("y", BVal.doc [])] ∧
      matchFiltersForUnwind "arr" [("x", BVal.int 1), ("arr", BVal.int 3), ("y", BVal.doc [])] =
        some [("x", BVal.int 1), ("arr", BVal.int 3), ("y", BVal.doc [])] :=
  ⟨(matchFiltersForUnwind_frame "arr" _).1 _ rfl,
   (matchFiltersForUnwind_frame "arr" _).2 (by decide)⟩

/-- C4 (evaluation of the code at two inputs of the claim): the clause
`arr: ($size: 2)`, whose document holds no `$elemMatch`, comes out as the
top-level clause `$size: 2`, without the key `arr`; and in
`arr: ($size: 2, $elemMatch: (a: 1))` the sibling `$size: 2` comes out at top
level as well, beside the hoisted `arr.a: 1`. -/
theorem matchFiltersForUnwind_sibling_loses_key :
    matchFiltersForUnwind "arr" [("arr", BVal.doc [("$size", BVal.int 2)])] =
      some [("$size", BVal.int 2)] ∧
    matchFiltersForUnwind "arr"
        [("arr", BVal.doc [("$size", BVal.int 2), ("$elemMatch", BVal.doc [("a", BVal.int 1)])])] =
      some [("$size", BVal.int 2), ("arr.a", BVal.int 1)] :=
  ⟨rfl, rfl⟩

/-! ## The unique-value pipeline -/

theorem newPaths_mem (s : SchemaInfo) (fields handled : List String) (A : String)
    (h : A ∈ newPaths s fields handled) :
    A ∉ handled ∧ ∃ f ∈ fields, (s.GetArrayDetails f).1 = true ∧ (s.GetArrayDetails f).2.1 = A := by
  induction fields generalizing handled with
  | nil => simp [newPaths] at h
  | cons f rest ih =>
    simp only [newPaths] at h
    split at h
    · next hc =>
      rcases List.mem_cons.1 h with h | h
      · subst h
        exact ⟨hc.2, f, List.mem_cons_self _ _, hc.1, rfl⟩
      · obtain ⟨h1, g, hg, h2⟩ := ih _ h
        exact ⟨fun hA => h1 (List.mem_cons_of_mem _ hA), g, List.mem_cons_of_mem _ hg, h2⟩
    · obtain ⟨h1, g, hg, h2⟩ := ih _ h
      exact ⟨h1, g, List.mem_cons_of_mem _ hg, h2⟩

theorem newPaths_nodup (s : SchemaInfo) (fields handled : List String) :
    (newPaths s fields handled).Nodup := by
  induction fields generalizing handled with
  | nil => simp [newPaths]
  | cons f rest ih =>
    simp only [newPaths]
    split
    · refine List.nodup_cons.2 ⟨fun hmem => ?_, ih _⟩
      exact (newPaths_mem s rest _ _ hmem).1 (List.mem_cons_self _ _)
    · exact ih _

theorem newPaths_complete (s : SchemaInfo) (fields handled : List String) (f : String)
    (hf : f ∈ fields) (ha : (s.GetArrayDetails f).1 = true) :
    (s.GetArrayDetails f).2.1 ∈ newPaths s fields handled ∨ (s.GetArrayDetails f).2.1 ∈ handled := by
  induction fields generalizing handled with
  | nil => simp at hf
  | cons g rest ih =>
    simp only [newPaths]
    rcases List.mem_cons.1 hf with hfg | hfr
    · subst hfg
      split
      · exact Or.inl (List.mem_cons_self _ _)
      · next hc =>
        right
        by_contra hn
        exact hc ⟨ha, hn⟩
    · split
      · rcases ih _ hfr with h | h
        · exact Or.inl (List.mem_cons_of_mem _ h)
        · rcases List.mem_cons.1 h with h | h
          · left; rw [h]; exact List.mem_cons_self _ _
          · exact Or.inr h
      · exact ih _ hfr

theorem unwindLoop_eq (s : SchemaInfo) (mtch : BsonD) (fields : List String)
    (pl : Pipeline) (handled : List String) (h : RewritesSucceed s mtch fields) :
    unwindLoop s mtch fields (pl, handled) =
      some (pl ++ (newPaths s fields handled).flatMap (unwindStages mtch),
        (newPaths s fields handled).reverse ++ handled) := by
  induction fields generalizing pl handled with
  | nil => simp [unwindLoop, newPaths]
  | cons f rest ih =>
    have hrest : RewritesSucceed s mtch rest := fun g hg => h g (List.mem_cons_of_mem _ hg)
    simp only [unwindLoop, newPaths]
    split
    · next hc =>
      have hsome := h f (List.mem_cons_self _ _) hc.1
      cases hm : matchFiltersForUnwind (s.GetArrayDetails f).2.1 mtch with
      | none => simp [hm] at hsome
      | some m =>
        simp only []
        rw [ih _ _ hrest]
        simp [unwindStages, hm]
    · exact ih _ _ hrest

theorem uniqueValuePipeline_eq (fields : List String) (mtch : BsonD) (skip limit : Int)
    (s : SchemaInfo) (h : RewritesSucceed s mtch fields) :
    uniqueValuePipeline fields mtch skip limit s =
      some (matchStage mtch :: (newPaths s fields []).flatMap (unwindStages mtch) ++
        setStages fields ++ [groupStage (groupRef fields), sortStage] ++
        pagingStages skip limit) := by
  unfold uniqueValuePipeline
  rw [unwindLoop_eq s mtch fields _ _ h]
  match fields with
  | [] => by_cases hs : skip > 0 <;> simp [setStages, groupRef, pagingStages, hs]
  | [f] => by_cases hs : skip > 0 <;> simp [setStages, groupRef, pagingStages, hs]
  | f :: g :: rest => by_cases hs : skip > 0 <;> simp [setStages, groupRef, pagingStages, hs]

theorem filter_unwind_unwindStages (mtch : BsonD) (paths : List String) :
    (paths.flatMap (unwindStages mtch)).filter
        (fun st => decide (stageName st = some "$unwind")) = paths.map unwindStage := by
  induction paths with
  | nil => rfl
  | cons A rest ih =>
    rw [List.flatMap_cons, List.filter_append, ih]
    simp [unwindStages, unwindStage, matchStage, stageName, List.filter]

theorem stageName_setStages (fields : List String) :
    ∀ st ∈ setStages fields, stageName st = some "$set" := by
  intro st hst
  match fields with
  | [] => simp [setStages] at hst; subst hst; rfl
  | [f] => simp [setStages] at hst
  | f :: g :: rest => simp [setStages] at hst; subst hst; rfl

theorem stageName_unwindStages (mtch : BsonD) (paths : List String) :
    ∀ st ∈ paths.flatMap (unwindStages mtch),
      stageName st = some "$match" ∨ stageName st = some "$unwind" := by
  intro st hst
  obtain ⟨A, _, hA⟩ := List.mem_flatMap.1 hst
  simp only [unwindStages, List.mem_cons, List.mem_singleton, List.not_mem_nil, or_false] at hA
  rcases hA with hA | hA
  · right; subst hA; rfl
  · left; subst hA; rfl

theorem filter_unwind_tail (fields : List String) (skip limit : Int) :
    (setStages fields ++ [groupStage (groupRef fields), sortStage] ++
      pagingStages skip limit).filter (fun st => decide (stageName st = some "$unwind")) = [] := by
  rw [List.filter_eq_nil_iff]
  intro st hst
  simp only [List.mem_append, List.mem_cons, List.mem_singleton, List.not_mem_nil, or_false,
    pagingStages] at hst
  rcases hst with (hst | hst | hst) | hst | hst | hst | hst
  · rw [stageName_setStages fields st hst]; decide
  · subst hst; simp [stageName, groupStage]
  · subst hst; decide
  · split at hst
    · simp only [List.mem_singleton] at hst; subst hst; simp [stageName, skipStage]
    · simp at hst
  · subst hst; simp [stageName, limitStage]
  · subst hst; decide
  · subst hst; decide

theorem stringsHasPrefix_of_encloses (ap path : String) (h : encloses ap path = true) :
    stringsHasPrefix path ap = true := by
  unfold encloses at h
  unfold stringsHasPrefix at h ⊢
  rcases Bool.or_eq_true _ _ ▸ h with h1 | h1
  · have h2 : path = ap := of_decide_eq_true h1
    subst h2
    simp
  · rw [ List.isPrefixOf_iff_prefix] at h1 ⊢
    rw [String.data_append] at h1
    exact ( List.prefix_append ap.data ".".data).trans h1

theorem getArrayDetailsLoop_first (path ap : String) (l1 l2 : List String)
    (hno : ∀ x ∈ l1, stringsHasPrefix path x = false)
    (hap : stringsHasPrefix path ap = true) :
    (getArrayDetailsLoop path (l1 ++ ap :: l2)).1 = true ∧
      (getArrayDetailsLoop path (l1 ++ ap :: l2)).2.1 = ap := by
  induction l1 with
  | nil => simp [getArrayDetailsLoop, hap]
  | cons x rest ih =>
    have hx := hno x (List.mem_cons_self _ _)
    have hr := ih fun y hy => hno y (List.mem_cons_of_mem _ hy)
    simpa [getArrayDetailsLoop, hx] using hr

/-- C5 (counterexample): the requested fields `a.b.x` and `a.b.y` both lie
under the array path `a.b` of the schema with the array paths `a` and `a.b`,
and the pipeline holds no `$unwind` of `a.b`: its one `$unwind` stage is
`$unwind: "$a"`, the path that stands first in `ArrayPaths`. -/
theorem uniqueValuePipeline_unwinds_first_listed :
    encloses "a.b" "a.b.x" = true ∧ encloses "a.b" "a.b.y" = true ∧
    uniqueValuePipeline ["a.b.x", "a.b.y"] [] 0 10 ⟨["a", "a.b"]⟩ =
      some [[("$match", BVal.doc [])],
        [("$unwind", BVal.str "$a")],
        [("$match", BVal.doc [])],
        [("$set", BVal.map [("a_b_x", BVal.str "$a.b.x"), ("a_b_y", BVal.str "$a.b.y")])],
        [("$group", BVal.doc
          [("_id", BVal.map [("a_b_x", BVal.str "$a_b_x"), ("a_b_y", BVal.str "$a_b_y")]),
           ("count", BVal.doc [("$sum", BVal.int 1)])])],
        [("$sort", BVal.doc [("_id", BVal.int 1)])],
        [("$limit", BVal.int64 10)],
        [("$group", BVal.doc [("_id", BVal.null),
          ("values", BVal.doc [("$push", BVal.str "$_id")]),
          ("count", BVal.doc [("$push",
            BVal.doc [("key", BVal.str "$_id"), ("count", BVal.str "$count")])])])],
        [("$project", BVal.doc
          [("_id", BVal.int 0), ("values", BVal.int 1), ("count", BVal.int 1)])]] :=
  ⟨by decide, by decide, rfl⟩

/-- C5 (amended): when `uniqueValuePipeline` builds a pipeline (no rewrite of
the match filter panics), its `$unwind` stages are the stages
`$unwind: "$" + A` for `A` running through a list `paths` without repetition,
so there is at most one `$unwind` stage per array path; `paths` holds the
array paths that `GetArrayDetails` reports for the requested fields; and an
array path `A` of the schema is unwound exactly once as soon as some
requested field lies under it and no entry before `A` in `ArrayPaths` is a
string prefix of that field, however many such fields are requested. -/
theorem uniqueValuePipeline_unwinds_once (fields : List String) (mtch : BsonD)
    (skip limit : Int) (s : SchemaInfo) (h : RewritesSucceed s mtch fields) :
    ∃ (p : Pipeline) (paths : List String), uniqueValuePipeline fields mtch skip limit s = some p ∧
      p.filter (fun st => decide (stageName st = some "$unwind")) =
        paths.map (fun A => [("$unwind", BVal.str ("$" ++ A))]) ∧
      paths.Nodup ∧
      (∀ A, A ∈ paths ↔
        ∃ f ∈ fields, (s.GetArrayDetails f).1 = true ∧ (s.GetArrayDetails f).2.1 = A) ∧
      ∀ (A : String) (l1 l2 : List String), s.ArrayPaths = l1 ++ A :: l2 →
        ∀ f ∈ fields, encloses A f = true → (∀ ap ∈ l1, stringsHasPrefix f ap = false) →
          paths.count A = 1 := by
  have hmem : ∀ f ∈ fields, (s.GetArrayDetails f).1 = true →
      (s.GetArrayDetails f).2.1 ∈ newPaths s fields [] := by
    intro f hf ha
    rcases newPaths_complete s fields [] f hf ha with h1 | h1
    · exact h1
    · simp at h1
  refine ⟨_, newPaths s fields [], uniqueValuePipeline_eq fields mtch skip limit s h, ?_,
    newPaths_nodup s fields [], ?_, ?_⟩
  · rw [List.append_assoc, List.append_assoc, ← List.append_assoc (setStages fields),
      List.filter_append, filter_unwind_tail, List.append_nil]
    rw [List.filter_cons]
    simp only [matchStage, stageName, List.head?_cons, Option.map_some']
    rw [if_neg (show ¬ decide (some "$match" = some "$unwind") = true by decide)]
    exact filter_unwind_unwindStages mtch _
  · intro A
    constructor
    · intro hA
      exact (newPaths_mem s fields [] A hA).2
    · rintro ⟨f, hf, ha, rfl⟩
      exact hmem f hf ha
  · intro A l1 l2 hs f hf henc hno
    have hd := getArrayDetailsLoop_first f A l1 l2 hno (stringsHasPrefix_of_encloses A f henc)
    have h1 : (s.GetArrayDetails f).1 = true := by
      unfold SchemaInfo.GetArrayDetails; rw [hs]; exact hd.1
    have h2 : (s.GetArrayDetails f).2.1 = A := by
      unfold SchemaInfo.GetArrayDetails; rw [hs]; exact hd.2
    have := hmem f hf h1
    rw [h2] at this
    exact List.count_eq_one_of_mem (newPaths_nodup s fields []) this

theorem uniqueValuePipeline_unwinds_once_witness :
    (∃ (p : Pipeline) (paths : List String), uniqueValuePipeline ["a.b", "a.c", "n", "t.u"]
        [("a", BVal.doc [("$elemMatch", BVal.doc [("b", BVal.int 1)])])] 0 10 ⟨["a", "t"]⟩ =
          some p ∧
      p.filter (fun st => decide (stageName st = some "$unwind")) =
        paths.map (fun A => [("$unwind", BVal.str ("$" ++ A))]) ∧
      paths.Nodup ∧
      (∀ A, A ∈ paths ↔
        ∃ f ∈ ["a.b", "a.c", "n", "t.u"],
          ((⟨["a", "t"]⟩ : SchemaInfo).GetArrayDetails f).1 = true ∧
          ((⟨["a", "t"]⟩ : SchemaInfo).GetArrayDetails f).2.1 = A) ∧
      ∀ (A : String) (l1 l2 : List String), (⟨["a", "t"]⟩ : SchemaInfo).ArrayPaths = l1 ++ A :: l2 →
        ∀ f ∈ ["a.b", "a.c", "n", "t.u"], encloses A f = true →
          (∀ ap ∈ l1, stringsHasPrefix f ap = false) → paths.count A = 1) ∧
    (uniqueValuePipeline ["a.b", "a.c", "n", "t.u"]
        [("a", BVal.doc [("$elemMatch", BVal.doc [("b", BVal.int 1)])])] 0 10 ⟨["a", "t"]⟩).map
        (fun p => p.filter (fun st => decide (stageName st = some "$unwind"))) =
      some [[("$unwind", BVal.str "$a")], [("$unwind", BVal.str "$t")]] :=
  ⟨uniqueValuePipeline_unwinds_once ["a.b", "a.c", "n", "t.u"]
    [("a", BVal.doc [("$elemMatch", BVal.doc [("b", BVal.int 1)])])] 0 10 ⟨["a", "t"]⟩
    (by decide), rfl⟩

theorem unwindLoop_isSome (s : SchemaInfo) (mtch : BsonD) (fields : List String)
    (pl : Pipeline) (handled : List String)
    (hh : ∀ A ∈ handled, (matchFiltersForUnwind A mtch).isSome = true)
    (h : (unwindLoop s mtch fields (pl, handled)).isSome = true) :
    RewritesSucceed s mtch fields := by
  induction fields generalizing pl handled with
  | nil => intro f hf; simp at hf
  | cons g rest ih =>
    simp only [unwindLoop] at h
    split at h
    · next hc =>
      cases hm : matchFiltersForUnwind (s.GetArrayDetails g).2.1 mtch with
      | none => simp [hm] at h
      | some m =>
        simp only [hm] at h
        have hh2 : ∀ A ∈ (s.GetArrayDetails g).2.1 :: handled,
            (matchFiltersForUnwind A mtch).isSome = true := by
          intro A hA
          rcases List.mem_cons.1 hA with hA | hA
          · rw [hA, hm]; rfl
          · exact hh A hA
        have hrest := ih _ _ hh2 h
        intro f hf ha
        rcases List.mem_cons.1 hf with hf | hf
        · rw [hf, hm]; rfl
        · exact hrest f hf ha
    · next hc =>
      have hrest := ih _ _ hh h
      intro f hf ha
      rcases List.mem_cons.1 hf with hf | hf
      · subst hf
        by_cases hin : (s.GetArrayDetails f).2.1 ∈ handled
        · exact hh _ hin
        · exact absurd ⟨ha, hin⟩ hc
      · exact hrest f hf ha

/-- The pipeline is built exactly when no rewrite of the match filter panics. -/
theorem uniqueValuePipeline_isSome_iff (fields : List String) (mtch : BsonD)
    (skip limit : Int) (s : SchemaInfo) :
    (uniqueValuePipeline fields mtch skip limit s).isSome = true ↔
      RewritesSucceed s mtch fields := by
  constructor
  · intro h
    apply unwindLoop_isSome s mtch fields [matchStage mtch] [] (by simp)
    unfold uniqueValuePipeline at h
    cases hu : unwindLoop s mtch fields ([matchStage mtch], []) with
    | none => simp [hu] at h
    | some r => rfl
  · intro h
    rw [uniqueValuePipeline_eq fields mtch skip limit s h]
    rfl

/-- When `uniqueValuePipeline` builds a pipeline (no rewrite of the match
filter panics), the pipeline starts with `$match` of the given match filter;
for every requested field for which `GetArrayDetails` reports an array path
`A`, it contains the stage `$unwind: "$" + A` immediately followed by the
stage `$match: matchFiltersForUnwind(A, match)`; and when `GetArrayDetails`
reports an array path for no requested field, no stage of it is a `$unwind`. -/
theorem uniqueValuePipeline_unwind_then_match (fields : List String) (mtch : BsonD)
    (skip limit : Int) (s : SchemaInfo) (h : RewritesSucceed s mtch fields) :
    ∃ p : Pipeline, uniqueValuePipeline fields mtch skip limit s = some p ∧
      p.head? = some [("$match", BVal.doc mtch)] ∧
      (∀ f ∈ fields, (s.GetArrayDetails f).1 = true →
        ∃ m, matchFiltersForUnwind (s.GetArrayDetails f).2.1 mtch = some m ∧
          [[("$unwind", BVal.str ("$" ++ (s.GetArrayDetails f).2.1))],
            [("$match", BVal.doc m)]] <:+: p) ∧
      ((∀ f ∈ fields, (s.GetArrayDetails f).1 = false) →
        ∀ st ∈ p, stageName st ≠ some "$unwind") := by
  refine ⟨_, uniqueValuePipeline_eq fields mtch skip limit s h, rfl, ?_, ?_⟩
  · intro f hf ha
    have hsome := h f hf ha
    cases hm : matchFiltersForUnwind (s.GetArrayDetails f).2.1 mtch with
    | none => simp [hm] at hsome
    | some m =>
      refine ⟨m, rfl, ?_⟩
      have hin : (s.GetArrayDetails f).2.1 ∈ newPaths s fields [] := by
        rcases newPaths_complete s fields [] f hf ha with h1 | h1
        · exact h1
        · simp at h1
      obtain ⟨l1, l2, hl⟩ := List.append_of_mem hin
      rw [hl]
      refine ⟨matchStage mtch :: l1.flatMap (unwindStages mtch),
        l2.flatMap (unwindStages mtch) ++ setStages fields ++
          [groupStage (groupRef fields), sortStage] ++ pagingStages skip limit, ?_⟩
      simp [List.flatMap_append, List.flatMap_cons, unwindStages, hm, unwindStage, matchStage]
  · intro hno st hst
    have hnil : newPaths s fields [] = [] := by
      rw [List.eq_nil_iff_forall_not_mem]
      intro A hA
      obtain ⟨_, f, hf, ha, _⟩ := newPaths_mem s fields [] A hA
      rw [hno f hf] at ha
      exact Bool.noConfusion ha
    rw [hnil] at hst
    have hfil := filter_unwind_tail fields skip limit
    rw [List.filter_eq_nil_iff] at hfil
    simp only [List.flatMap_nil, List.cons_append, List.nil_append, List.mem_cons] at hst
    rcases hst with hst | hst
    · subst hst; simp [stageName, matchStage]
    · have := hfil st (by simpa [List.append_assoc] using hst)
      simpa using this

/-- C6 (evaluation of the code at a failing input): the field `tagsCount` is
requested and the schema has the single array path `tags`. No requested field
lies under an array (`tags` does not enclose `tagsCount`), yet the pipeline
holds the stage `$unwind: "$tags"`, followed by the re-applied `$match`. -/
theorem uniqueValuePipeline_unwinds_bare_prefix :
    encloses "tags" "tagsCount" = false ∧
    uniqueValuePipeline ["tagsCount"] [("n", BVal.int 1)] 0 10 ⟨["tags"]⟩ =
      some [[("$match", BVal.doc [("n", BVal.int 1)])],
        [("$unwind", BVal.str "$tags")],
        [("$match", BVal.doc [("n", BVal.int 1)])],
        [("$group", BVal.doc
          [("_id", BVal.str "$tagsCount"), ("count", BVal.doc [("$sum", BVal.int 1)])])],
        [("$sort", BVal.doc [("_id", BVal.int 1)])],
        [("$limit", BVal.int64 10)],
        [("$group", BVal.doc [("_id", BVal.null),
          ("values", BVal.doc [("$push", BVal.str "$_id")]),
          ("count", BVal.doc [("$push",
            BVal.doc [("key", BVal.str "$_id"), ("count", BVal.str "$count")])])])],
        [("$project", BVal.doc
          [("_id", BVal.int 0), ("values", BVal.int 1), ("count", BVal.int 1)])]] :=
  ⟨by decide, rfl⟩

/-- C7: when `uniqueValuePipeline` builds a pipeline (no rewrite of the match
filter panics), the pipeline ends with the stages, in this order: `$group`
whose `_id` is the key (`"$" + f` for the one requested field `f`, the map of
the synthetic names otherwise) with the count `$sum: 1`, `$sort` by `_id`
ascending, `$skip: skip` (present exactly when `skip > 0`), `$limit: limit`,
the `$group` with `_id: null` that pushes the keys into `values` and the
key+count pairs into `count`, and the `$project` keeping `values` and `count`;
every stage before them is a `$match`, a `$unwind` or a `$set`, so `$skip` and
`$limit` come after the grouping and the sorting and act on the groups. -/
theorem uniqueValuePipeline_tail (fields : List String) (mtch : BsonD)
    (skip limit : Int) (s : SchemaInfo) (h : RewritesSucceed s mtch fields) :
    ∃ (front : Pipeline) (filedRef : BVal),
      uniqueValuePipeline fields mtch skip limit s =
        some (front ++
          [[("$group", BVal.doc [("_id", filedRef), ("count", BVal.doc [("$sum", BVal.int 1)])])],
           [("$sort", BVal.doc [("_id", BVal.int 1)])]] ++
          (if skip > 0 then [[("$skip", BVal.int64 skip)]] else []) ++
          [[("$limit", BVal.int64 limit)],
           [("$group", BVal.doc [("_id", BVal.null),
              ("values", BVal.doc [("$push", BVal.str "$_id")]),
              ("count", BVal.doc [("$push",
                BVal.doc [("key", BVal.str "$_id"), ("count", BVal.str "$count")])])])],
           [("$project", BVal.doc
              [("_id", BVal.int 0), ("values", BVal.int 1), ("count", BVal.int 1)])]]) ∧
      (∀ f, fields = [f] → filedRef = BVal.str ("$" ++ f)) ∧
      (fields.length ≠ 1 → filedRef = BVal.map (setLoop fields ([], [])).2) ∧
      ∀ st ∈ front, stageName st = some "$match" ∨ stageName st = some "$unwind" ∨
        stageName st = some "$set" := by
  refine ⟨matchStage mtch :: (newPaths s fields []).flatMap (unwindStages mtch) ++
    setStages fields, groupRef fields, ?_, ?_, ?_, ?_⟩
  · rw [uniqueValuePipeline_eq fields mtch skip limit s h]
    simp [pagingStages, List.append_assoc, groupStage, sortStage, skipStage, limitStage,
      collectStage, projectStage]
  · intro f hf
    subst hf
    rfl
  · intro hlen
    match fields, hlen with
    | [], _ => rfl
    | [f], hlen => exact absurd rfl hlen
    | f :: g :: rest, _ => rfl
  · intro st hst
    simp only [List.mem_append, List.mem_cons] at hst
    rcases hst with (hst | hst) | hst
    · left; subst hst; rfl
    · rcases stageName_unwindStages mtch _ st hst with h1 | h1
      · exact Or.inl h1
      · exact Or.inr (Or.inl h1)
    · exact Or.inr (Or.inr (stageName_setStages fields st hst))

theorem uniqueValuePipeline_tail_witness :
    (∃ (front : Pipeline) (filedRef : BVal),
      uniqueValuePipeline ["a.b", "n"]
          [("a", BVal.doc [("$elemMatch", BVal.doc [("b", BVal.int 1)])])] 5 10 ⟨["a"]⟩ =
        some (front ++
          [[("$group", BVal.doc [("_id", filedRef), ("count", BVal.doc [("$sum", BVal.int 1)])])],
           [("$sort", BVal.doc [("_id", BVal.int 1)])]] ++
          (if (5 : Int) > 0 then [[("$skip", BVal.int64 5)]] else []) ++
          [[("$limit", BVal.int64 10)],
           [("$group", BVal.doc [("_id", BVal.null),
              ("values", BVal.doc [("$push", BVal.str "$_id")]),
              ("count", BVal.doc [("$push",
                BVal.doc [("key", BVal.str "$_id"), ("count", BVal.str "$count")])])])],
           [("$project", BVal.doc
              [("_id", BVal.int 0), ("values", BVal.int 1), ("count", BVal.int 1)])]]) ∧
      (∀ f, ["a.b", "n"] = [f] → filedRef = BVal.str ("$" ++ f)) ∧
      (["a.b", "n"].length ≠ 1 → filedRef = BVal.map (setLoop ["a.b", "n"] ([], [])).2) ∧
      ∀ st ∈ front, stageName st = some "$match" ∨ stageName st = some "$unwind" ∨
        stageName st = some "$set") ∧
    uniqueValuePipeline ["a.b", "n"]
        [("a", BVal.doc [("$elemMatch", BVal.doc [("b", BVal.int 1)])])] 5 10 ⟨["a"]⟩ =
      some [[("$match", BVal.doc [("a", BVal.doc [("$elemMatch", BVal.doc [("b", BVal.int 1)])])])],
        [("$unwind", BVal.str "$a")],
        [("$match", BVal.doc [("a.b", BVal.int 1)])],
        [("$set", BVal.map [("a_b", BVal.str "$a.b"), ("n", BVal.str "$n")])],
        [("$group", BVal.doc
          [("_id", BVal.map [("a_b", BVal.str "$a_b"), ("n", BVal.str "$n")]),
           ("count", BVal.doc [("$sum", BVal.int 1)])])],
        [("$sort", BVal.doc [("_id", BVal.int 1)])],
        [("$skip", BVal.int64 5)],
        [("$limit", BVal.int64 10)],
        [("$group", BVal.doc [("_id", BVal.null),
          ("values", BVal.doc [("$push", BVal.str "$_id")]),
          ("count", BVal.doc [("$push",
            BVal.doc [("key", BVal.str "$_id"), ("count", BVal.str "$count")])])])],
        [("$project", BVal.doc
          [("_id", BVal.int 0), ("values", BVal.int 1), ("count", BVal.int 1)])]] :=
  ⟨uniqueValuePipeline_tail ["a.b", "n"]
    [("a", BVal.doc [("$elemMatch", BVal.doc [("b", BVal.int 1)])])] 5 10 ⟨["a"]⟩
    (by decide), rfl⟩

/-! ## The synthetic composite key -/

theorem mapGet_mapSet (m : BsonM) (k : String) (v : BVal) (k2 : String) :
    mapGet (mapSet m k v) k2 = if k = k2 then some v else mapGet m k2 := by
  induction m with
  | nil => simp [mapSet, mapGet]
  | cons e rest ih =>
    obtain ⟨k1, v1⟩ := e
    by_cases h1 : k1 = k
    · subst h1
      by_cases h2 : k1 = k2 <;> simp [mapSet, mapGet, h2]
    · by_cases h2 : k1 = k2
      · subst h2
        have h3 : ¬ k = k1 := fun hh => h1 hh.symm
        simp [mapSet, mapGet, h1, h3]
      · simp [mapSet, mapGet, h1, h2, ih]

theorem setLoop_get_of_not_mem (fields : List String) (sm gm : BsonM) (k : String)
    (h : ∀ g ∈ fields, cleanField g ≠ k) :
    mapGet (setLoop fields (sm, gm)).1 k = mapGet sm k ∧
      mapGet (setLoop fields (sm, gm)).2 k = mapGet gm k := by
  induction fields generalizing sm gm with
  | nil => exact ⟨rfl, rfl⟩
  | cons f rest ih =>
    have hf : ¬ stringsReplaceAll f '.' '_' = k := h f (List.mem_cons_self _ _)
    have hr := ih (mapSet sm (stringsReplaceAll f '.' '_') (BVal.str ("$" ++ f)))
      (mapSet gm (stringsReplaceAll f '.' '_') (BVal.str ("$" ++ stringsReplaceAll f '.' '_')))
      fun g hg => h g (List.mem_cons_of_mem _ hg)
    simp only [setLoop]
    rw [hr.1, hr.2, mapGet_mapSet, mapGet_mapSet, if_neg hf, if_neg hf]
    exact ⟨rfl, rfl⟩

theorem setLoop_get_set (fields : List String) (sm gm : BsonM) (f : String) (hf : f ∈ fields)
    (hinj : ∀ g ∈ fields, cleanField g = cleanField f → g = f) :
    mapGet (setLoop fields (sm, gm)).1 (cleanField f) = some (BVal.str ("$" ++ f)) := by
  induction fields generalizing sm gm with
  | nil => simp at hf
  | cons g rest ih =>
    simp only [setLoop]
    by_cases hin : f ∈ rest
    · exact ih _ _ hin fun x hx => hinj x (List.mem_cons_of_mem _ hx)
    · have hfg : f = g := by
        rcases List.mem_cons.1 hf with h | h
        · exact h
        · exact absurd h hin
      subst hfg
      have hno : ∀ x ∈ rest, cleanField x ≠ cleanField f := by
        intro x hx hc
        have := hinj x (List.mem_cons_of_mem _ hx) hc
        exact hin (this ▸ hx)
      rw [(setLoop_get_of_not_mem rest _ _ _ hno).1, mapGet_mapSet]
      simp [cleanField]

theorem setLoop_get_group (fields : List String) (sm gm : BsonM) (f : String) (hf : f ∈ fields) :
    mapGet (setLoop fields (sm, gm)).2 (cleanField f) =
      some (BVal.str ("$" ++ cleanField f)) := by
  induction fields generalizing sm gm f with
  | nil => simp at hf
  | cons g rest ih =>
    simp only [setLoop]
    by_cases hex : ∃ x ∈ rest, cleanField x = cleanField f
    · obtain ⟨x, hx, hc⟩ := hex
      rw [← hc]
      exact ih _ _ x hx
    · have hno : ∀ x ∈ rest, cleanField x ≠ cleanField f := fun x hx hc => hex ⟨x, hx, hc⟩
      have hfg : f = g := by
        rcases List.mem_cons.1 hf with h | h
        · exact h
        · exact absurd rfl (hno f h)
      subst hfg
      rw [(setLoop_get_of_not_mem rest _ _ _ hno).2, mapGet_mapSet]
      simp [cleanField]

theorem setLoop_keys (fields : List String) (sm gm : BsonM) (k : String) :
    ((mapGet (setLoop fields (sm, gm)).1 k).isSome = true →
      (mapGet sm k).isSome = true ∨ ∃ f ∈ fields, k = cleanField f) ∧
    ((mapGet (setLoop fields (sm, gm)).2 k).isSome = true →
      (mapGet gm k).isSome = true ∨ ∃ f ∈ fields, k = cleanField f) := by
  by_cases hex : ∃ f ∈ fields, k = cleanField f
  · exact ⟨fun _ => Or.inr hex, fun _ => Or.inr hex⟩
  · have hno : ∀ g ∈ fields, cleanField g ≠ k := fun g hg hc => hex ⟨g, hg, hc.symm⟩
    obtain ⟨h1, h2⟩ := setLoop_get_of_not_mem fields sm gm k hno
    rw [h1, h2]
    exact ⟨Or.inl, Or.inl⟩

theorem stageName_front_ne_set (mtch : BsonD) (paths : List String) :
    ∀ st ∈ matchStage mtch :: paths.flatMap (unwindStages mtch), stageName st ≠ some "$set" := by
  intro st hst
  rcases List.mem_cons.1 hst with hst | hst
  · subst hst; simp [stageName, matchStage]
  · rcases stageName_unwindStages mtch paths st hst with h1 | h1 <;> rw [h1] <;> decide

theorem stageName_tail_ne_set (filedRef : BVal) (skip limit : Int) :
    ∀ st ∈ [groupStage filedRef, sortStage] ++ pagingStages skip limit,
      stageName st ≠ some "$set" := by
  intro st hst
  simp only [List.mem_append, List.mem_cons, List.mem_singleton, List.not_mem_nil, or_false,
    pagingStages] at hst
  rcases hst with (hst | hst) | hst | hst | hst | hst
  · subst hst; simp [stageName, groupStage]
  · subst hst; decide
  · split at hst
    · simp only [List.mem_singleton] at hst; subst hst; simp [stageName, skipStage]
    · simp at hst
  · subst hst; simp [stageName, limitStage]
  · subst hst; decide
  · subst hst; decide

/-- C8 (counterexample): for the two requested fields `a.b` and `a_b`, whose
synthetic names are both `a_b`, the `$set` stage is `a_b: "$a_b"`: it does not
map the synthetic name of the field `a.b` to `"$a.b"`. -/
theorem uniqueValuePipeline_set_stage_collision :
    uniqueValuePipeline ["a.b", "a_b"] [] 0 10 ⟨[]⟩ =
      some [matchStage [], [("$set", BVal.map [("a_b", BVal.str "$a_b")])],
        groupStage (BVal.map [("a_b", BVal.str "$a_b")]), sortStage,
        limitStage 10, collectStage, projectStage] ∧
    cleanField "a.b" = "a_b" ∧
    mapGet [("a_b", BVal.str "$a_b")] (cleanField "a.b") ≠ some (BVal.str ("$" ++ "a.b")) := by
  refine ⟨rfl, by decide, ?_⟩
  intro hEq
  have h2 : some (BVal.str "$a_b") = some (BVal.str "$a.b") := hEq
  injection h2 with h3
  injection h3 with h4
  exact absurd h4 (by decide)

/-- C8 (amended): when `uniqueValuePipeline` builds a pipeline (no rewrite of
the match filter panics) and exactly one field `f` is requested, no stage is a
`$set` and the `$group` stage groups directly on `"$" + f`; when two or more
fields are requested, there is exactly one `$set` stage, it stands immediately
before the `$group`, its map sends the synthetic name of every requested field
`f` (the field name with every `.` replaced by `_`) to `"$" + f` provided no
other requested field has the same synthetic name, the group `_id` map sends
each synthetic name to `"$"` + that name, and neither map has other keys. -/
theorem uniqueValuePipeline_set_stage (fields : List String) (mtch : BsonD)
    (skip limit : Int) (s : SchemaInfo) (h : RewritesSucceed s mtch fields) :
    (∀ f, fields = [f] →
      ∃ (p front : Pipeline), uniqueValuePipeline fields mtch skip limit s = some p ∧
        p = front ++ [groupStage (BVal.str ("$" ++ f)), sortStage] ++ pagingStages skip limit ∧
        ∀ st ∈ p, stageName st ≠ some "$set") ∧
    (2 ≤ fields.length →
      ∃ (p front : Pipeline) (setM groupM : BsonM),
        uniqueValuePipeline fields mtch skip limit s = some p ∧
        p = front ++ [[("$set", BVal.map setM)], groupStage (BVal.map groupM), sortStage] ++
          pagingStages skip limit ∧
        p.filter (fun st => decide (stageName st = some "$set")) = [[("$set", BVal.map setM)]] ∧
        (∀ f ∈ fields, (∀ g ∈ fields, cleanField g = cleanField f → g = f) →
          mapGet setM (cleanField f) = some (BVal.str ("$" ++ f))) ∧
        (∀ f ∈ fields, mapGet groupM (cleanField f) = some (BVal.str ("$" ++ cleanField f))) ∧
        ∀ k, (mapGet setM k).isSome = true ∨ (mapGet groupM k).isSome = true →
          ∃ f ∈ fields, k = cleanField f) := by
  have heq := uniqueValuePipeline_eq fields mtch skip limit s h
  constructor
  · intro f hf
    subst hf
    refine ⟨_, matchStage mtch :: (newPaths s [f] []).flatMap (unwindStages mtch), heq, ?_, ?_⟩
    · simp [setStages, groupRef]
    · intro st hst
      simp only [setStages, groupRef, List.append_nil, List.mem_append] at hst
      rcases hst with (hst | hst) | hst
      · exact stageName_front_ne_set mtch _ st hst
      · exact stageName_tail_ne_set _ skip limit st (List.mem_append_left _ hst)
      · exact stageName_tail_ne_set (BVal.null) skip limit st (List.mem_append_right _ hst)
  · intro hlen
    match fields, hlen, h, heq with
    | f :: g :: rest, _, h, heq =>
      refine ⟨_, matchStage mtch :: (newPaths s (f :: g :: rest) []).flatMap (unwindStages mtch),
        (setLoop (f :: g :: rest) ([], [])).1, (setLoop (f :: g :: rest) ([], [])).2,
        heq, ?_, ?_, ?_, ?_, ?_⟩
      · simp [setStages, groupRef]
      · have h1 := List.filter_eq_nil_iff.2 (fun st hst => by
          simpa using stageName_front_ne_set mtch (newPaths s (f :: g :: rest) []) st hst :
          ∀ st ∈ matchStage mtch :: (newPaths s (f :: g :: rest) []).flatMap (unwindStages mtch),
            ¬ (decide (stageName st = some "$set")) = true)
        have h2 := List.filter_eq_nil_iff.2 (fun st hst => by
          simpa using stageName_tail_ne_set (groupRef (f :: g :: rest)) skip limit st hst :
          ∀ st ∈ [groupStage (groupRef (f :: g :: rest)), sortStage] ++ pagingStages skip limit,
            ¬ (decide (stageName st = some "$set")) = true)
        rw [List.append_assoc, List.append_assoc, List.filter_append, h1, List.filter_append,
          List.filter_append, ← List.filter_append, h2]
        simp [setStages, stageName, List.filter]
      · intro x hx hinj
        exact setLoop_get_set _ _ _ x hx hinj
      · intro x hx
        exact setLoop_get_group _ _ _ x hx
      · intro k hk
        rcases hk with hk | hk
        · rcases (setLoop_keys (f :: g :: rest) [] [] k).1 hk with h0 | h0
          · simp [mapGet] at h0
          · exact h0
        · rcases (setLoop_keys (f :: g :: rest) [] [] k).2 hk with h0 | h0
          · simp [mapGet] at h0
          · exact h0

theorem uniqueValuePipeline_set_stage_witness :
    (∃ (p front : Pipeline), uniqueValuePipeline ["n"] [] 0 10 ⟨["a"]⟩ = some p ∧
        p = front ++ [groupStage (BVal.str ("$" ++ "n")), sortStage] ++ pagingStages 0 10 ∧
        ∀ st ∈ p, stageName st ≠ some "$set") ∧
    (∃ (p front : Pipeline) (setM groupM : BsonM),
        uniqueValuePipeline ["a.b", "n"] [] 0 10 ⟨["a"]⟩ = some p ∧
        p = front ++ [[("$set", BVal.map setM)], groupStage (BVal.map groupM), sortStage] ++
          pagingStages 0 10 ∧
        p.filter (fun st => decide (stageName st = some "$set")) = [[("$set", BVal.map setM)]] ∧
        (∀ f ∈ ["a.b", "n"], (∀ g ∈ ["a.b", "n"], cleanField g = cleanField f → g = f) →
          mapGet setM (cleanField f) = some (BVal.str ("$" ++ f))) ∧
        (∀ f ∈ ["a.b", "n"],
          mapGet groupM (cleanField f) = some (BVal.str ("$" ++ cleanField f))) ∧
        ∀ k, (mapGet setM k).isSome = true ∨ (mapGet groupM k).isSome = true →
          ∃ f ∈ ["a.b", "n"], k = cleanField f) :=
  ⟨(uniqueValuePipeline_set_stage ["n"] [] 0 10 ⟨["a"]⟩ (by decide)).1 "n" rfl,
   (uniqueValuePipeline_set_stage ["a.b", "n"] [] 0 10 ⟨["a"]⟩ (by decide)).2 (by decide)⟩

/-! ## Schema array paths -/

/-- C9 (evaluation of the code at the claim's own example): for the schema
with the single array path `tags`, `GetArrayDetails("tagsCount")` is
`(true, "tags", "")`, although `tags` does not enclose `tagsCount` (the path
is neither `tags` nor begins with `tags.`). -/
theorem GetArrayDetails_bare_string_prefix :
    (⟨["tags"]⟩ : SchemaInfo).GetArrayDetails "tagsCount" = (true, "tags", "") ∧
    encloses "tags" "tagsCount" = false := by
  decide

/-- C10 (counterexample): with `ArrayPaths = ["a", "a.b"]` the field `a.b.c`
lies under both array paths and the longest enclosing one is `a.b`, yet
`GetArrayDetails` returns `a` and `uniqueValuePipeline` unwinds `$a`; with
the order `["a.b", "a"]` it returns `a.b`: the order of `ArrayPaths` decides. -/
theorem GetArrayDetails_first_not_longest :
    encloses "a" "a.b.c" = true ∧ encloses "a.b" "a.b.c" = true ∧
    "a".length < "a.b".length ∧
    (⟨["a", "a.b"]⟩ : SchemaInfo).GetArrayDetails "a.b.c" = (true, "a", "b.c") ∧
    (⟨["a.b", "a"]⟩ : SchemaInfo).GetArrayDetails "a.b.c" = (true, "a.b", "c") ∧
    uniqueValuePipeline ["a.b.c"] [] 0 10 ⟨["a", "a.b"]⟩ =
      some [matchStage [], unwindStage "a", matchStage [],
        groupStage (BVal.str "$a.b.c"), sortStage, limitStage 10, collectStage, projectStage] :=
  ⟨by decide, by decide, by decide, by decide, by decide, rfl⟩

/-- C10 (amended): when a field path lies under several of the schema's
`ArrayPaths`, `GetArrayDetails` returns the one that stands first in
`ArrayPaths` (stated for the case that no earlier entry of `ArrayPaths` is a
string prefix of the field path), whatever the lengths of the others; and
`uniqueValuePipeline`, asked for that field, unwinds that path. -/
theorem GetArrayDetails_first_enclosing (s : SchemaInfo) (path ap : String)
    (l1 l2 : List String) (hs : s.ArrayPaths = l1 ++ ap :: l2)
    (hno : ∀ x ∈ l1, stringsHasPrefix path x = false)
    (henc : encloses ap path = true) :
    (s.GetArrayDetails path).1 = true ∧ (s.GetArrayDetails path).2.1 = ap ∧
    ∀ (fields : List String) (mtch : BsonD) (skip limit : Int),
      path ∈ fields → RewritesSucceed s mtch fields →
      ∃ p : Pipeline, uniqueValuePipeline fields mtch skip limit s = some p ∧
        unwindStage ap ∈ p := by
  have hd := getArrayDetailsLoop_first path ap l1 l2 hno (stringsHasPrefix_of_encloses ap path henc)
  have h1 : (s.GetArrayDetails path).1 = true := by
    unfold SchemaInfo.GetArrayDetails; rw [hs]; exact hd.1
  have h2 : (s.GetArrayDetails path).2.1 = ap := by
    unfold SchemaInfo.GetArrayDetails; rw [hs]; exact hd.2
  refine ⟨h1, h2, ?_⟩
  intro fields mtch skip limit hf hrs
  refine ⟨_, uniqueValuePipeline_eq fields mtch skip limit s hrs, ?_⟩
  have hin : ap ∈ newPaths s fields [] := by
    rcases newPaths_complete s fields [] path hf h1 with h3 | h3
    · rw [h2] at h3; exact h3
    · simp at h3
  have hst : unwindStage ap ∈ (newPaths s fields []).flatMap (unwindStages mtch) :=
    List.mem_flatMap.2 ⟨ap, hin, by simp [unwindStages]⟩
  simp only [List.mem_append, List.mem_cons]
  exact Or.inl (Or.inl (Or.inl (Or.inr hst)))

theorem GetArrayDetails_first_enclosing_witness :
    ((⟨["x", "a", "a.b"]⟩ : SchemaInfo).GetArrayDetails "a.b.c").1 = true ∧
    ((⟨["x", "a", "a.b"]⟩ : SchemaInfo).GetArrayDetails "a.b.c").2.1 = "a" ∧
    ∀ (fields : List String) (mtch : BsonD) (skip limit : Int),
      "a.b.c" ∈ fields → RewritesSucceed ⟨["x", "a", "a.b"]⟩ mtch fields →
      ∃ p : Pipeline, uniqueValuePipeline fields mtch skip limit ⟨["x", "a", "a.b"]⟩ = some p ∧
        unwindStage "a" ∈ p :=
  GetArrayDetails_first_enclosing ⟨["x", "a", "a.b"]⟩ "a.b.c" "a" ["x"] ["a.b"] rfl
    (by decide) (by decide)

/-! ## Template-driven aggregation -/

theorem wrapInt64_of_inRange (x : Int) (h1 : -9223372036854775808 ≤ x)
    (h2 : x < 9223372036854775808) : wrapInt64 x = x := by
  unfold wrapInt64
  omega

/-- C11: for every requested limit, `AggregateWithTemplate` first calls the
template engine with an argument map in which `limit` is the effective limit
`eff` and `skip` is the cursor, where `eff` is `MaxAggregationLimit` (10000)
when the requested limit is 0 or greater than 10000 and the requested limit
otherwise; `eff` never exceeds 10000. -/
theorem AggregateWithTemplate_effective_limit {T : Type} (env : AggEnv T) (limit cursor : Int)
    (collection name : String) (templateArgs : Option BsonM) :
    ∃ (eff : Int) (args : BsonM) (rest : List AggCall),
      (AggregateWithTemplate env limit cursor collection name templateArgs).1 =
        AggCall.executeTemplate name args :: rest ∧
      eff = (if limit = 0 ∨ limit > 10000 then 10000 else limit) ∧
      mapGet args "limit" = some (BVal.int eff) ∧
      mapGet args "skip" = some (BVal.int cursor) ∧
      eff ≤ MaxAggregationLimit ∧ MaxAggregationLimit = 10000 := by
  refine ⟨if limit = 0 ∨ limit > 10000 then 10000 else limit,
    mapSet (mapSet (templateArgs.getD []) "skip" (BVal.int cursor)) "limit"
      (BVal.int (if limit = 0 ∨ limit > 10000 then 10000 else limit)), ?_⟩
  have hargs : (match templateArgs with | none => ([] : BsonM) | some m => m) =
      templateArgs.getD [] := by cases templateArgs <;> rfl
  have hget1 : mapGet (mapSet (mapSet (templateArgs.getD []) "skip" (BVal.int cursor)) "limit"
      (BVal.int (if limit = 0 ∨ limit > 10000 then 10000 else limit))) "limit" =
      some (BVal.int (if limit = 0 ∨ limit > 10000 then 10000 else limit)) := by
    rw [mapGet_mapSet]; simp
  have hget2 : mapGet (mapSet (mapSet (templateArgs.getD []) "skip" (BVal.int cursor)) "limit"
      (BVal.int (if limit = 0 ∨ limit > 10000 then 10000 else limit))) "skip" =
      some (BVal.int cursor) := by
    rw [mapGet_mapSet, if_neg (by decide), mapGet_mapSet]; simp
  have hle : (if limit = 0 ∨ limit > 10000 then (10000 : Int) else limit) ≤ MaxAggregationLimit := by
    unfold MaxAggregationLimit
    split
    · exact le_refl _
    · next h => push_neg at h; exact h.2
  have htr : ∃ rest, (AggregateWithTemplate env limit cursor collection name templateArgs).1 =
      AggCall.executeTemplate name
        (mapSet (mapSet (templateArgs.getD []) "skip" (BVal.int cursor)) "limit"
          (BVal.int (if limit = 0 ∨ limit > 10000 then 10000 else limit))) :: rest := by
    unfold AggregateWithTemplate
    simp only [hargs, MaxAggregationLimit]
    split
    · exact ⟨_, rfl⟩
    · split
      · exact ⟨_, rfl⟩
      · split <;> exact ⟨_, rfl⟩
  obtain ⟨rest, hrest⟩ := htr
  exact ⟨rest, hrest, rfl, hget1, hget2, hle, rfl⟩

theorem aggResultOf_nextSkip {T : Type} (eff cursor : Int) (rows : List (aggResponse T))
    (hstore : ∀ row ∈ rows, ∀ m ∈ row.Metadata, m.NextSkip = 0)
    (hrange : ∀ row ∈ rows, -9223372036854775808 ≤ cursor + row.Results.length ∧
      cursor + row.Results.length < 9223372036854775808) :
    ((aggResultOf eff cursor rows).Metadata.NextSkip ≠ 0 →
      cursor + (aggResultOf eff cursor rows).Results.length <
          (aggResultOf eff cursor rows).Metadata.Total ∧
        (aggResultOf eff cursor rows).Metadata.NextSkip =
          cursor + (aggResultOf eff cursor rows).Results.length) ∧
    ((aggResultOf eff cursor rows).Metadata.Total ≤
        cursor + (aggResultOf eff cursor rows).Results.length →
      (aggResultOf eff cursor rows).Metadata.NextSkip = 0) := by
  cases rows with
  | nil => simp [aggResultOf]
  | cons first rest =>
    have hr := hrange first (List.mem_cons_self _ _)
    have hw := wrapInt64_of_inRange _ hr.1 hr.2
    have hs := hstore first (List.mem_cons_self _ _)
    cases hm : first.Metadata with
    | nil =>
      simp only [aggResultOf, hm, hw]
      split
      · next hlt => exact ⟨fun _ => ⟨hlt, rfl⟩, fun hge => absurd hlt (not_lt.2 hge)⟩
      · exact ⟨fun h => absurd rfl h, fun _ => rfl⟩
    | cons m ms =>
      have hm0 : m.NextSkip = 0 := hs m (by rw [hm]; exact List.mem_cons_self _ _)
      simp only [aggResultOf, hm, hw]
      split
      · next hlt => exact ⟨fun _ => ⟨hlt, rfl⟩, fun hge => absurd hlt (not_lt.2 hge)⟩
      · exact ⟨fun h => absurd hm0 h, fun _ => hm0⟩

theorem aggResultOf_nextSkip_set {T : Type} (eff cursor : Int) (rows : List (aggResponse T))
    (hrange : ∀ row ∈ rows, -9223372036854775808 ≤ cursor + row.Results.length ∧
      cursor + row.Results.length < 9223372036854775808)
    (hcursor : 0 ≤ cursor)
    (hmore : cursor + (aggResultOf eff cursor rows).Results.length <
      (aggResultOf eff cursor rows).Metadata.Total) :
    (aggResultOf eff cursor rows).Metadata.NextSkip =
      cursor + (aggResultOf eff cursor rows).Results.length := by
  cases rows with
  | nil =>
    simp only [aggResultOf, List.length_nil] at hmore
    omega
  | cons first rest =>
    have hr := hrange first (List.mem_cons_self _ _)
    have hw := wrapInt64_of_inRange _ hr.1 hr.2
    cases hm : first.Metadata with
    | nil =>
      simp only [aggResultOf, hm, hw] at hmore ⊢
      split
      · rfl
      · next hn =>
        split at hmore
        · next hlt => exact absurd hlt hn
        · exact absurd hmore hn
    | cons m ms =>
      simp only [aggResultOf, hm, hw] at hmore ⊢
      split
      · rfl
      · next hn =>
        split at hmore
        · next hlt => exact absurd hlt hn
        · exact absurd hmore hn

/-- C12 (counterexample): the store answers one row whose metadata is
`total: 1, nextSkip: 7` with one result; for cursor 0 there are no more
results (`0 + 1 < 1` is false), yet the returned `NextSkip` is 7, the value
the store sent. And for the cursor -1 and a store that answers no row, the
returned total is 0 and `-1 + 0 < 0`, yet the returned `NextSkip` is 0. -/
theorem AggregateWithTemplate_keeps_store_nextSkip :
    ((AggregateWithTemplate (T := Nat)
        ⟨fun _ _ => .ok "", fun _ => .ok [], fun _ _ => .ok (.ok [⟨[⟨1, 0, 7⟩], [42]⟩])⟩
        5 0 "c" "q" none).2 = (some ⟨⟨1, 5, 7⟩, [42]⟩, none) ∧
    ¬ ((0 : Int) + ([42] : List Nat).length < 1)) ∧
    ((AggregateWithTemplate (T := Nat)
        ⟨fun _ _ => .ok "", fun _ => .ok [], fun _ _ => .ok (.ok [])⟩
        5 (-1) "c" "q" none).2 = (some ⟨⟨0, 0, 0⟩, []⟩, none) ∧
    (-1 : Int) + ([] : List Nat).length < 0) := by
  refine ⟨⟨rfl, by decide⟩, rfl, by decide⟩

/-- C12 (amended): when the collaborators succeed and the metadata rows of
the store's answer carry no `nextSkip` of their own (it is 0), and
`cursor + len(results)` does not overflow a 64-bit `int`, the
`Metadata.NextSkip` returned by `AggregateWithTemplate` is non-zero only when
`cursor + len(results) < total`, in which case it equals
`cursor + len(results)`; for a cursor that is not negative it is
`cursor + len(results)` whenever `cursor + len(results) < total`; and when
`cursor + len(results) >= total` it is 0. -/
theorem AggregateWithTemplate_nextSkip {T : Type} (render : String → BsonM → String)
    (parse : String → List BsonM) (respond : String → List BsonM → List (aggResponse T))
    (limit cursor : Int) (collection name : String) (templateArgs : Option BsonM)
    (hstore : ∀ c p, ∀ row ∈ respond c p, ∀ m ∈ row.Metadata, m.NextSkip = 0)
    (hrange : ∀ c p, ∀ row ∈ respond c p, -9223372036854775808 ≤ cursor + row.Results.length ∧
      cursor + row.Results.length < 9223372036854775808) :
    ∃ (calls : List AggCall) (r : AggResult T),
      AggregateWithTemplate
          ⟨fun n a => .ok (render n a), fun t => .ok (parse t), fun c p => .ok (.ok (respond c p))⟩
          limit cursor collection name templateArgs = (calls, some r, none) ∧
      (r.Metadata.NextSkip ≠ 0 →
        cursor + r.Results.length < r.Metadata.Total ∧
          r.Metadata.NextSkip = cursor + r.Results.length) ∧
      (r.Metadata.Total ≤ cursor + r.Results.length → r.Metadata.NextSkip = 0) ∧
      (0 ≤ cursor → cursor + r.Results.length < r.Metadata.Total →
        r.Metadata.NextSkip = cursor + r.Results.length) := by
  refine ⟨_, _, rfl, ?_, ?_, ?_⟩
  · exact (aggResultOf_nextSkip _ cursor _ (hstore _ _) (hrange _ _)).1
  · exact (aggResultOf_nextSkip _ cursor _ (hstore _ _) (hrange _ _)).2
  · intro hc hmore
    exact aggResultOf_nextSkip_set _ cursor _ (hrange _ _) hc hmore

theorem AggregateWithTemplate_nextSkip_witness :
    (∃ (calls : List AggCall) (r : AggResult Nat),
      AggregateWithTemplate
          ⟨fun n a => .ok ((fun _ _ => "") n a), fun t => .ok ((fun _ => []) t),
            fun c p => .ok (.ok ((fun _ _ => [⟨[⟨3, 0, 0⟩], [41, 42]⟩]) c p))⟩
          2 0 "c" "q" none = (calls, some r, none) ∧
      (r.Metadata.NextSkip ≠ 0 →
        0 + r.Results.length < r.Metadata.Total ∧
          r.Metadata.NextSkip = 0 + r.Results.length) ∧
      (r.Metadata.Total ≤ 0 + r.Results.length → r.Metadata.NextSkip = 0) ∧
      ((0 : Int) ≤ 0 → 0 + r.Results.length < r.Metadata.Total →
        r.Metadata.NextSkip = 0 + r.Results.length)) ∧
    (AggregateWithTemplate (T := Nat)
        ⟨fun _ _ => .ok "", fun _ => .ok [], fun _ _ => .ok (.ok [⟨[⟨3, 0, 0⟩], [41, 42]⟩])⟩
        2 0 "c" "q" none).2 = (some ⟨⟨3, 2, 2⟩, [41, 42]⟩, none) :=
  ⟨AggregateWithTemplate_nextSkip (fun _ _ => "") (fun _ => [])
    (fun _ _ => [⟨[⟨3, 0, 0⟩], [41, 42]⟩]) 2 0 "c" "q" none
    (by
      intro c p row hrow m hm
      simp only [List.mem_singleton] at hrow
      subst hrow
      simp only [List.mem_singleton] at hm
      subst hm
      rfl)
    (by
      intro c p row hrow
      simp only [List.mem_singleton] at hrow
      subst hrow
      decide), rfl⟩


/-- C13 (counterexample): limit 0 and cursor 0 are requested and the store
answers one facet row with an empty metadata array and no results; the call
returns no error and no results, but the returned metadata has
`Limit = 10000`, it is not the zero value. -/
theorem AggregateWithTemplate_empty_row_limit :
    (AggregateWithTemplate (T := Nat)
        ⟨fun _ _ => .ok "", fun _ => .ok [], fun _ _ => .ok (.ok [⟨[], []⟩])⟩
        0 0 "c" "q" none).2 = (some ⟨⟨0, 10000, 0⟩, []⟩, none) ∧
    (⟨0, 10000, 0⟩ : Metadata) ≠ ⟨0, 0, 0⟩ := by
  constructor
  · rfl
  · decide

/-- C13 (amended): when the collaborators succeed and the store returns an
empty result set, `AggregateWithTemplate` returns no error and empty results;
with no row at all the metadata is the zero value; with one facet row holding
an empty metadata array and no results (and a cursor that is not negative) the
metadata has `Total = 0`, `NextSkip = 0` and `Limit` equal to the effective
limit (the requested limit, or 10000 when that is 0 or greater than 10000). -/
theorem AggregateWithTemplate_empty_result {T : Type} (render : String → BsonM → String)
    (parse : String → List BsonM) (rows : List (aggResponse T))
    (limit cursor : Int) (collection name : String) (templateArgs : Option BsonM) :
    (rows = [] →
      ∃ calls : List AggCall,
        AggregateWithTemplate
            ⟨fun n a => .ok (render n a), fun t => .ok (parse t), fun _ _ => .ok (.ok rows)⟩
            limit cursor collection name templateArgs = (calls, some ⟨⟨0, 0, 0⟩, []⟩, none)) ∧
    (rows = [⟨[], []⟩] → 0 ≤ cursor → cursor < 9223372036854775808 →
      ∃ calls : List AggCall,
        AggregateWithTemplate
            ⟨fun n a => .ok (render n a), fun t => .ok (parse t), fun _ _ => .ok (.ok rows)⟩
            limit cursor collection name templateArgs =
          (calls,
            some ⟨⟨0, if limit = 0 ∨ limit > 10000 then 10000 else limit, 0⟩, []⟩, none)) := by
  constructor
  · intro h
    subst h
    exact ⟨_, rfl⟩
  · intro h h0 h1
    subst h
    have hw : wrapInt64 (cursor + 0) = cursor + 0 :=
      wrapInt64_of_inRange _ (by omega) (by omega)
    have hnot : ¬ cursor + 0 < 0 := by omega
    refine ⟨(AggregateWithTemplate (T := T)
      ⟨fun n a => .ok (render n a), fun t => .ok (parse t), fun _ _ => .ok (.ok [⟨[], []⟩])⟩
      limit cursor collection name templateArgs).1, ?_⟩
    refine Prod.ext rfl ?_
    simp only [AggregateWithTemplate, aggResultOf, MaxAggregationLimit, List.length_nil,
      Nat.cast_zero, hw, hnot, if_false]

theorem AggregateWithTemplate_empty_result_witness :
    (∃ calls : List AggCall,
        AggregateWithTemplate (T := Nat)
            ⟨fun n a => .ok ((fun _ _ => "") n a), fun t => .ok ((fun _ => []) t),
              fun _ _ => .ok (.ok [])⟩
            20 0 "c" "q" none = (calls, some ⟨⟨0, 0, 0⟩, []⟩, none)) ∧
    (∃ calls : List AggCall,
        AggregateWithTemplate (T := Nat)
            ⟨fun n a => .ok ((fun _ _ => "") n a), fun t => .ok ((fun _ => []) t),
              fun _ _ => .ok (.ok [⟨[], []⟩])⟩
            20 0 "c" "q" none =
          (calls,
            some ⟨⟨0, if (20 : Int) = 0 ∨ (20 : Int) > 10000 then 10000 else 20, 0⟩, []⟩, none)) :=
  ⟨(AggregateWithTemplate_empty_result (fun _ _ => "") (fun _ => []) [] 20 0 "c" "q" none).1 rfl,
   (AggregateWithTemplate_empty_result (fun _ _ => "") (fun _ => []) [⟨[], []⟩] 20 0 "c" "q"
      none).2 rfl (by decide) (by decide)⟩


/-! ## The call context -/

theorem readCollection_stringContext (collection customerGUID : Option String) :
    readCollection (stringContext collection customerGUID) =
      some (collection.getD "",
        if collection.getD "" = "" then some (BaseErr.errorf "collection is not in context")
        else none) := by
  cases collection <;> rfl

theorem readCustomerGUID_stringContext (collection customerGUID : Option String) :
    readCustomerGUID (stringContext collection customerGUID) =
      some (customerGUID.getD "",
        if customerGUID.getD "" = "" then some (BaseErr.errorf "customerGUID is not in context")
        else none) := by
  cases customerGUID <;> rfl

theorem ReadContext_stringContext (collection customerGUID : Option String) :
    ReadContext (stringContext collection customerGUID) =
      some (collection.getD "", customerGUID.getD "",
        if collection.getD "" = "" then
          (if customerGUID.getD "" = "" then
            some (GoErr.multi [BaseErr.errorf "collection is not in context",
              BaseErr.errorf "customerGUID is not in context"])
          else some (GoErr.multi [BaseErr.errorf "collection is not in context"]))
        else
          (if customerGUID.getD "" = "" then
            some (GoErr.multi [BaseErr.errorf "customerGUID is not in context"])
          else none)) := by
  unfold ReadContext
  rw [readCollection_stringContext, readCustomerGUID_stringContext]
  by_cases h1 : collection.getD "" = "" <;> by_cases h2 : customerGUID.getD "" = "" <;>
    simp [h1, h2, multierrorAppend]

theorem getD_eq_empty_iff (v : Option String) : v.getD "" = "" ↔ (v = none ∨ v = some "") := by
  cases v <;> simp

/-- C19: for a context whose two keys are absent or hold strings,
`ReadContext` returns the two strings (the empty string for an absent key)
and an error that is non-nil exactly when the collection value is absent or
the empty string, or the customerGUID value is absent or the empty string;
when both are missing the error is the compound error holding the two
messages "collection is not in context" and "customerGUID is not in context",
in this order; when both are present (non-empty) the error is nil and the two
values are returned unchanged. -/
theorem ReadContext_error_iff (collection customerGUID : Option String) :
    ∃ err : Option GoErr,
      ReadContext (stringContext collection customerGUID) =
        some (collection.getD "", customerGUID.getD "", err) ∧
      (err ≠ none ↔
        (collection = none ∨ collection = some "") ∨
          (customerGUID = none ∨ customerGUID = some "")) ∧
      ((collection = none ∨ collection = some "") →
        (customerGUID = none ∨ customerGUID = some "") →
        err = some (GoErr.multi [BaseErr.errorf "collection is not in context",
          BaseErr.errorf "customerGUID is not in context"])) ∧
      (∀ a b : String, collection = some a → customerGUID = some b → a ≠ "" → b ≠ "" →
        ReadContext (stringContext collection customerGUID) = some (a, b, none)) := by
  refine ⟨_, ReadContext_stringContext collection customerGUID, ?_, ?_, ?_⟩
  · rw [← getD_eq_empty_iff, ← getD_eq_empty_iff]
    by_cases h1 : collection.getD "" = "" <;> by_cases h2 : customerGUID.getD "" = "" <;>
      simp [h1, h2]
  · intro h1 h2
    rw [← getD_eq_empty_iff] at h1 h2
    simp [h1, h2]
  · intro a b ha hb hane hbne
    subst ha hb
    rw [ReadContext_stringContext]
    simp [hane, hbne]

theorem ReadContext_error_iff_witness :
    ReadContext (stringContext none (some "")) =
      some ("", "", some (GoErr.multi [BaseErr.errorf "collection is not in context",
        BaseErr.errorf "customerGUID is not in context"])) ∧
    ReadContext (stringContext (some "col") (some "guid")) = some ("col", "guid", none) := by
  constructor
  · obtain ⟨err, h1, _, h3, _⟩ := ReadContext_error_iff none (some "")
    rw [h1, h3 (Or.inl rfl) (Or.inr rfl)]
    rfl
  · obtain ⟨_, _, _, _, h4⟩ := ReadContext_error_iff (some "col") (some "guid")
    exact h4 "col" "guid" rfl rfl (by decide) (by decide)

/-! ## Paginated find -/

/-- C14 (evaluation of the code at a failing input): the collection holds the
two documents 1 and 2 and the filter of the options matches only the document
1; `AdminFindPaginated` returns the one matching document as result and
`Total = 2`, the number of all documents of the collection, because the
`totalDocuments` branch of the `$facet` stage has no `$match`; the same holds
for `FindPaginatedForCustomer`. -/
theorem AdminFindPaginated_total_counts_all :
    AdminFindPaginated
        { failingStore Nat with
          aggregate := mongoAggregate ⟨fun _ d => decide (d = 1), fun _ l => l, fun _ d => d⟩ [1, 2] }
        (stringContext (some "col") (some "guid")) (some ⟨[("n", BVal.int 1)], [], [], 0, 0⟩) =
      ([Call.aggregate "col" (paginatedPipeline ⟨[("n", BVal.int 1)], [], [], 0, 0⟩)],
        some (some ⟨2, [1]⟩, none)) ∧
    (FindPaginatedForCustomer exampleBuilders
        { failingStore Nat with
          aggregate := mongoAggregate ⟨fun _ d => decide (d = 1), fun _ l => l, fun _ d => d⟩ [1, 2] }
        (stringContext (some "col") (some "guid"))
        (some ⟨[("n", BVal.int 1)], [], [], 0, 0⟩)).2 = some (some ⟨2, [1]⟩, none) ∧
    (([1, 2] : List Nat).filter fun d => decide (d = 1)).length = 1 ∧
    mapGet [("totalDocuments", BVal.maps [[("$count", BVal.str "count")]]),
        ("limitedResults", BVal.maps (resultsPipe ⟨[("n", BVal.int 1)], [], [], 0, 0⟩))]
      "totalDocuments" = some (BVal.maps [[("$count", BVal.str "count")]]) :=
  ⟨rfl, rfl, rfl, rfl⟩


theorem AdminFindPaginated_calls {T : Type} (st : Store T) (c : Context)
    (collection customerGUID : String) (findOps : Option FindOptions)
    (hctx : ReadContext c = some (collection, customerGUID, none)) :
    (AdminFindPaginated st c findOps).1 =
      [Call.aggregate collection (paginatedPipeline (findOps.getD NewFindOptions))] := by
  unfold AdminFindPaginated
  simp only [hctx]
  split
  · rfl
  · split
    · rfl
    · split <;> rfl

/-- C15: the result branch `limitedResults` of the pipeline that
`AdminFindPaginated` sends to the store is `$match` of the filter followed by
`$sort`, `$skip`, `$limit` and `$project` in this order, where `$sort` is
present exactly when the sort is non-empty, `$skip` exactly when `skip > 0`,
`$limit` exactly when `limit > 0` and `$project` exactly when the projection
is non-empty (its length is positive). -/
theorem AdminFindPaginated_result_branch {T : Type} (st : Store T) (c : Context)
    (collection customerGUID : String) (findOps : FindOptions)
    (hctx : ReadContext c = some (collection, customerGUID, none)) :
    ∃ branch : List BsonM,
      branch =
        [[("$match", BVal.doc findOps.filter)]] ++
          (if findOps.sort.length > 0 then [[("$sort", BVal.doc findOps.sort)]] else []) ++
          (if findOps.skip > 0 then [[("$skip", BVal.int findOps.skip)]] else []) ++
          (if findOps.limit > 0 then [[("$limit", BVal.int findOps.limit)]] else []) ++
          (if findOps.projection.length > 0 then [[("$project", BVal.doc findOps.projection)]]
            else []) ∧
      (AdminFindPaginated st c (some findOps)).1 =
        [Call.aggregate collection
          [[("$facet", BVal.map
              [("totalDocuments", BVal.maps [[("$count", BVal.str "count")]]),
               ("limitedResults", BVal.maps branch)])]]] := by
  refine ⟨resultsPipe findOps, ?_, ?_⟩
  · unfold resultsPipe
    by_cases a : findOps.sort.length > 0 <;> by_cases b : findOps.skip > 0 <;>
      by_cases d : findOps.limit > 0 <;> by_cases e : findOps.projection.length > 0 <;>
      simp only [a, b, d, e, if_true, if_false, List.append_nil, List.append_assoc,
        List.cons_append, List.nil_append]
  · rw [AdminFindPaginated_calls st c collection customerGUID (some findOps) hctx]
    rfl

theorem AdminFindPaginated_result_branch_witness :
    ∃ branch : List BsonM,
      branch =
        [[("$match", BVal.doc [("n", BVal.int 1)])]] ++
          (if ([("n", BVal.int 1)] : BsonD).length > 0 then
            [[("$sort", BVal.doc [("n", BVal.int 1)])]] else []) ++
          (if (0 : Int) > 0 then [[("$skip", BVal.int 0)]] else []) ++
          (if (5 : Int) > 0 then [[("$limit", BVal.int 5)]] else []) ++
          (if ([] : BsonD).length > 0 then [[("$project", BVal.doc [])]] else []) ∧
      (AdminFindPaginated (failingStore Nat) (stringContext (some "col") (some "guid"))
          (some ⟨[("n", BVal.int 1)], [], [("n", BVal.int 1)], 0, 5⟩)).1 =
        [Call.aggregate "col"
          [[("$facet", BVal.map
              [("totalDocuments", BVal.maps [[("$count", BVal.str "count")]]),
               ("limitedResults", BVal.maps branch)])]]] :=
  AdminFindPaginated_result_branch (failingStore Nat) (stringContext (some "col") (some "guid"))
    "col" "guid" ⟨[("n", BVal.int 1)], [], [("n", BVal.int 1)], 0, 5⟩ rfl


/-! ## Point lookups and update -/

theorem findOneDoc_cases {T : Type} (st : Store T) (collection : String) (filter : BsonD) :
    (st.findOne collection filter = .error BaseErr.noDocuments →
      (findOneDoc st collection filter).2 = (none, none)) ∧
    (∀ e, e ≠ BaseErr.noDocuments → st.findOne collection filter = .error e →
      (findOneDoc st collection filter).2 = (none, some (GoErr.base e))) ∧
    (∀ doc, st.findOne collection filter = .ok doc →
      (findOneDoc st collection filter).2 = (some doc, none)) := by
  refine ⟨?_, ?_, ?_⟩
  · intro h
    simp [findOneDoc, h]
  · intro e he h
    simp [findOneDoc, h, he, goErr]
  · intro doc h
    simp [findOneDoc, h]

/-- C16: with the context values present, each of the point lookups
`GetDocByGUID`, `GetDocByName` and `GetDoc` sends one `FindOne` with its
filter `f` and returns `(nil, nil)` when the store reports
`ErrNoDocuments`, `(nil, err)` when the store reports another error `err`,
and the document with a nil error when the store finds one. -/
theorem point_lookup_results {T : Type} (B : Builders) (st : Store T) (c : Context)
    (collection customerGUID : String) (guid name : String) (filter : Option BsonD)
    (hctx : ReadContext c = some (collection, customerGUID, none)) :
    ∀ p ∈ [(GetDocByGUID B st c guid, B.notDeleteForCustomer c ++ B.withID guid),
        (GetDocByName B st c name, B.notDeleteForCustomer c ++ B.withName name),
        (GetDoc st c filter, filter.getD [])],
      p.1.1 = [Call.findOne collection p.2] ∧
      (st.findOne collection p.2 = .error BaseErr.noDocuments → p.1.2 = some (none, none)) ∧
      (∀ e, e ≠ BaseErr.noDocuments → st.findOne collection p.2 = .error e →
        p.1.2 = some (none, some (GoErr.base e))) ∧
      (∀ doc, st.findOne collection p.2 = .ok doc → p.1.2 = some (some doc, none)) := by
  have hcalls : ∀ f, (findOneDoc st collection f).1 = [Call.findOne collection f] := by
    intro f
    unfold findOneDoc
    split
    · split <;> rfl
    · rfl
  have hgetD : (match filter with | some f => f | none => ([] : BsonD)) = filter.getD [] := by
    cases filter <;> rfl
  intro p hp
  simp only [List.mem_cons, List.mem_singleton, List.not_mem_nil, or_false] at hp
  rcases hp with rfl | rfl | rfl
  · obtain ⟨h1, h2, h3⟩ := findOneDoc_cases st collection (B.notDeleteForCustomer c ++ B.withID guid)
    simp only [GetDocByGUID, hctx]
    exact ⟨hcalls _, fun h => by rw [h1 h], fun e he h => by rw [h2 e he h],
      fun doc h => by rw [h3 doc h]⟩
  · obtain ⟨h1, h2, h3⟩ :=
      findOneDoc_cases st collection (B.notDeleteForCustomer c ++ B.withName name)
    simp only [GetDocByName, hctx]
    exact ⟨hcalls _, fun h => by rw [h1 h], fun e he h => by rw [h2 e he h],
      fun doc h => by rw [h3 doc h]⟩
  · obtain ⟨h1, h2, h3⟩ := findOneDoc_cases st collection (filter.getD [])
    simp only [GetDoc, hctx, hgetD]
    exact ⟨hcalls _, fun h => by rw [h1 h], fun e he h => by rw [h2 e he h],
      fun doc h => by rw [h3 doc h]⟩


theorem point_lookup_results_witness :
    (GetDocByGUID exampleBuilders
        { failingStore Nat with findOne := fun _ _ => .error BaseErr.noDocuments }
        (stringContext (some "col") (some "guid")) "id").2 = some (none, none) ∧
    (GetDocByName exampleBuilders (failingStore Nat)
        (stringContext (some "col") (some "guid")) "n").2 =
      some (none, some (GoErr.base (BaseErr.driver 0))) ∧
    (GetDoc { failingStore Nat with findOne := fun _ _ => .ok 7 }
        (stringContext (some "col") (some "guid")) none).2 = some (some 7, none) :=
  ⟨(point_lookup_results exampleBuilders
      { failingStore Nat with findOne := fun _ _ => .error BaseErr.noDocuments }
      (stringContext (some "col") (some "guid")) "col" "guid" "id" "n" none rfl _
      (List.mem_cons_self _ _)).2.1 rfl,
   (point_lookup_results exampleBuilders (failingStore Nat)
      (stringContext (some "col") (some "guid")) "col" "guid" "id" "n" none rfl _
      (List.mem_cons_of_mem _ (List.mem_cons_self _ _))).2.2.1 (BaseErr.driver 0) (by decide) rfl,
   (point_lookup_results exampleBuilders { failingStore Nat with findOne := fun _ _ => .ok 7 }
      (stringContext (some "col") (some "guid")) "col" "guid" "id" "n" none rfl _
      (List.mem_cons_of_mem _ (List.mem_cons_of_mem _ (List.mem_cons_self _ _)))).2.2.2 7 rfl⟩

/-- C17: with the context values present, `UpdateDocument` first sends the
tenant-scoped `FindOne` for the id; when that finds no document it returns
`(nil, nil)` and sends no update; when it finds `oldDoc` and the store's
`FindOneAndUpdate` returns the post-update document `newDoc`, the result is
the slice `[oldDoc, newDoc]` with a nil error; and whenever the returned
slice is not nil it has exactly two elements. -/
theorem UpdateDocument_old_new {T : Type} (B : Builders) (st : Store T) (c : Context)
    (collection customerGUID : String) (id : String) (update : BsonD)
    (hctx : ReadContext c = some (collection, customerGUID, none)) :
    (st.findOne collection (B.notDeleteForCustomer c ++ B.withID id) =
        .error BaseErr.noDocuments →
      UpdateDocument B st c id update =
        ([Call.findOne collection (B.notDeleteForCustomer c ++ B.withID id)],
          some (none, none))) ∧
    (∀ oldDoc newDoc,
      st.findOne collection (B.notDeleteForCustomer c ++ B.withID id) = .ok oldDoc →
      st.findOneAndUpdate collection (B.notDeleteForCustomer c ++ B.withID id) update =
        .ok newDoc →
      UpdateDocument B st c id update =
        ([Call.findOne collection (B.notDeleteForCustomer c ++ B.withID id),
          Call.findOneAndUpdate collection (B.notDeleteForCustomer c ++ B.withID id) update],
          some (some [oldDoc, newDoc], none))) ∧
    (∀ docs err, (UpdateDocument B st c id update).2 = some (some docs, err) →
      docs.length = 2 ∧ err = none) := by
  refine ⟨?_, ?_, ?_⟩
  · intro h
    simp [UpdateDocument, hctx, h]
  · intro oldDoc newDoc h1 h2
    simp [UpdateDocument, hctx, h1, h2]
  · intro docs err h
    simp only [UpdateDocument, hctx] at h
    split at h
    · split at h <;> simp at h
    · split at h
      · simp [goErr] at h
      · simp only [Option.some.injEq, Prod.mk.injEq] at h
        obtain ⟨h1, h2⟩ := h
        subst h1
        exact ⟨rfl, h2.symm⟩

theorem UpdateDocument_old_new_witness :
    UpdateDocument exampleBuilders
        { failingStore Nat with findOne := fun _ _ => .error BaseErr.noDocuments }
        (stringContext (some "col") (some "guid")) "id" [] =
      ([Call.findOne "col" (exampleBuilders.notDeleteForCustomer
          (stringContext (some "col") (some "guid")) ++ exampleBuilders.withID "id")],
        some (none, none)) ∧
    UpdateDocument exampleBuilders
        { failingStore Nat with findOne := fun _ _ => .ok 1, findOneAndUpdate := fun _ _ _ => .ok 2 }
        (stringContext (some "col") (some "guid")) "id" [] =
      ([Call.findOne "col" (exampleBuilders.notDeleteForCustomer
          (stringContext (some "col") (some "guid")) ++ exampleBuilders.withID "id"),
        Call.findOneAndUpdate "col" (exampleBuilders.notDeleteForCustomer
          (stringContext (some "col") (some "guid")) ++ exampleBuilders.withID "id") []],
        some (some [1, 2], none)) :=
  ⟨(UpdateDocument_old_new exampleBuilders
      { failingStore Nat with findOne := fun _ _ => .error BaseErr.noDocuments }
      (stringContext (some "col") (some "guid")) "col" "guid" "id" [] rfl).1 rfl,
   (UpdateDocument_old_new exampleBuilders
      { failingStore Nat with findOne := fun _ _ => .ok 1, findOneAndUpdate := fun _ _ _ => .ok 2 }
      (stringContext (some "col") (some "guid")) "col" "guid" "id" [] rfl).2.1 1 2 rfl rfl⟩


/-! ## Configuration errors -/

/-- C18 (counterexample): the context holds the collection `col` and no
tenant identifier, so `ReadContext` reports a configuration error; yet
`InsertDBDocument`, which reads the collection only, sends `InsertOne` to the
store and returns the content with a nil error. In the same way
`DeleteCustomerDocs`, which reads the tenant only, goes on to the deletion for
a context without collection. -/
theorem InsertDBDocument_without_tenant :
    ReadContext (stringContext (some "col") none) =
      some ("col", "", some (GoErr.multi [BaseErr.errorf "customerGUID is not in context"])) ∧
    InsertDBDocument { failingStore Nat with insertOne := fun _ _ => none }
        (stringContext (some "col") none) ⟨"id", 7, ["t"]⟩ =
      ([Call.insertOne "col" ⟨"id", 7, ["t"]⟩], some (some 7, none)) ∧
    ReadContext (stringContext none (some "t")) =
      some ("", "t", some (GoErr.multi [BaseErr.errorf "collection is not in context"])) ∧
    DeleteCustomerDocs (T := Nat) (fun _ _ => ([Call.deleteMany "x" []], 3, none))
        (stringContext none (some "t")) =
      ([Call.deleteMany "x" []], some (3, none)) :=
  ⟨rfl, rfl, rfl, rfl⟩

theorem readCollection_of_ReadContext (c : Context) (collection customerGUID : String)
    (err : Option GoErr) (h : ReadContext c = some (collection, customerGUID, err)) :
    ∃ e, readCollection c = some (collection, e) := by
  unfold ReadContext at h
  cases hr : readCollection c with
  | none => simp [hr] at h
  | some r =>
    obtain ⟨coll, e⟩ := r
    simp only [hr] at h
    cases hg : readCustomerGUID c with
    | none => simp [hg] at h
    | some g =>
      simp only [hg, Option.some.injEq, Prod.mk.injEq] at h
      exact ⟨e, by rw [h.1]⟩


/-- C18 (amended): when `ReadContext` reports a configuration error `err`
(the context lacks the collection identifier or the tenant identifier), every
operation that reads both through `ReadContext` (find, paginated find, point
lookups, update, array add and pull, exist and count, bulk insert) returns
its zero value with `err` and calls the store not at all, and `DeleteByName`
and `DeleteByGUID` return nil with a configuration error without a store
call; `InsertDBDocument`, `BulkDelete` and `BulkDeleteByName` do so when the
collection identifier is missing and `DeleteCustomerDocs` when the tenant
identifier is missing. -/
theorem config_error_without_store_call {T : Type} (B : Builders) (st : Store T)
    (newDocument : T → String → Document T) (getGUID : T → String)
    (adminDelete : Context → List String → List (Call T) × Int × Option GoErr)
    (c : Context) (findOps : Option FindOptions) (includeGlobals : Bool)
    (id arrayPath name : String) (update : BsonD) (updateVal : BVal) (values : List BVal)
    (filter : Option BsonD) (docs : List T) (dbDoc : Document T) (bulkFilter : BsonD)
    (names : List String) :
    (∀ collection customerGUID err,
      ReadContext c = some (collection, customerGUID, some err) →
      (∀ r ∈ [AdminFind st c findOps, GetAllForCustomer B st c includeGlobals,
          FindForCustomerWithGlobals B st c findOps, FindForCustomer B st c findOps,
          UpdateDocument B st c id update, InsertDocuments newDocument st c docs],
        r = ([], some (none, some err))) ∧
      (∀ r ∈ [AdminFindPaginated st c findOps, FindPaginatedForCustomer B st c findOps],
        r = ([], some (none, some err))) ∧
      (∀ r ∈ [GetDocByGUID B st c id, GetDoc st c filter, GetDocByName B st c name],
        r = ([], some (none, some err))) ∧
      (∀ r ∈ [AddToArray B st c id arrayPath values, UpdateOne B st c id updateVal,
          PullFromArray B st c id arrayPath values, CountDocs B st c filter],
        r = ([], some (0, some err))) ∧
      (∀ r ∈ [DocExist B st c filter, DocWithNameExist B st c name],
        r = ([], some (false, some err))) ∧
      (∀ r ∈ [DeleteByName B st getGUID c name, DeleteByGUID B st c id],
        ∃ e, r = ([], some (none, some e)))) ∧
    (∀ collection e, readCollection c = some (collection, some e) →
      InsertDBDocument st c dbDoc = ([], some (none, some (GoErr.base e))) ∧
      BulkDelete B st c bulkFilter = ([], some (0, some (GoErr.base e))) ∧
      BulkDeleteByName B st c names = ([], some (0, some (GoErr.base e)))) ∧
    (∀ customerGUID e, readCustomerGUID c = some (customerGUID, some e) →
      DeleteCustomerDocs adminDelete c = ([], some (0, some (GoErr.base e)))) := by
  refine ⟨?_, ?_, ?_⟩
  · intro collection customerGUID err h
    refine ⟨?_, ?_, ?_, ?_, ?_, ?_⟩
    · intro r hr
      simp only [List.mem_cons, List.mem_singleton, List.not_mem_nil, or_false] at hr
      rcases hr with rfl | rfl | rfl | rfl | rfl | rfl <;>
        simp [AdminFind, GetAllForCustomer, FindForCustomerWithGlobals, FindForCustomer,
          UpdateDocument, InsertDocuments, h]
    · intro r hr
      simp only [List.mem_cons, List.mem_singleton, List.not_mem_nil, or_false] at hr
      rcases hr with rfl | rfl <;> simp [AdminFindPaginated, FindPaginatedForCustomer, h]
    · intro r hr
      simp only [List.mem_cons, List.mem_singleton, List.not_mem_nil, or_false] at hr
      rcases hr with rfl | rfl | rfl <;> simp [GetDocByGUID, GetDoc, GetDocByName, h]
    · intro r hr
      simp only [List.mem_cons, List.mem_singleton, List.not_mem_nil, or_false] at hr
      rcases hr with rfl | rfl | rfl | rfl <;>
        simp [AddToArray, UpdateOne, PullFromArray, updateOneScoped, CountDocs, h]
    · intro r hr
      simp only [List.mem_cons, List.mem_singleton, List.not_mem_nil, or_false] at hr
      rcases hr with rfl | rfl <;> simp [DocExist, DocWithNameExist, h]
    · intro r hr
      obtain ⟨e, he⟩ := readCollection_of_ReadContext c collection customerGUID _ h
      simp only [List.mem_cons, List.mem_singleton, List.not_mem_nil, or_false] at hr
      rcases hr with rfl | rfl <;> cases e <;>
        simp [DeleteByName, DeleteByGUID, GetDocByName, GetDocByGUID, he, h, deleteFound, goErr]
  · intro collection e h
    simp [InsertDBDocument, BulkDelete, BulkDeleteByName, h, goErr]
  · intro customerGUID e h
    simp [DeleteCustomerDocs, h, goErr]


theorem config_error_without_store_call_witness :
    GetDocByGUID exampleBuilders (failingStore Nat) (stringContext (some "col") none) "id" =
      ([], some (none, some (GoErr.multi [BaseErr.errorf "customerGUID is not in context"]))) ∧
    InsertDBDocument (failingStore Nat) (stringContext none (some "t")) ⟨"id", 7, ["t"]⟩ =
      ([], some (none, some (GoErr.base (BaseErr.errorf "collection is not in context")))) ∧
    DeleteCustomerDocs (T := Nat) (fun _ _ => ([], 0, none)) (stringContext (some "col") none) =
      ([], some (0, some (GoErr.base (BaseErr.errorf "customerGUID is not in context")))) :=
  ⟨((config_error_without_store_call exampleBuilders (failingStore Nat)
      (fun d g => ⟨"", d, [g]⟩) (fun _ => "") (fun _ _ => ([], 0, none))
      (stringContext (some "col") none) none false "id" "" "" [] BVal.null [] none []
      ⟨"id", 7, ["t"]⟩ [] []).1 "col" "" _ rfl).2.2.1 _ (List.mem_cons_self _ _),
   ((config_error_without_store_call exampleBuilders (failingStore Nat)
      (fun d g => ⟨"", d, [g]⟩) (fun _ => "") (fun _ _ => ([], 0, none))
      (stringContext none (some "t")) none false "id" "" "" [] BVal.null [] none []
      ⟨"id", 7, ["t"]⟩ [] []).2.1 "" _ rfl).1,
   (config_error_without_store_call exampleBuilders (failingStore Nat)
      (fun d g => ⟨"", d, [g]⟩) (fun _ => "") (fun _ _ => ([], 0, none))
      (stringContext (some "col") none) none false "id" "" "" [] BVal.null [] none []
      ⟨"id", 7, ["t"]⟩ [] []).2.2 "" _ rfl⟩


/-! ## Tenant scope of the filters sent to the store -/

theorem calls_AdminFind {T : Type} (st : Store T) (c : Context) (findOps : Option FindOptions) :
    ∀ call ∈ (AdminFind st c findOps).1, ∃ collection,
      call = Call.find collection (findOps.getD NewFindOptions).filter
        (findOps.getD NewFindOptions).projection (findOps.getD NewFindOptions).sort
        (findOps.getD NewFindOptions).skip := by
  intro call h
  unfold AdminFind at h
  split at h
  · simp at h
  · simp at h
  · next collection _ _ =>
    dsimp only at h
    split at h <;> simp only [List.mem_singleton] at h <;> exact ⟨collection, h⟩

theorem calls_findOneDoc {T : Type} (st : Store T) (collection : String) (filter : BsonD) :
    (findOneDoc st collection filter).1 = [Call.findOne collection filter] := by
  unfold findOneDoc
  split
  · split <;> rfl
  · rfl

theorem calls_UpdateDocument {T : Type} (B : Builders) (st : Store T) (c : Context)
    (id : String) (update : BsonD) :
    ∀ call ∈ (UpdateDocument B st c id update).1, ∃ collection,
      call = Call.findOne collection (B.notDeleteForCustomer c ++ B.withID id) ∨
      call = Call.findOneAndUpdate collection (B.notDeleteForCustomer c ++ B.withID id)
        update := by
  intro call h
  unfold UpdateDocument at h
  split at h
  · simp at h
  · simp at h
  · next collection _ _ =>
    refine ⟨collection, ?_⟩
    dsimp only at h
    split at h
    · split at h <;> simp only [List.mem_singleton] at h <;> exact Or.inl h
    · split at h <;>
        simp only [List.mem_cons, List.mem_singleton, List.not_mem_nil, or_false] at h <;>
        exact h

theorem calls_updateOneScoped {T : Type} (B : Builders) (st : Store T) (c : Context)
    (id : String) (update : BVal) :
    ∀ call ∈ (updateOneScoped B st c id update).1, ∃ collection,
      call = Call.updateOne collection (B.notDeleteForCustomer c ++ B.withID id) update := by
  intro call h
  unfold updateOneScoped at h
  split at h
  · simp at h
  · simp at h
  · next collection _ _ =>
    simp only [List.mem_singleton] at h
    exact ⟨collection, h⟩

theorem calls_DocExist {T : Type} (B : Builders) (st : Store T) (c : Context)
    (filter : Option BsonD) :
    ∀ call ∈ (DocExist B st c filter).1, ∃ collection,
      call = Call.countDocuments collection (B.notDeleteForCustomer c ++ filter.getD [])
        (some 1) := by
  intro call h
  unfold DocExist at h
  split at h
  · simp at h
  · simp at h
  · next collection _ _ =>
    simp only [List.mem_singleton] at h
    exact ⟨collection, h⟩

theorem calls_CountDocs {T : Type} (B : Builders) (st : Store T) (c : Context)
    (filter : Option BsonD) :
    ∀ call ∈ (CountDocs B st c filter).1, ∃ collection,
      call = Call.countDocuments collection (B.notDeleteForCustomer c ++ filter.getD [])
        none := by
  intro call h
  unfold CountDocs at h
  split at h
  · simp at h
  · simp at h
  · next collection _ _ =>
    simp only [List.mem_singleton] at h
    exact ⟨collection, h⟩

theorem calls_GetDocByGUID {T : Type} (B : Builders) (st : Store T) (c : Context)
    (guid : String) :
    ∀ call ∈ (GetDocByGUID B st c guid).1, ∃ collection,
      call = Call.findOne collection (B.notDeleteForCustomer c ++ B.withID guid) := by
  intro call h
  unfold GetDocByGUID at h
  split at h
  · simp at h
  · simp at h
  · next collection _ _ =>
    simp only [calls_findOneDoc, List.mem_singleton] at h
    exact ⟨collection, h⟩

theorem calls_GetDocByName {T : Type} (B : Builders) (st : Store T) (c : Context)
    (name : String) :
    ∀ call ∈ (GetDocByName B st c name).1, ∃ collection,
      call = Call.findOne collection (B.notDeleteForCustomer c ++ B.withName name) := by
  intro call h
  unfold GetDocByName at h
  split at h
  · simp at h
  · simp at h
  · next collection _ _ =>
    simp only [calls_findOneDoc, List.mem_singleton] at h
    exact ⟨collection, h⟩

theorem calls_GetDoc {T : Type} (st : Store T) (c : Context) (filter : Option BsonD) :
    ∀ call ∈ (GetDoc st c filter).1, ∃ collection,
      call = Call.findOne collection (filter.getD []) := by
  have hgetD : (match filter with | some f => f | none => ([] : BsonD)) = filter.getD [] := by
    cases filter <;> rfl
  intro call h
  unfold GetDoc at h
  split at h
  · simp at h
  · simp at h
  · next collection _ _ =>
    simp only [calls_findOneDoc, List.mem_singleton] at h
    rw [hgetD] at h
    exact ⟨collection, h⟩

theorem calls_BulkDelete {T : Type} (B : Builders) (st : Store T) (c : Context)
    (filter : BsonD) :
    ∀ call ∈ (BulkDelete B st c filter).1, ∃ collection,
      call = Call.deleteMany collection (filter ++ B.notDeleteForCustomer c) := by
  intro call h
  unfold BulkDelete at h
  split at h
  · simp at h
  · simp at h
  · next collection _ =>
    dsimp only at h
    split at h <;> simp only [List.mem_singleton] at h <;> exact ⟨collection, h⟩


theorem calls_deleteAfterLookup {T : Type} (B : Builders) (st : Store T)
    (collection : String) (filter : BsonD) (idOf : T → String)
    (lookup : Outcome T (Option T))
    (hlookup : lookup = ([], none) ∨ (∃ err, lookup = ([], some (none, some err))) ∨
      ∃ coll, lookup = ((findOneDoc st coll filter).1, some (findOneDoc st coll filter).2)) :
    ∀ call ∈ (match lookup with
        | (calls, none) => ((calls, none) : Outcome T (Option T))
        | (calls, some found) =>
          let r := deleteFound B st collection (calls, found) idOf
          (r.1, some r.2)).1,
      (∃ coll, call = Call.findOne coll filter) ∨
      (∃ coll doc, call = Call.deleteOne collection [(B.idField, BVal.str (idOf doc))] ∧
        st.findOne coll filter = .ok doc) := by
  intro call h
  rcases hlookup with rfl | ⟨err, rfl⟩ | ⟨coll, rfl⟩
  · simp at h
  · simp [deleteFound] at h
  · cases hf : st.findOne coll filter with
    | error e =>
      by_cases he : e = BaseErr.noDocuments
      · simp [deleteFound, findOneDoc, hf, he] at h
        exact Or.inl ⟨coll, h⟩
      · simp [deleteFound, findOneDoc, hf, he, goErr] at h
        exact Or.inl ⟨coll, h⟩
    | ok doc =>
      cases hd : st.deleteOne collection [(B.idField, BVal.str (idOf doc))] with
      | error e =>
        simp [deleteFound, findOneDoc, hf, hd, goErr] at h
        rcases h with h | h
        · exact Or.inl ⟨coll, h⟩
        · exact Or.inr ⟨coll, doc, h, hf⟩
      | ok n =>
        by_cases hn : n = 0
        · simp [deleteFound, findOneDoc, hf, hd, hn] at h
          rcases h with h | h
          · exact Or.inl ⟨coll, h⟩
          · exact Or.inr ⟨coll, doc, h, hf⟩
        · simp [deleteFound, findOneDoc, hf, hd, hn] at h
          rcases h with h | h
          · exact Or.inl ⟨coll, h⟩
          · exact Or.inr ⟨coll, doc, h, hf⟩

theorem GetDocByGUID_shape {T : Type} (B : Builders) (st : Store T) (c : Context)
    (guid : String) :
    GetDocByGUID B st c guid = ([], none) ∨
    (∃ err, GetDocByGUID B st c guid = ([], some (none, some err))) ∨
    ∃ coll, GetDocByGUID B st c guid =
      ((findOneDoc st coll (B.notDeleteForCustomer c ++ B.withID guid)).1,
        some (findOneDoc st coll (B.notDeleteForCustomer c ++ B.withID guid)).2) := by
  unfold GetDocByGUID
  split
  · exact Or.inl rfl
  · next err _ => exact Or.inr (Or.inl ⟨err, rfl⟩)
  · next collection _ _ => exact Or.inr (Or.inr ⟨collection, rfl⟩)

theorem GetDocByName_shape {T : Type} (B : Builders) (st : Store T) (c : Context)
    (name : String) :
    GetDocByName B st c name = ([], none) ∨
    (∃ err, GetDocByName B st c name = ([], some (none, some err))) ∨
    ∃ coll, GetDocByName B st c name =
      ((findOneDoc st coll (B.notDeleteForCustomer c ++ B.withName name)).1,
        some (findOneDoc st coll (B.notDeleteForCustomer c ++ B.withName name)).2) := by
  unfold GetDocByName
  split
  · exact Or.inl rfl
  · next err _ => exact Or.inr (Or.inl ⟨err, rfl⟩)
  · next collection _ _ => exact Or.inr (Or.inr ⟨collection, rfl⟩)

theorem calls_DeleteByGUID {T : Type} (B : Builders) (st : Store T) (c : Context)
    (guid : String) :
    ∀ call ∈ (DeleteByGUID B st c guid).1,
      (∃ coll, call = Call.findOne coll (B.notDeleteForCustomer c ++ B.withID guid)) ∨
      (∃ collection coll doc, call = Call.deleteOne collection [(B.idField, BVal.str guid)] ∧
        st.findOne coll (B.notDeleteForCustomer c ++ B.withID guid) = .ok doc) := by
  intro call h
  unfold DeleteByGUID at h
  split at h
  · simp at h
  · simp at h
  · next collection _ =>
    rcases calls_deleteAfterLookup B st collection _ (fun _ => guid) _
      (GetDocByGUID_shape B st c guid) call h with h1 | ⟨coll, doc, h1, h2⟩
    · exact Or.inl h1
    · exact Or.inr ⟨collection, coll, doc, h1, h2⟩

theorem calls_DeleteByName {T : Type} (B : Builders) (st : Store T) (getGUID : T → String)
    (c : Context) (name : String) :
    ∀ call ∈ (DeleteByName B st getGUID c name).1,
      (∃ coll, call = Call.findOne coll (B.notDeleteForCustomer c ++ B.withName name)) ∨
      (∃ collection coll doc,
        call = Call.deleteOne collection [(B.idField, BVal.str (getGUID doc))] ∧
        st.findOne coll (B.notDeleteForCustomer c ++ B.withName name) = .ok doc) := by
  intro call h
  unfold DeleteByName at h
  split at h
  · simp at h
  · simp at h
  · next collection _ =>
    rcases calls_deleteAfterLookup B st collection _ getGUID _
      (GetDocByName_shape B st c name) call h with h1 | ⟨coll, doc, h1, h2⟩
    · exact Or.inl h1
    · exact Or.inr ⟨collection, coll, doc, h1, h2⟩

theorem calls_AdminFindPaginated {T : Type} (st : Store T) (c : Context)
    (findOps : Option FindOptions) :
    ∀ call ∈ (AdminFindPaginated st c findOps).1, ∃ collection,
      call = Call.aggregate collection (paginatedPipeline (findOps.getD NewFindOptions)) := by
  intro call h
  cases hctx : ReadContext c with
  | none => simp [AdminFindPaginated, hctx] at h
  | some r =>
    obtain ⟨collection, customerGUID, err⟩ := r
    cases err with
    | some err => simp [AdminFindPaginated, hctx] at h
    | none =>
      rw [AdminFindPaginated_calls st c collection customerGUID findOps hctx] at h
      simp only [List.mem_singleton] at h
      exact ⟨collection, h⟩

theorem resultsPipe_head (findOps : FindOptions) :
    ∃ rest, resultsPipe findOps = [("$match", BVal.doc findOps.filter)] :: rest := by
  unfold resultsPipe
  by_cases a : findOps.sort.length > 0 <;> by_cases b : findOps.skip > 0 <;>
    by_cases d : findOps.limit > 0 <;> by_cases e : findOps.projection.length > 0 <;>
    simp only [a, b, d, e, if_true, if_false, List.cons_append, List.nil_append] <;>
    exact ⟨_, rfl⟩


theorem scopedCall_of_filter {T : Type} (scope own f : BsonD) (call : Call T)
    (hf : call.filterOf = some f)
    (h : f = scope ++ own ∨ f = own ++ scope) : ScopedCall scope own call := by
  refine ⟨f, hf, ?_, ?_⟩
  · rcases h with rfl | rfl
    · exact ( List.prefix_append scope own).isInfix
    · exact ( List.suffix_append own scope).isInfix
  · rcases h with rfl | rfl
    · exact ( List.suffix_append scope own).isInfix
    · exact ( List.prefix_append own scope).isInfix

/-- C20 (counterexample): for the tenant `guid`, whose scope clauses are
`customers: guid, is_deleted: false`, `GetDoc` with a nil filter sends
`FindOne` with the empty filter, and with the caller's filter `name: n` it
sends exactly that filter: the scope clauses are not in it; and the
`DeleteOne` that `DeleteByGUID` sends after its scoped lookup carries the
filter `_id: id` alone. -/
theorem GetDoc_sends_unscoped_filter :
    (GetDoc (failingStore Nat) (stringContext (some "col") (some "guid")) none).1 =
      [Call.findOne "col" []] ∧
    (GetDoc (failingStore Nat) (stringContext (some "col") (some "guid"))
        (some [("name", BVal.str "n")])).1 = [Call.findOne "col" [("name", BVal.str "n")]] ∧
    exampleBuilders.notDeleteForCustomer (stringContext (some "col") (some "guid")) =
      [("customers", BVal.str "guid"), ("is_deleted", BVal.other 0)] ∧
    ¬ ScopedCall (exampleBuilders.notDeleteForCustomer (stringContext (some "col") (some "guid")))
        [] (Call.findOne (T := Nat) "col" []) ∧
    ¬ ScopedCall (exampleBuilders.notDeleteForCustomer (stringContext (some "col") (some "guid")))
        [] (Call.findOne (T := Nat) "col" [("name", BVal.str "n")]) ∧
    (DeleteByGUID exampleBuilders
        { failingStore Nat with findOne := fun _ _ => .ok 7, deleteOne := fun _ _ => .ok 1 }
        (stringContext (some "col") (some "guid")) "id").1 =
      [Call.findOne "col"
        [("customers", BVal.str "guid"), ("is_deleted", BVal.other 0), ("_id", BVal.str "id")],
       Call.deleteOne "col" [("_id", BVal.str "id")]] := by
  refine ⟨rfl, rfl, rfl, ?_, ?_, rfl⟩
  · rintro ⟨f, hf, hscope, _⟩
    have hf2 : f = [] := by
      simp only [Call.filterOf, Option.some.injEq] at hf
      exact hf.symm
    subst hf2
    have := List.infix_nil.1 hscope
    exact absurd (congrArg List.length this) (by decide)
  · rintro ⟨f, hf, hscope, _⟩
    have hf2 : f = [("name", BVal.str "n")] := by
      simp only [Call.filterOf, Option.some.injEq] at hf
      exact hf.symm
    subst hf2
    have := hscope.length_le
    exact absurd this (by decide)


/-- C20 (amended): the non-Admin find, update, array add and pull, existence,
count, bulk delete operations and the point lookups by id and by name send
the store only calls whose filter holds the not-deleted-for-tenant scope
clauses of the context (the tenant-or-global clauses for the variants with
globals) together with the caller's own clauses; `FindPaginatedForCustomer`
puts the scoped filter in the `$match` stage that opens the result branch;
`DeleteByGUID` and `DeleteByName` send the scoped lookup and, only after it
found a document, a `DeleteOne` whose filter is the id alone; `GetDoc` sends
the caller's filter as it is given. -/
theorem scoped_filters {T : Type} (B : Builders) (st : Store T) (getGUID : T → String)
    (c : Context) (findOps : Option FindOptions) (id arrayPath name : String) (update : BsonD)
    (updateVal : BVal) (values : List BVal) (filter : Option BsonD) (bulkFilter : BsonD)
    (names : List String) :
    (∀ p ∈ [((FindForCustomer B st c findOps).1, (findOps.getD NewFindOptions).filter),
        ((GetAllForCustomer B st c false).1, []),
        ((UpdateDocument B st c id update).1, B.withID id),
        ((AddToArray B st c id arrayPath values).1, B.withID id),
        ((UpdateOne B st c id updateVal).1, B.withID id),
        ((PullFromArray B st c id arrayPath values).1, B.withID id),
        ((DocExist B st c filter).1, filter.getD []),
        ((DocWithNameExist B st c name).1, B.withName name),
        ((GetDocByGUID B st c id).1, B.withID id),
        ((GetDocByName B st c name).1, B.withName name),
        ((CountDocs B st c filter).1, filter.getD []),
        ((BulkDelete B st c bulkFilter).1, bulkFilter),
        ((BulkDeleteByName B st c names).1, B.withIn "name" names)],
      ∀ call ∈ p.1, ScopedCall (B.notDeleteForCustomer c) p.2 call) ∧
    (∀ p ∈ [((FindForCustomerWithGlobals B st c findOps).1,
          (findOps.getD NewFindOptions).filter),
        ((GetAllForCustomer B st c true).1, [])],
      ∀ call ∈ p.1, ScopedCall (B.notDeleteForCustomerAndGlobal c) p.2 call) ∧
    (∀ call ∈ (FindPaginatedForCustomer B st c findOps).1, ∃ collection rest,
      call = Call.aggregate collection
        [[("$facet", BVal.map
            [("totalDocuments", BVal.maps [[("$count", BVal.str "count")]]),
             ("limitedResults", BVal.maps
                ([("$match", BVal.doc ((findOps.getD NewFindOptions).filter ++
                    B.notDeleteForCustomer c))] :: rest))])]]) ∧
    (∀ call ∈ (DeleteByGUID B st c id).1,
      ScopedCall (B.notDeleteForCustomer c) (B.withID id) call ∨
      ∃ collection coll doc, call = Call.deleteOne collection [(B.idField, BVal.str id)] ∧
        st.findOne coll (B.notDeleteForCustomer c ++ B.withID id) = .ok doc) ∧
    (∀ call ∈ (DeleteByName B st getGUID c name).1,
      ScopedCall (B.notDeleteForCustomer c) (B.withName name) call ∨
      ∃ collection coll doc,
        call = Call.deleteOne collection [(B.idField, BVal.str (getGUID doc))] ∧
        st.findOne coll (B.notDeleteForCustomer c ++ B.withName name) = .ok doc) ∧
    (∀ call ∈ (GetDoc st c filter).1, ∃ collection,
      call = Call.findOne collection (filter.getD [])) := by
  refine ⟨?_, ?_, ?_, ?_, ?_, calls_GetDoc st c filter⟩
  · intro p hp call hcall
    simp only [List.mem_cons, List.mem_singleton, List.not_mem_nil, or_false] at hp
    rcases hp with rfl | rfl | rfl | rfl | rfl | rfl | rfl | rfl | rfl | rfl | rfl | rfl | rfl
    · obtain ⟨coll, rfl⟩ := calls_AdminFind st c _ call hcall
      exact scopedCall_of_filter _ _ _ _ rfl (Or.inr rfl)
    · obtain ⟨coll, rfl⟩ := calls_AdminFind st c _ call hcall
      exact scopedCall_of_filter _ _ _ _ rfl (Or.inr rfl)
    · obtain ⟨coll, rfl | rfl⟩ := calls_UpdateDocument B st c id update call hcall
      · exact scopedCall_of_filter _ _ _ _ rfl (Or.inl rfl)
      · exact scopedCall_of_filter _ _ _ _ rfl (Or.inl rfl)
    · obtain ⟨coll, rfl⟩ := calls_updateOneScoped B st c id _ call hcall
      exact scopedCall_of_filter _ _ _ _ rfl (Or.inl rfl)
    · obtain ⟨coll, rfl⟩ := calls_updateOneScoped B st c id _ call hcall
      exact scopedCall_of_filter _ _ _ _ rfl (Or.inl rfl)
    · obtain ⟨coll, rfl⟩ := calls_updateOneScoped B st c id _ call hcall
      exact scopedCall_of_filter _ _ _ _ rfl (Or.inl rfl)
    · obtain ⟨coll, rfl⟩ := calls_DocExist B st c filter call hcall
      exact scopedCall_of_filter _ _ _ _ rfl (Or.inl rfl)
    · obtain ⟨coll, rfl⟩ := calls_DocExist B st c (some (B.withName name)) call hcall
      exact scopedCall_of_filter _ _ _ _ rfl (Or.inl rfl)
    · obtain ⟨coll, rfl⟩ := calls_GetDocByGUID B st c id call hcall
      exact scopedCall_of_filter _ _ _ _ rfl (Or.inl rfl)
    · obtain ⟨coll, rfl⟩ := calls_GetDocByName B st c name call hcall
      exact scopedCall_of_filter _ _ _ _ rfl (Or.inl rfl)
    · obtain ⟨coll, rfl⟩ := calls_CountDocs B st c filter call hcall
      exact scopedCall_of_filter _ _ _ _ rfl (Or.inl rfl)
    · obtain ⟨coll, rfl⟩ := calls_BulkDelete B st c bulkFilter call hcall
      exact scopedCall_of_filter _ _ _ _ rfl (Or.inr rfl)
    · obtain ⟨coll, rfl⟩ := calls_BulkDelete B st c (B.withIn "name" names) call hcall
      exact scopedCall_of_filter _ _ _ _ rfl (Or.inr rfl)
  · intro p hp call hcall
    simp only [List.mem_cons, List.mem_singleton, List.not_mem_nil, or_false] at hp
    rcases hp with rfl | rfl
    · obtain ⟨coll, rfl⟩ := calls_AdminFind st c _ call hcall
      exact scopedCall_of_filter _ _ _ _ rfl (Or.inr rfl)
    · obtain ⟨coll, rfl⟩ := calls_AdminFind st c _ call hcall
      exact scopedCall_of_filter _ _ _ _ rfl (Or.inr rfl)
  · intro call hcall
    obtain ⟨coll, rfl⟩ := calls_AdminFindPaginated st c _ call hcall
    obtain ⟨rest, hrest⟩ := resultsPipe_head
      { findOps.getD NewFindOptions with
        filter := (findOps.getD NewFindOptions).filter ++ B.notDeleteForCustomer c }
    refine ⟨coll, rest, ?_⟩
    simp only [paginatedPipeline, Option.getD_some, hrest]
  · intro call hcall
    rcases calls_DeleteByGUID B st c id call hcall with ⟨coll, rfl⟩ | h
    · exact Or.inl (scopedCall_of_filter _ _ _ _ rfl (Or.inl rfl))
    · exact Or.inr h
  · intro call hcall
    rcases calls_DeleteByName B st getGUID c name call hcall with ⟨coll, rfl⟩ | h
    · exact Or.inl (scopedCall_of_filter _ _ _ _ rfl (Or.inl rfl))
    · exact Or.inr h


theorem scoped_filters_witness :
    (FindForCustomer exampleBuilders (failingStore Nat)
        (stringContext (some "col") (some "guid")) none).1 =
      [Call.find "col" [("customers", BVal.str "guid"), ("is_deleted", BVal.other 0)] [] [] 0] ∧
    ∀ call ∈ (FindForCustomer exampleBuilders (failingStore Nat)
        (stringContext (some "col") (some "guid")) none).1,
      ScopedCall (exampleBuilders.notDeleteForCustomer (stringContext (some "col") (some "guid")))
        [] call :=
  ⟨rfl,
   (scoped_filters exampleBuilders (failingStore Nat) (fun _ => "")
      (stringContext (some "col") (some "guid")) none "id" "" "" [] BVal.null [] none [] []).1 _
      (List.mem_cons_self _ _)⟩


theorem evalStages_resultsPipe {T : Type} (sem : StageSem T) (findOps : FindOptions)
    (docs : List T) : ∃ results, evalStages sem (resultsPipe findOps) docs = some results := by
  unfold resultsPipe
  by_cases a : findOps.sort.length > 0 <;> by_cases b : findOps.skip > 0 <;>
    by_cases d : findOps.limit > 0 <;> by_cases e : findOps.projection.length > 0 <;>
    simp [a, b, d, e, evalStages, evalStage]

/-- On a store that reads the pipeline as MongoDB does and holds a non-empty
collection, the `Total` returned by `AdminFindPaginated` is the number of all
documents of the collection, whatever the filter of the options. -/
theorem AdminFindPaginated_total_is_collection_size {T : Type} (sem : StageSem T)
    (base : Store T) (doc : T) (rest : List T) (c : Context)
    (collection customerGUID : String) (findOps : FindOptions)
    (hctx : ReadContext c = some (collection, customerGUID, none)) :
    ∃ results,
      (AdminFindPaginated { base with aggregate := mongoAggregate sem (doc :: rest) } c
        (some findOps)).2 = some (some ⟨((doc :: rest).length : Int), results⟩, none) := by
  obtain ⟨results, hres⟩ := evalStages_resultsPipe sem findOps (doc :: rest)
  refine ⟨results, ?_⟩
  simp [AdminFindPaginated, hctx, mongoAggregate, evalFacet, paginatedPipeline, mapGet,
    evalCount, hres]


/-! ## Tenant-wide deletion: the runs of `AdminDeleteCustomersDocs` -/

theorem set_split {α : Type} (l : List α) (i : Nat) (w : α) (h : l[i]? = some w) :
    ∃ pre post, l = pre ++ w :: post ∧ ∀ w2, l.set i w2 = pre ++ w2 :: post := by
  induction l generalizing i with
  | nil => simp at h
  | cons a rest ih =>
    cases i with
    | zero =>
      simp at h
      subst h
      exact ⟨[], rest, rfl, fun _ => rfl⟩
    | succ i =>
      simp at h
      obtain ⟨pre, post, h1, h2⟩ := ih i h
      exact ⟨a :: pre, post, by simp [h1], fun w2 => by simp [h2]⟩

theorem wrapInt64_add_wrapInt64 (a b : Int) :
    wrapInt64 (wrapInt64 a + b) = wrapInt64 (a + b) := by
  unfold wrapInt64
  omega

theorem wrapInt64_zero : wrapInt64 0 = 0 := by decide

theorem DelInv_launched {T : Type} (st : Store T) (jobs : List (String × BsonD)) :
    DelInv st jobs (launched jobs) where
  jobs_eq := by simp [launched, Function.comp_def]
  consistent := by
    intro w hw
    simp only [launched, List.mem_map] at hw
    obtain ⟨j, _, rfl⟩ := hw
    trivial
  errs := by
    simp only [launched, errorEntries, List.nil_append]
    congr 1
    induction jobs with
    | nil => rfl
    | cons j rest ih =>
      simp only [List.map_cons, List.flatMap_cons, List.filterMap_cons, Worker.unsent]
      rw [ih]
      cases failure st j <;> rfl
  count := by
    have h : ((launched (T := T) jobs).workers.map (Worker.added st)).sum = 0 := by
      simp only [launched]
      induction jobs with
      | nil => rfl
      | cons j rest ih =>
        simp [Worker.added] at ih ⊢
        exact ih
    rw [h]
    rfl
  calls := by
    simp only [launched, List.nil_append]
    congr 1
    induction jobs with
    | nil => rfl
    | cons j rest ih =>
      simp only [List.map_cons, List.flatMap_cons, Worker.uncalled]
      rw [ih]
      rfl
  closed_done := by simp [launched]
  collected_closed := by simp [launched]
  returned_collected := by simp [launched]
  not_panicked := rfl
  compound := Or.inl rfl

theorem errorEntries_multierrorAppend (err : Option GoErr) (e : BaseErr) :
    errorEntries (multierrorAppend err e) = errorEntries err ++ [e] := by
  cases err with
  | none => rfl
  | some g => cases g <;> rfl

theorem multierrorAppend_compound (err : Option GoErr) (e : BaseErr) :
    ∃ errs, errs ≠ [] ∧ multierrorAppend err e = some (.multi errs) := by
  cases err with
  | none => exact ⟨[e], by simp, rfl⟩
  | some g =>
    cases g with
    | base b => exact ⟨[b, e], by simp, rfl⟩
    | multi es => exact ⟨es ++ [e], by simp, rfl⟩

theorem forall_mem_replace {α : Type} (P : α → Prop) (pre post : List α) (a b : α)
    (h : ∀ x ∈ pre ++ a :: post, P x) (hb : P b) : ∀ x ∈ pre ++ b :: post, P x := by
  intro x hx
  simp only [List.mem_append, List.mem_cons] at hx h
  rcases hx with hx | rfl | hx
  · exact h x (Or.inl hx)
  · exact hb
  · exact h x (Or.inr (Or.inr hx))

theorem DelInv_stepWorker {T : Type} (st : Store T) (cap : Nat) (jobs : List (String × BsonD))
    (s s2 : DelState T) (i : Nat) (hinv : DelInv st jobs s)
    (h : stepWorker st cap s i = some s2) : DelInv st jobs s2 ∧ s2.weight < s.weight := by
  unfold stepWorker at h
  cases hw : s.workers[i]? with
  | none => simp [hw] at h
  | some w =>
    obtain ⟨pre, post, hl, hset⟩ := set_split _ _ _ hw
    rw [hw] at h
    simp only at h
    obtain ⟨workers, chan, closed, collected, dErrs, dCount, calls, returned, panicked⟩ := s
    obtain ⟨h1, h2, h3, h4, h5, h6, h7, h8, h9, h10⟩ := hinv
    simp only at hl hset h1 h2 h3 h4 h5 h6 h7 h8 h9 h10 h
    subst hl
    have hcons : Worker.Consistent st w := h2 w (by simp)
    have hopen : w.isDone = false → closed = false := by
      intro hd
      cases closed with
      | false => rfl
      | true =>
        have := h6 rfl w (by simp)
        rw [hd] at this
        exact absurd this (by simp)
    obtain ⟨collection, filter, phase⟩ := w
    cases phase with
    | start =>
      have hopen := hopen rfl
      subst hopen
      simp only [hset, Option.some.injEq] at h
      subst h
      cases hr : st.deleteMany collection filter with
      | mk res err =>
        cases err with
        | none =>
          refine ⟨⟨?_, ?_, ?_, ?_, ?_, ?_, ?_, ?_, ?_, ?_⟩, ?_⟩
          · simpa using h1
          · exact forall_mem_replace _ _ _ _ _ h2 (by simp only [Worker.Consistent, hr])
          · rw [← h3]
            simp only [List.flatMap_append, List.flatMap_cons, Worker.unsent, failure, hr,
              Option.toList]
          · rw [h4]
            simp only [List.map_append, List.map_cons, Worker.added]
          · rw [← h5]
            simp only [List.flatMap_append, List.flatMap_cons, Worker.uncalled,
              ← Multiset.coe_add]
            abel
          · intro hc
            exact absurd hc (by simp)
          · exact h7
          · exact h8
          · exact h9
          · exact h10
          · simp only [DelState.weight, List.map_append, List.map_cons, List.sum_append,
              List.sum_cons, Worker.weight]
            omega
        | some e =>
          refine ⟨⟨?_, ?_, ?_, ?_, ?_, ?_, ?_, ?_, ?_, ?_⟩, ?_⟩
          · simpa using h1
          · exact forall_mem_replace _ _ _ _ _ h2 (by simp only [Worker.Consistent, hr])
          · rw [← h3]
            simp only [List.flatMap_append, List.flatMap_cons, Worker.unsent, failure, hr,
              Option.toList]
          · rw [h4]
            simp only [List.map_append, List.map_cons, Worker.added]
          · rw [← h5]
            simp only [List.flatMap_append, List.flatMap_cons, Worker.uncalled,
              ← Multiset.coe_add]
            abel
          · intro hc
            exact absurd hc (by simp)
          · exact h7
          · exact h8
          · exact h9
          · exact h10
          · simp only [DelState.weight, List.map_append, List.map_cons, List.sum_append,
              List.sum_cons, Worker.weight]
            omega
    | send err res =>
      have hopen := hopen rfl
      subst hopen
      simp only [Worker.Consistent] at hcons
      simp only [hset, Bool.false_eq_true, if_false] at h
      by_cases hcap : cap = 0
      · simp only [hcap, if_true, Option.some.injEq] at h
        subst h
        refine ⟨⟨?_, ?_, ?_, ?_, ?_, ?_, ?_, ?_, ?_, ?_⟩, ?_⟩
        · simpa using h1
        · exact forall_mem_replace _ _ _ _ _ h2 (by simp only [Worker.Consistent, hcons])
        · rw [← h3]
          simp only [List.flatMap_append, List.flatMap_cons, Worker.unsent,
            errorEntries_multierrorAppend, ← Multiset.coe_add]
          abel
        · rw [h4]
          simp only [List.map_append, List.map_cons, Worker.added]
        · rw [← h5]
          simp only [List.flatMap_append, List.flatMap_cons, Worker.uncalled]
        · intro hc
          exact absurd hc (by simp)
        · exact h7
        · exact h8
        · exact h9
        · exact Or.inr (multierrorAppend_compound _ _)
        · simp only [DelState.weight, List.map_append, List.map_cons, List.sum_append,
            List.sum_cons, Worker.weight]
          omega
      · simp only [hcap, if_false] at h
        split at h
        · simp only [Option.some.injEq] at h
          subst h
          refine ⟨⟨?_, ?_, ?_, ?_, ?_, ?_, ?_, ?_, ?_, ?_⟩, ?_⟩
          · simpa using h1
          · exact forall_mem_replace _ _ _ _ _ h2 (by simp only [Worker.Consistent, hcons])
          · rw [← h3]
            simp only [List.flatMap_append, List.flatMap_cons, Worker.unsent,
              ← Multiset.coe_add]
            abel
          · rw [h4]
            simp only [List.map_append, List.map_cons, Worker.added]
          · rw [← h5]
            simp only [List.flatMap_append, List.flatMap_cons, Worker.uncalled]
          · intro hc
            exact absurd hc (by simp)
          · intro hc
            have := h7 hc
            simp at this
          · exact h8
          · exact h9
          · exact h10
          · simp only [DelState.weight, List.map_append, List.map_cons, List.sum_append,
              List.sum_cons, Worker.weight, List.length_append, List.length_singleton]
            omega
        · simp at h
    | add res =>
      have hopen := hopen rfl
      subst hopen
      simp only [Worker.Consistent] at hcons
      simp only [hset, Option.some.injEq] at h
      subst h
      refine ⟨⟨?_, ?_, ?_, ?_, ?_, ?_, ?_, ?_, ?_, ?_⟩, ?_⟩
      · simpa using h1
      · exact forall_mem_replace _ _ _ _ _ h2 (by simp only [Worker.Consistent])
      · rw [← h3]
        simp only [List.flatMap_append, List.flatMap_cons, Worker.unsent]
      · simp only [List.map_append, List.map_cons, Worker.added, List.sum_append,
          List.sum_cons, reported, hcons] at h4 ⊢
        cases res with
        | none =>
          simp only [Option.getD_none]
          exact h4
        | some deleted =>
          simp only [Option.getD_some]
          rw [h4, wrapInt64_add_wrapInt64]
          congr 1
          omega
      · rw [← h5]
        simp only [List.flatMap_append, List.flatMap_cons, Worker.uncalled]
      · intro hc
        exact absurd hc (by simp)
      · exact h7
      · exact h8
      · exact h9
      · exact h10
      · simp only [DelState.weight, List.map_append, List.map_cons, List.sum_append,
          List.sum_cons, Worker.weight]
        omega
    | done => simp at h

theorem DelInv_stepCollector {T : Type} (st : Store T) (jobs : List (String × BsonD))
    (s s2 : DelState T) (hinv : DelInv st jobs s) (h : stepCollector s = some s2) :
    DelInv st jobs s2 ∧ s2.weight < s.weight := by
  unfold stepCollector at h
  obtain ⟨workers, chan, closed, collected, dErrs, dCount, calls, returned, panicked⟩ := s
  obtain ⟨h1, h2, h3, h4, h5, h6, h7, h8, h9, h10⟩ := hinv
  simp only at h1 h2 h3 h4 h5 h6 h7 h8 h9 h10 h
  cases collected with
  | true => simp at h
  | false =>
    simp only [Bool.false_eq_true, if_false] at h
    cases chan with
    | cons err rest =>
      simp only [Option.some.injEq] at h
      subst h
      refine ⟨⟨h1, h2, ?_, h4, h5, h6, ?_, h8, h9, Or.inr (multierrorAppend_compound _ _)⟩, ?_⟩
      · rw [← h3]
        simp only [errorEntries_multierrorAppend, ← Multiset.coe_add, ← Multiset.cons_coe,
          Multiset.coe_singleton, ← Multiset.singleton_add]
        abel
      · intro hc
        exact absurd hc (by simp)
      · simp only [DelState.weight, List.length_cons]
        omega
    | nil =>
      cases closed with
      | false => simp at h
      | true =>
        simp only [if_true, Option.some.injEq] at h
        subst h
        refine ⟨⟨h1, h2, h3, h4, h5, h6, ?_, ?_, h9, h10⟩, ?_⟩
        · intro _
          exact ⟨rfl, rfl⟩
        · intro _
          rfl
        · simp only [DelState.weight]
          simp

theorem DelInv_stepCaller {T : Type} (st : Store T) (jobs : List (String × BsonD))
    (s s2 : DelState T) (hinv : DelInv st jobs s) (h : stepCaller s = some s2) :
    DelInv st jobs s2 ∧ s2.weight < s.weight := by
  unfold stepCaller at h
  obtain ⟨workers, chan, closed, collected, dErrs, dCount, calls, returned, panicked⟩ := s
  obtain ⟨h1, h2, h3, h4, h5, h6, h7, h8, h9, h10⟩ := hinv
  simp only at h1 h2 h3 h4 h5 h6 h7 h8 h9 h10 h
  cases returned with
  | true => simp at h
  | false =>
    simp only [Bool.false_eq_true, if_false] at h
    cases closed with
    | true =>
      cases collected with
      | false => simp at h
      | true =>
        simp only [if_true, Option.some.injEq] at h
        subst h
        refine ⟨⟨h1, h2, h3, h4, h5, h6, h7, ?_, h9, h10⟩, ?_⟩
        · intro _
          rfl
        · simp only [DelState.weight]
          simp
    | false =>
      simp only [Bool.false_eq_true, if_false] at h
      split at h
      · next hall =>
        simp only [Option.some.injEq] at h
        subst h
        refine ⟨⟨h1, h2, h3, h4, h5, ?_, ?_, h8, h9, h10⟩, ?_⟩
        · intro _ w hw
          exact List.all_eq_true.mp hall w hw
        · intro hc
          exact ⟨rfl, (h7 hc).2⟩
        · simp only [DelState.weight]
          simp
      · simp at h

theorem DelInv_step {T : Type} (st : Store T) (cap : Nat) (jobs : List (String × BsonD))
    (s s2 : DelState T) (t : Thread) (hinv : DelInv st jobs s)
    (h : step st cap s t = some s2) : DelInv st jobs s2 ∧ s2.weight < s.weight := by
  unfold step at h
  rw [hinv.not_panicked] at h
  simp only [Bool.false_eq_true, if_false] at h
  cases t with
  | worker i => exact DelInv_stepWorker st cap jobs s s2 i hinv h
  | collector => exact DelInv_stepCollector st jobs s s2 hinv h
  | caller => exact DelInv_stepCaller st jobs s s2 hinv h

theorem DelInv_runSchedule {T : Type} (st : Store T) (cap : Nat) (jobs : List (String × BsonD))
    (schedule : List Thread) (s : DelState T) (hinv : DelInv st jobs s) :
    DelInv st jobs (runSchedule st cap s schedule) := by
  induction schedule generalizing s with
  | nil => exact hinv
  | cons t rest ih =>
    simp only [runSchedule]
    cases h : step st cap s t with
    | none => exact ih s hinv
    | some s2 => exact ih s2 (DelInv_step st cap jobs s s2 t hinv h).1

theorem runSchedule_append {T : Type} (st : Store T) (cap : Nat) (s : DelState T)
    (a b : List Thread) :
    runSchedule st cap s (a ++ b) = runSchedule st cap (runSchedule st cap s a) b := by
  induction a generalizing s with
  | nil => rfl
  | cons t rest ih => exact ih _

theorem step_enabled {T : Type} (st : Store T) (cap : Nat) (jobs : List (String × BsonD))
    (s : DelState T) (hinv : DelInv st jobs s) (hret : s.returned = false) :
    ∃ t s2, step st cap s t = some s2 := by
  have hp := hinv.not_panicked
  by_cases hall : s.workers.all Worker.isDone = true
  · cases hclosed : s.closed with
    | false =>
      refine ⟨Thread.caller, { s with closed := true }, ?_⟩
      simp [step, hp, stepCaller, hret, hclosed, hall]
    | true =>
      cases hcoll : s.collected with
      | true =>
        refine ⟨Thread.caller, { s with returned := true }, ?_⟩
        simp [step, hp, stepCaller, hret, hclosed, hcoll]
      | false =>
        cases hchan : s.errChanel with
        | nil =>
          refine ⟨Thread.collector, { s with collected := true }, ?_⟩
          simp [step, hp, stepCollector, hclosed, hcoll, hchan]
        | cons err rest =>
          exact ⟨Thread.collector, _, by
            simp only [step, hp, stepCollector, hcoll, hchan]; rfl⟩
  · simp only [List.all_eq_true, not_forall] at hall
    obtain ⟨w, hw, hnd⟩ := hall
    have hnd : w.isDone = false := by simpa using hnd
    have hclosed : s.closed = false := by
      cases hc : s.closed with
      | false => rfl
      | true =>
        have := hinv.closed_done hc w hw
        rw [hnd] at this
        exact absurd this (by simp)
    have hcoll : s.collected = false := by
      cases hc : s.collected with
      | false => rfl
      | true =>
        have := (hinv.collected_closed hc).1
        rw [hclosed] at this
        exact absurd this (by simp)
    obtain ⟨i, hi⟩ := List.getElem?_of_mem hw
    obtain ⟨collection, filter, phase⟩ := w
    cases phase with
    | start =>
      exact ⟨Thread.worker i, _, by simp only [step, hp, stepWorker, hi]; rfl⟩
    | send err res =>
      by_cases hcap : cap = 0
      · exact ⟨Thread.worker i, _, by simp only [step, hp, stepWorker, hi, hclosed, hcap]; rfl⟩
      · by_cases hlen : s.errChanel.length < cap
        · exact ⟨Thread.worker i, _, by
            simp only [step, hp, stepWorker, hi, hclosed, hcap, hlen]; rfl⟩
        · cases hchan : s.errChanel with
          | nil =>
            rw [hchan] at hlen
            simp only [List.length_nil] at hlen
            omega
          | cons e rest =>
            exact ⟨Thread.collector, _, by
              simp only [step, hp, stepCollector, hcoll, hchan]; rfl⟩
    | add res =>
      exact ⟨Thread.worker i, _, by simp only [step, hp, stepWorker, hi]; rfl⟩
    | done => simp [Worker.isDone] at hnd

theorem exists_completion {T : Type} (st : Store T) (cap : Nat) (jobs : List (String × BsonD))
    (n : Nat) (s : DelState T) (hinv : DelInv st jobs s) (hn : s.weight ≤ n) :
    ∃ schedule, (runSchedule st cap s schedule).returned = true := by
  induction n generalizing s with
  | zero =>
    cases hret : s.returned with
    | true => exact ⟨[], hret⟩
    | false =>
      simp only [DelState.weight, hret] at hn
      simp at hn
  | succ n ih =>
    cases hret : s.returned with
    | true => exact ⟨[], hret⟩
    | false =>
      obtain ⟨t, s2, hstep⟩ := step_enabled st cap jobs s hinv hret
      obtain ⟨hinv2, hlt⟩ := DelInv_step st cap jobs s s2 t hinv hstep
      obtain ⟨schedule, hs⟩ := ih s2 hinv2 (by omega)
      exact ⟨t :: schedule, by simpa only [runSchedule, hstep, Option.getD_some] using hs⟩

theorem DelInv_returned {T : Type} (st : Store T) (jobs : List (String × BsonD))
    (s : DelState T) (hinv : DelInv st jobs s) (hret : s.returned = true) :
    s.deletedCount = wrapInt64 (jobs.map (reported st)).sum ∧
    (errorEntries s.deletionErrs).Perm (jobs.filterMap (failure st)) ∧
    s.calls.Perm (jobs.map fun job => Call.deleteMany job.1 job.2) ∧
    (s.deletionErrs = none ∨ ∃ errs, errs ≠ [] ∧ s.deletionErrs = some (.multi errs)) := by
  have hcoll := hinv.returned_collected hret
  obtain ⟨hclosed, hchan⟩ := hinv.collected_closed hcoll
  have hdone := hinv.closed_done hclosed
  have hphase : ∀ w ∈ s.workers, w.phase = Phase.done := by
    intro w hw
    have := hdone w hw
    obtain ⟨collection, filter, phase⟩ := w
    cases phase <;> simp [Worker.isDone] at this ⊢
  have hunsent : s.workers.flatMap (Worker.unsent st) = [] := by
    rw [List.flatMap_eq_nil_iff]
    intro w hw
    simp only [Worker.unsent, hphase w hw]
  have huncalled : s.workers.flatMap (Worker.uncalled (T := T)) = [] := by
    rw [List.flatMap_eq_nil_iff]
    intro w hw
    simp only [Worker.uncalled, hphase w hw]
  have hadded : s.workers.map (Worker.added st) = jobs.map (reported st) := by
    rw [← hinv.jobs_eq, List.map_map]
    apply List.map_congr_left
    intro w hw
    simp only [Worker.added, hphase w hw, Function.comp]
  refine ⟨?_, ?_, ?_, hinv.compound⟩
  · rw [hinv.count, hadded]
  · have := hinv.errs
    rw [hchan, hunsent, List.append_nil, List.append_nil] at this
    exact Multiset.coe_eq_coe.mp this
  · have := hinv.calls
    rw [huncalled, List.append_nil] at this
    exact Multiset.coe_eq_coe.mp this

theorem AdminDeleteCustomersDocs_run {T : Type} (B : Builders) (st : Store T)
    (schedule : List Thread) (c : Context) (customerGUIDs collections : List String)
    (hne : customerGUIDs ≠ []) (hlist : st.listCollectionNames = .ok collections) :
    AdminDeleteCustomersDocs B st schedule c customerGUIDs =
      let s := runSchedule st collections.length
        (launched (deletionJobs B collections customerGUIDs)) schedule
      if s.returned then
        some (Call.listCollectionNames :: s.calls, s.deletedCount, s.deletionErrs)
      else none := by
  have hlen : ¬ customerGUIDs.length = 0 := by
    cases customerGUIDs with
    | nil => exact absurd rfl hne
    | cons _ _ => simp
  simp only [AdminDeleteCustomersDocs, hlen, if_false, hlist]

theorem AdminDeleteCustomersDocs_returns {T : Type} (B : Builders) (st : Store T)
    (c : Context) (customerGUIDs collections : List String)
    (hne : customerGUIDs ≠ []) (hlist : st.listCollectionNames = .ok collections)
    (schedule : List Thread) :
    ∃ more, (AdminDeleteCustomersDocs B st (schedule ++ more) c customerGUIDs).isSome = true := by
  have hinv := DelInv_runSchedule st collections.length _ schedule _
    (DelInv_launched st (deletionJobs B collections customerGUIDs))
  obtain ⟨more, hmore⟩ := exists_completion st collections.length _ _ _ hinv (le_refl _)
  refine ⟨more, ?_⟩
  rw [AdminDeleteCustomersDocs_run B st _ c customerGUIDs collections hne hlist]
  simp only [runSchedule_append, hmore, if_true, Option.isSome_some]

theorem AdminDeleteCustomersDocs_result {T : Type} (B : Builders) (st : Store T)
    (c : Context) (customerGUIDs collections : List String)
    (hne : customerGUIDs ≠ []) (hlist : st.listCollectionNames = .ok collections)
    (schedule : List Thread) (calls : List (Call T)) (count : Int) (err : Option GoErr)
    (h : AdminDeleteCustomersDocs B st schedule c customerGUIDs = some (calls, count, err)) :
    count = wrapInt64 ((deletionJobs B collections customerGUIDs).map (reported st)).sum ∧
    (errorEntries err).Perm ((deletionJobs B collections customerGUIDs).filterMap (failure st)) ∧
    (∃ deletions, calls = Call.listCollectionNames :: deletions ∧
      deletions.Perm ((deletionJobs B collections customerGUIDs).map
        fun job => Call.deleteMany job.1 job.2)) ∧
    (err = none ∨ ∃ errs, errs ≠ [] ∧ err = some (.multi errs)) := by
  rw [AdminDeleteCustomersDocs_run B st _ c customerGUIDs collections hne hlist] at h
  simp only at h
  split at h
  · next hret =>
    have hinv := DelInv_runSchedule st collections.length _ schedule _
      (DelInv_launched st (deletionJobs B collections customerGUIDs))
    obtain ⟨h1, h2, h3, h4⟩ := DelInv_returned st _ _ hinv hret
    simp only [Option.some.injEq, Prod.mk.injEq] at h
    obtain ⟨hc, hn, he⟩ := h
    subst hc hn he
    exact ⟨h1, h2, ⟨_, rfl, h3⟩, h4⟩
  · simp at h

theorem deletionJobs_nodup (B : Builders) (collections customerGUIDs : List String)
    (h : collections.Nodup) :
    ((deletionJobs B collections customerGUIDs).map Prod.fst).Nodup := by
  simp only [deletionJobs, List.map_cons, List.map_map, List.nodup_cons, List.mem_map,
    List.mem_filter, Function.comp]
  refine ⟨?_, ?_⟩
  · rintro ⟨x, ⟨_, hx⟩, rfl⟩
    simp at hx
  · have : (List.map (fun x => x) (collections.filter
        fun collection => collection != B.customersCollection)).Nodup := by
      rw [List.map_id_fun', id]
      exact h.filter _
    exact this

theorem deletionJobs_reported_sum {T : Type} (B : Builders) (st : Store T)
    (collections customerGUIDs : List String) :
    ((deletionJobs B collections customerGUIDs).map (reported st)).sum =
      (st.deleteMany B.customersCollection (B.withIDs customerGUIDs)).1.getD 0 +
        ((collections.filter fun collection => collection != B.customersCollection).map
          fun collection =>
            (st.deleteMany collection (B.withCustomers customerGUIDs)).1.getD 0).sum := by
  simp only [deletionJobs, List.map_cons, List.sum_cons, List.map_map, reported]
  rfl

theorem deletionJobs_calls {T : Type} (B : Builders) (collections customerGUIDs : List String) :
    (deletionJobs B collections customerGUIDs).map
        (fun job => (Call.deleteMany job.1 job.2 : Call T)) =
      Call.deleteMany B.customersCollection (B.withIDs customerGUIDs) ::
        (collections.filter fun collection => collection != B.customersCollection).map
          fun collection => Call.deleteMany collection (B.withCustomers customerGUIDs) := by
  simp only [deletionJobs, List.map_cons, List.map_map]
  rfl

/-- C23: for a non-empty list of tenant identifiers and a store that lists the
collections, `AdminDeleteCustomersDocs` returns under every schedule of its
goroutines that is run to the end, and the count it returns is the deleted
count that the store reports for the deletion by `WithIDs` in the
tenant-record collection plus the deleted counts that it reports for the
deletion by `WithCustomers` in every listed collection other than the
tenant-record collection (0 for a deletion without result), whether or not a
deletion fails; these deletions are the `DeleteMany` calls sent, each once,
and the collections are pairwise distinct when the listing names none twice.
The sum is taken to fit in 64 bits, the width of the counter. -/
theorem AdminDeleteCustomersDocs_deleted_count {T : Type} (B : Builders) (st : Store T)
    (c : Context) (customerGUIDs collections : List String)
    (hne : customerGUIDs ≠ []) (hlist : st.listCollectionNames = .ok collections)
    (hlo : -9223372036854775808 ≤
      (st.deleteMany B.customersCollection (B.withIDs customerGUIDs)).1.getD 0 +
        ((collections.filter fun collection => collection != B.customersCollection).map
          fun collection =>
            (st.deleteMany collection (B.withCustomers customerGUIDs)).1.getD 0).sum)
    (hhi : (st.deleteMany B.customersCollection (B.withIDs customerGUIDs)).1.getD 0 +
        ((collections.filter fun collection => collection != B.customersCollection).map
          fun collection =>
            (st.deleteMany collection (B.withCustomers customerGUIDs)).1.getD 0).sum <
      9223372036854775808) :
    (∀ schedule, ∃ more calls err,
      AdminDeleteCustomersDocs B st (schedule ++ more) c customerGUIDs =
        some (calls,
          (st.deleteMany B.customersCollection (B.withIDs customerGUIDs)).1.getD 0 +
            ((collections.filter fun collection => collection != B.customersCollection).map
              fun collection =>
                (st.deleteMany collection (B.withCustomers customerGUIDs)).1.getD 0).sum,
          err)) ∧
    (∀ schedule calls count err,
      AdminDeleteCustomersDocs B st schedule c customerGUIDs = some (calls, count, err) →
        count =
          (st.deleteMany B.customersCollection (B.withIDs customerGUIDs)).1.getD 0 +
            ((collections.filter fun collection => collection != B.customersCollection).map
              fun collection =>
                (st.deleteMany collection (B.withCustomers customerGUIDs)).1.getD 0).sum ∧
        ∃ deletions, calls = Call.listCollectionNames :: deletions ∧
          deletions.Perm
            (Call.deleteMany B.customersCollection (B.withIDs customerGUIDs) ::
              (collections.filter fun collection => collection != B.customersCollection).map
                fun collection => Call.deleteMany collection (B.withCustomers customerGUIDs))) ∧
    (collections.Nodup →
      (B.customersCollection ::
        collections.filter fun collection => collection != B.customersCollection).Nodup) := by
  rw [← deletionJobs_reported_sum B st collections customerGUIDs] at hlo hhi
  have hsafe : ∀ schedule calls count err,
      AdminDeleteCustomersDocs B st schedule c customerGUIDs = some (calls, count, err) →
        count =
          (st.deleteMany B.customersCollection (B.withIDs customerGUIDs)).1.getD 0 +
            ((collections.filter fun collection => collection != B.customersCollection).map
              fun collection =>
                (st.deleteMany collection (B.withCustomers customerGUIDs)).1.getD 0).sum ∧
        ∃ deletions, calls = Call.listCollectionNames :: deletions ∧
          deletions.Perm
            (Call.deleteMany B.customersCollection (B.withIDs customerGUIDs) ::
              (collections.filter fun collection => collection != B.customersCollection).map
                fun collection => Call.deleteMany collection (B.withCustomers customerGUIDs)) := by
    intro schedule calls count err h
    obtain ⟨h1, _, h3, _⟩ :=
      AdminDeleteCustomersDocs_result B st c customerGUIDs collections hne hlist schedule
        calls count err h
    rw [deletionJobs_calls] at h3
    refine ⟨?_, h3⟩
    rw [h1, wrapInt64_of_inRange _ hlo hhi, deletionJobs_reported_sum]
  refine ⟨?_, hsafe, ?_⟩
  · intro schedule
    obtain ⟨more, hmore⟩ :=
      AdminDeleteCustomersDocs_returns B st c customerGUIDs collections hne hlist schedule
    cases hr : AdminDeleteCustomersDocs B st (schedule ++ more) c customerGUIDs with
    | none => simp [hr] at hmore
    | some r =>
      obtain ⟨calls, count, err⟩ := r
      obtain ⟨hcount, _⟩ := hsafe _ calls count err hr
      exact ⟨more, calls, err, by rw [hr, hcount]⟩
  · intro hnodup
    have := deletionJobs_nodup B collections customerGUIDs hnodup
    simpa [deletionJobs, List.map_map, Function.comp_def] using this

theorem AdminDeleteCustomersDocs_deleted_count_witness :
    ((∀ schedule, ∃ more calls err,
      AdminDeleteCustomersDocs exampleBuilders filteringStore (schedule ++ more)
        (stringContext none none) ["t"] = some (calls, 4, err)) ∧
    (∀ schedule calls count err,
      AdminDeleteCustomersDocs exampleBuilders filteringStore schedule
        (stringContext none none) ["t"] = some (calls, count, err) →
        count = 4 ∧
        ∃ deletions, calls = Call.listCollectionNames :: deletions ∧
          deletions.Perm
            [Call.deleteMany "customers" [("_id", BVal.doc [("$in", BVal.arr [BVal.str "t"])])],
             Call.deleteMany "X" [("customers", BVal.doc [("$in", BVal.arr [BVal.str "t"])])],
             Call.deleteMany "Y" [("customers", BVal.doc [("$in", BVal.arr [BVal.str "t"])])],
             Call.deleteMany "Z" [("customers", BVal.doc [("$in", BVal.arr [BVal.str "t"])])]]) ∧
    (["X", "customers", "Y", "Z"].Nodup → ["customers", "X", "Y", "Z"].Nodup)) ∧
    AdminDeleteCustomersDocs exampleBuilders filteringStore (roundRobin 4 4)
        (stringContext none none) ["t"] =
      some ([Call.listCollectionNames,
          Call.deleteMany "customers" [("_id", BVal.doc [("$in", BVal.arr [BVal.str "t"])])],
          Call.deleteMany "X" [("customers", BVal.doc [("$in", BVal.arr [BVal.str "t"])])],
          Call.deleteMany "Y" [("customers", BVal.doc [("$in", BVal.arr [BVal.str "t"])])],
          Call.deleteMany "Z" [("customers", BVal.doc [("$in", BVal.arr [BVal.str "t"])])]],
        4, some (.multi [.driver 7])) :=
  ⟨AdminDeleteCustomersDocs_deleted_count exampleBuilders filteringStore
    (stringContext none none) ["t"] ["X", "customers", "Y", "Z"] (by simp) rfl
    (by decide) (by decide), rfl⟩

theorem deletionJobs_failures {T : Type} (B : Builders) (st : Store T)
    (collections customerGUIDs : List String) :
    (deletionJobs B collections customerGUIDs).filterMap (failure st) =
      (st.deleteMany B.customersCollection (B.withIDs customerGUIDs)).2.toList ++
        (collections.filter fun collection => collection != B.customersCollection).filterMap
          fun collection => (st.deleteMany collection (B.withCustomers customerGUIDs)).2 := by
  simp only [deletionJobs, List.filterMap_cons, failure, List.filterMap_map]
  cases (st.deleteMany B.customersCollection (B.withIDs customerGUIDs)).2 <;> rfl

/-- C24 (amended): for a non-empty list of tenant identifiers and a store that
lists the collections, `AdminDeleteCustomersDocs` returns under every
schedule of its goroutines that is run to the end; the error it returns is
nil exactly when neither the deletion by `WithIDs` in the tenant-record
collection nor the deletion by `WithCustomers` in a listed collection other
than it failed, and otherwise it is one compound error whose entries are the
errors that the store reported for the failed deletions, as the store
reported them, one entry for each, in the order of their arrival. -/
theorem AdminDeleteCustomersDocs_compound_error {T : Type} (B : Builders) (st : Store T)
    (c : Context) (customerGUIDs collections : List String)
    (hne : customerGUIDs ≠ []) (hlist : st.listCollectionNames = .ok collections) :
    (∀ schedule, ∃ more,
      (AdminDeleteCustomersDocs B st (schedule ++ more) c customerGUIDs).isSome = true) ∧
    ∀ schedule calls count err,
      AdminDeleteCustomersDocs B st schedule c customerGUIDs = some (calls, count, err) →
        (err = none ↔
          (st.deleteMany B.customersCollection (B.withIDs customerGUIDs)).2 = none ∧
          ∀ collection ∈ collections, collection ≠ B.customersCollection →
            (st.deleteMany collection (B.withCustomers customerGUIDs)).2 = none) ∧
        (err ≠ none → ∃ errs, err = some (.multi errs) ∧
          errs.Perm
            ((st.deleteMany B.customersCollection (B.withIDs customerGUIDs)).2.toList ++
              (collections.filter fun collection =>
                collection != B.customersCollection).filterMap
                fun collection =>
                  (st.deleteMany collection (B.withCustomers customerGUIDs)).2)) := by
  refine ⟨AdminDeleteCustomersDocs_returns B st c customerGUIDs collections hne hlist, ?_⟩
  intro schedule calls count err h
  obtain ⟨_, h2, _, h4⟩ :=
    AdminDeleteCustomersDocs_result B st c customerGUIDs collections hne hlist schedule
      calls count err h
  rw [deletionJobs_failures] at h2
  have hnil : ((st.deleteMany B.customersCollection (B.withIDs customerGUIDs)).2.toList ++
      (collections.filter fun collection => collection != B.customersCollection).filterMap
        fun collection => (st.deleteMany collection (B.withCustomers customerGUIDs)).2) = [] ↔
      ((st.deleteMany B.customersCollection (B.withIDs customerGUIDs)).2 = none ∧
        ∀ collection ∈ collections, collection ≠ B.customersCollection →
          (st.deleteMany collection (B.withCustomers customerGUIDs)).2 = none) := by
    rw [List.append_eq_nil, List.filterMap_eq_nil_iff]
    constructor
    · rintro ⟨ha, hb⟩
      refine ⟨?_, ?_⟩
      · cases hx : (st.deleteMany B.customersCollection (B.withIDs customerGUIDs)).2 with
        | none => rfl
        | some e => simp [hx] at ha
      · intro collection hc hn
        exact hb collection (List.mem_filter.2 ⟨hc, by simpa using hn⟩)
    · rintro ⟨ha, hb⟩
      refine ⟨by rw [ha]; rfl, ?_⟩
      intro collection hc
      obtain ⟨hc1, hc2⟩ := List.mem_filter.1 hc
      exact hb collection hc1 (by simpa using hc2)
  rcases h4 with h4 | ⟨errs, hne2, h4⟩
  · subst h4
    simp only [errorEntries] at h2
    refine ⟨⟨fun _ => hnil.mp (List.Perm.nil_eq h2).symm, fun _ => rfl⟩, fun hx => absurd rfl hx⟩
  · subst h4
    simp only [errorEntries] at h2
    refine ⟨⟨fun hx => by simp at hx, fun hx => ?_⟩, fun _ => ⟨errs, rfl, h2⟩⟩
    rw [hnil.mpr hx] at h2
    exact absurd (List.Perm.eq_nil h2) hne2

theorem AdminDeleteCustomersDocs_compound_error_witness :
    ((∀ schedule, ∃ more,
      (AdminDeleteCustomersDocs exampleBuilders filteringStore (schedule ++ more)
        (stringContext none none) ["t"]).isSome = true) ∧
    ∀ schedule calls count err,
      AdminDeleteCustomersDocs exampleBuilders filteringStore schedule
        (stringContext none none) ["t"] = some (calls, count, err) →
        (err = none ↔
          (filteringStore.deleteMany "customers" (exampleBuilders.withIDs ["t"])).2 = none ∧
          ∀ collection ∈ ["X", "customers", "Y", "Z"], collection ≠ "customers" →
            (filteringStore.deleteMany collection (exampleBuilders.withCustomers ["t"])).2 =
              none) ∧
        (err ≠ none → ∃ errs, err = some (.multi errs) ∧ errs.Perm [BaseErr.driver 7])) ∧
    (AdminDeleteCustomersDocs exampleBuilders filteringStore (roundRobin 4 4)
        (stringContext none none) ["t"]).map (fun r => r.2.2) =
      some (some (.multi [.driver 7])) :=
  ⟨AdminDeleteCustomersDocs_compound_error exampleBuilders filteringStore
    (stringContext none none) ["t"] ["X", "customers", "Y", "Z"] (by simp) rfl, rfl⟩

/-- C24, counterexample: in the scenario X: 3 documents, Y: 0 documents, Z:
the deletion fails, the function returns the count 3 and the compound error
whose one entry is the error of the store, and it returns the very same error
value when the failing collection is called W instead: the name of the
collection is not part of the returned error. -/
theorem AdminDeleteCustomersDocs_error_without_collection_name :
    AdminDeleteCustomersDocs exampleBuilders (scenarioStore "Z") (roundRobin 4 4)
        (stringContext none none) ["t"] =
      some ([Call.listCollectionNames,
          Call.deleteMany "customers" (exampleBuilders.withIDs ["t"]),
          Call.deleteMany "X" (exampleBuilders.withCustomers ["t"]),
          Call.deleteMany "Y" (exampleBuilders.withCustomers ["t"]),
          Call.deleteMany "Z" (exampleBuilders.withCustomers ["t"])],
        3, some (.multi [.driver 7])) ∧
    AdminDeleteCustomersDocs exampleBuilders (scenarioStore "W") (roundRobin 4 4)
        (stringContext none none) ["t"] =
      some ([Call.listCollectionNames,
          Call.deleteMany "customers" (exampleBuilders.withIDs ["t"]),
          Call.deleteMany "X" (exampleBuilders.withCustomers ["t"]),
          Call.deleteMany "Y" (exampleBuilders.withCustomers ["t"]),
          Call.deleteMany "W" (exampleBuilders.withCustomers ["t"])],
        3, some (.multi [.driver 7])) :=
  ⟨rfl, rfl⟩

/-! ## The unwind rewrite on several array paths and on other value types -/

/-- C26 (evaluation of the code at a failing input): the fields `a.x` and
`b.y` are requested under the array paths `a` and `b`, and the match filter is
`a: {$elemMatch: {x: 1}}`. The `$match` stage after `$unwind: "$a"` holds the
rewritten clause `a.x: 1`; the `$match` stage re-applied after `$unwind: "$b"`
is the rewrite for `b` of the filter as given, and it holds the clause keyed
`a` with `$elemMatch` although `a` has been unwound before. -/
theorem uniqueValuePipeline_later_match_keeps_elemMatch :
    uniqueValuePipeline ["a.x", "b.y"]
        [("a", BVal.doc [("$elemMatch", BVal.doc [("x", BVal.int 1)])])] 0 10 ⟨["a", "b"]⟩ =
      some [matchStage [("a", BVal.doc [("$elemMatch", BVal.doc [("x", BVal.int 1)])])],
        unwindStage "a", matchStage [("a.x", BVal.int 1)],
        unwindStage "b",
        matchStage [("a", BVal.doc [("$elemMatch", BVal.doc [("x", BVal.int 1)])])],
        [("$set", BVal.map [("a_x", BVal.str "$a.x"), ("b_y", BVal.str "$b.y")])],
        groupStage (BVal.map [("a_x", BVal.str "$a_x"), ("b_y", BVal.str "$b_y")]),
        sortStage, limitStage 10, collectStage, projectStage] ∧
    matchFiltersForUnwind "b"
        [("a", BVal.doc [("$elemMatch", BVal.doc [("x", BVal.int 1)])])] =
      some [("a", BVal.doc [("$elemMatch", BVal.doc [("x", BVal.int 1)])])] :=
  ⟨rfl, rfl⟩

theorem mapSet_of_not_mem (m : BsonM) (k : String) (v : BVal) (h : k ∉ m.map Prod.fst) :
    mapSet m k v = m ++ [(k, v)] := by
  induction m with
  | nil => rfl
  | cons e rest ih =>
    obtain ⟨k1, v1⟩ := e
    simp only [List.map_cons, List.mem_cons, not_or] at h
    have hne : ¬ k1 = k := fun hh => h.1 hh.symm
    simp only [mapSet, hne, if_false, ih h.2, List.cons_append]

theorem setLoop_of_nodup (fields : List String) (sm gm : BsonM)
    (hkeys : (fields.map cleanField).Nodup)
    (hsm : ∀ f ∈ fields, cleanField f ∉ sm.map Prod.fst)
    (hgm : ∀ f ∈ fields, cleanField f ∉ gm.map Prod.fst) :
    setLoop fields (sm, gm) =
      (sm ++ fields.map (fun f => (cleanField f, BVal.str ("$" ++ f))),
        gm ++ fields.map (fun f => (cleanField f, BVal.str ("$" ++ cleanField f)))) := by
  induction fields generalizing sm gm with
  | nil => simp [setLoop]
  | cons f rest ih =>
    simp only [List.map_cons, List.nodup_cons, List.mem_map, not_exists, not_and] at hkeys
    have hf1 := hsm f (List.mem_cons_self _ _)
    have hf2 := hgm f (List.mem_cons_self _ _)
    simp only [setLoop]
    have e1 : mapSet sm (stringsReplaceAll f '.' '_') (BVal.str ("$" ++ f)) =
        sm ++ [(cleanField f, BVal.str ("$" ++ f))] := mapSet_of_not_mem sm _ _ hf1
    have e2 : mapSet gm (stringsReplaceAll f '.' '_')
        (BVal.str ("$" ++ stringsReplaceAll f '.' '_')) =
        gm ++ [(cleanField f, BVal.str ("$" ++ cleanField f))] := mapSet_of_not_mem gm _ _ hf2
    rw [e1, e2, ih _ _ hkeys.2]
    · simp
    · intro g hg
      simp only [List.map_append, List.map_cons, List.map_nil, List.mem_append,
        List.mem_singleton, not_or]
      exact ⟨hsm g (List.mem_cons_of_mem _ hg), fun hc => hkeys.1 g hg hc⟩
    · intro g hg
      simp only [List.map_append, List.map_cons, List.map_nil, List.mem_append,
        List.mem_singleton, not_or]
      exact ⟨hgm g (List.mem_cons_of_mem _ hg), fun hc => hkeys.1 g hg hc⟩

/-- C27 (counterexample): the distinct fields `a.b` and `a_b` get the same
synthetic key `a_b`; the `$set` map and the group `_id` map built for these
two fields have one entry each, and the pipeline holds them. -/
theorem uniqueValuePipeline_synthetic_keys_collide :
    "a.b" ≠ "a_b" ∧ cleanField "a.b" = cleanField "a_b" ∧
    setLoop ["a.b", "a_b"] ([], []) =
      ([("a_b", BVal.str "$a_b")], [("a_b", BVal.str "$a_b")]) ∧
    (setLoop ["a.b", "a_b"] ([], [])).1.length = 1 ∧
    (setLoop ["a.b", "a_b"] ([], [])).2.length = 1 ∧
    (uniqueValuePipeline ["a.b", "a_b"] [] 0 10 ⟨[]⟩).map (fun pipeline => pipeline.take 3) =
      some [[("$match", BVal.doc [])], [("$set", BVal.map [("a_b", BVal.str "$a_b")])],
        [("$group", BVal.doc [("_id", BVal.map [("a_b", BVal.str "$a_b")]),
          ("count", BVal.doc [("$sum", BVal.int 1)])])]] :=
  ⟨by decide, by decide, rfl, rfl, rfl, rfl⟩

/-- C27 (amended): when `uniqueValuePipeline` builds a pipeline (no rewrite of
the match filter panics) for two or more requested fields whose synthetic
keys (the field name with every `.` replaced by `_`) are pairwise distinct,
the `$set` stage, which stands immediately before the `$group` stage, and the
group `_id` each have exactly one entry per requested field: the `$set` map
sends the key of each field `f` to `"$" + f` and the `_id` map sends it to
`"$"` + the key. -/
theorem uniqueValuePipeline_one_entry_per_field (fields : List String) (mtch : BsonD)
    (skip limit : Int) (s : SchemaInfo) (h : RewritesSucceed s mtch fields)
    (hlen : 2 ≤ fields.length) (hkeys : (fields.map cleanField).Nodup) :
    ∃ (front back : Pipeline),
      uniqueValuePipeline fields mtch skip limit s =
        some (front ++
          [[("$set", BVal.map (fields.map fun f => (cleanField f, BVal.str ("$" ++ f))))],
           [("$group", BVal.doc
              [("_id", BVal.map
                (fields.map fun f => (cleanField f, BVal.str ("$" ++ cleanField f)))),
               ("count", BVal.doc [("$sum", BVal.int 1)])])]] ++ back) ∧
      (fields.map fun f => (cleanField f, BVal.str ("$" ++ f))).length = fields.length ∧
      (fields.map fun f => (cleanField f, BVal.str ("$" ++ cleanField f))).length =
        fields.length ∧
      (∀ st ∈ front, stageName st ≠ some "$set") ∧
      ∀ st ∈ back, stageName st ≠ some "$set" := by
  have heq := uniqueValuePipeline_eq fields mtch skip limit s h
  have hset := setLoop_of_nodup fields [] [] hkeys (by simp) (by simp)
  simp only [List.nil_append] at hset
  match fields, hlen, heq, hset with
  | f :: g :: rest, _, heq, hset =>
    refine ⟨matchStage mtch :: (newPaths s (f :: g :: rest) []).flatMap (unwindStages mtch),
      sortStage :: pagingStages skip limit, ?_, by simp, by simp, ?_, ?_⟩
    · rw [heq]
      simp only [setStages, groupRef, hset, groupStage]
      simp
    · exact stageName_front_ne_set mtch _
    · intro st hst
      exact stageName_tail_ne_set BVal.null skip limit st
        (by
          simp only [List.cons_append, List.nil_append, List.mem_cons] at hst ⊢
          exact Or.inr hst)

theorem uniqueValuePipeline_one_entry_per_field_witness :
    (∃ (front back : Pipeline),
      uniqueValuePipeline ["a.b", "c_d"] [] 0 10 ⟨[]⟩ =
        some (front ++
          [[("$set", BVal.map (["a.b", "c_d"].map fun f => (cleanField f, BVal.str ("$" ++ f))))],
           [("$group", BVal.doc
              [("_id", BVal.map
                (["a.b", "c_d"].map fun f => (cleanField f, BVal.str ("$" ++ cleanField f)))),
               ("count", BVal.doc [("$sum", BVal.int 1)])])]] ++ back) ∧
      (["a.b", "c_d"].map fun f => (cleanField f, BVal.str ("$" ++ f))).length =
        ["a.b", "c_d"].length ∧
      (["a.b", "c_d"].map fun f => (cleanField f, BVal.str ("$" ++ cleanField f))).length =
        ["a.b", "c_d"].length ∧
      (∀ st ∈ front, stageName st ≠ some "$set") ∧
      ∀ st ∈ back, stageName st ≠ some "$set") ∧
    (uniqueValuePipeline ["a.b", "c_d"] [] 0 10 ⟨[]⟩).map (fun pipeline => pipeline.take 3) =
      some [[("$match", BVal.doc [])],
        [("$set", BVal.map [("a_b", BVal.str "$a.b"), ("c_d", BVal.str "$c_d")])],
        [("$group", BVal.doc
          [("_id", BVal.map [("a_b", BVal.str "$a_b"), ("c_d", BVal.str "$c_d")]),
           ("count", BVal.doc [("$sum", BVal.int 1)])])]] :=
  ⟨uniqueValuePipeline_one_entry_per_field ["a.b", "c_d"] [] 0 10 ⟨[]⟩ (by decide) (by decide)
    (by decide), rfl⟩

/-- C28 (evaluation of the code at a failing input): for a match filter whose
`$elemMatch` value under the array key is an unordered map, or a scalar,
`matchFiltersForUnwind` fails on the type assertion `cond.Value.(bson.D)` and
returns no filter, and so does `uniqueValuePipeline` when it unwinds that
array path. -/
theorem matchFiltersForUnwind_elemMatch_not_document :
    matchFiltersForUnwind "arr"
      [("arr", BVal.doc [("$elemMatch", BVal.map [("a", BVal.int 1)])])] = none ∧
    matchFiltersForUnwind "arr" [("arr", BVal.doc [("$elemMatch", BVal.int 1)])] = none ∧
    transformArrayConditionsForUnwind "arr" [("$elemMatch", BVal.map [("a", BVal.int 1)])] =
      none ∧
    uniqueValuePipeline ["arr.a"]
      [("arr", BVal.doc [("$elemMatch", BVal.map [("a", BVal.int 1)])])] 0 10 ⟨["arr"]⟩ = none :=
  ⟨rfl, rfl, rfl, rfl⟩

/-! ## Paginated find on an empty count, plain find, bulk insert, delete -/

/-- C29 (evaluation of the code at a failing input): on a store that reads
the pipeline as MongoDB does and holds no document, the facet row has an empty
count list, and on a store whose cursor yields no row the result keeps its
zero value; in both cases `AdminFindPaginated` sends the pipeline and panics
on `result.TotalDocuments[0]` instead of returning `Total = 0`. -/
theorem AdminFindPaginated_empty_count_panics :
    mongoAggregate (T := Nat) ⟨fun _ _ => true, fun _ l => l, fun _ d => d⟩ [] "col"
        (paginatedPipeline NewFindOptions) = .ok (some (.ok ⟨[], []⟩)) ∧
    AdminFindPaginated
        { failingStore Nat with
          aggregate := mongoAggregate ⟨fun _ _ => true, fun _ l => l, fun _ d => d⟩ [] }
        (stringContext (some "col") (some "guid")) none =
      ([Call.aggregate "col" (paginatedPipeline NewFindOptions)], none) ∧
    AdminFindPaginated { failingStore Nat with aggregate := fun _ _ => .ok none }
        (stringContext (some "col") (some "guid")) none =
      ([Call.aggregate "col" (paginatedPipeline NewFindOptions)], none) :=
  ⟨rfl, rfl, rfl⟩

theorem AdminFind_eq {T : Type} (st : Store T) (c : Context) (collection customerGUID : String)
    (findOps : Option FindOptions)
    (hctx : ReadContext c = some (collection, customerGUID, none)) :
    AdminFind st c findOps =
      ([Call.find collection (findOps.getD NewFindOptions).filter
          (findOps.getD NewFindOptions).projection (findOps.getD NewFindOptions).sort
          (findOps.getD NewFindOptions).skip],
        match st.find collection (findOps.getD NewFindOptions).filter
          (findOps.getD NewFindOptions).projection (findOps.getD NewFindOptions).sort
          (findOps.getD NewFindOptions).skip with
        | .error err => some (none, goErr err)
        | .ok (.error err) => some (none, goErr err)
        | .ok (.ok result) => some (some result, none)) := by
  unfold AdminFind
  simp only [hctx]
  split <;> rfl

/-- C30: with the context values present, `AdminFind` sends one `Find` that
carries the filter, the projection, the sort and the skip of the options; the
outcome (the query sent and the result) is the same for two options that
differ only in their limit, also through `FindForCustomer` and
`FindForCustomerWithGlobals`; nil options query as `NewFindOptions()`, and
`GetAllForCustomer` queries as the scoped find with nil options; when the
store answers the documents `docs`, the result is the non-nil slice `docs`
with a nil error, the empty non-nil slice when nothing matches. -/
theorem AdminFind_forwards_all_but_limit {T : Type} (B : Builders) (st : Store T)
    (c : Context) (collection customerGUID : String) (ops : FindOptions) (limit : Int)
    (hctx : ReadContext c = some (collection, customerGUID, none)) :
    (AdminFind st c (some ops)).1 =
      [Call.find collection ops.filter ops.projection ops.sort ops.skip] ∧
    AdminFind st c (some { ops with limit := limit }) = AdminFind st c (some ops) ∧
    FindForCustomer B st c (some { ops with limit := limit }) =
      FindForCustomer B st c (some ops) ∧
    FindForCustomerWithGlobals B st c (some { ops with limit := limit }) =
      FindForCustomerWithGlobals B st c (some ops) ∧
    AdminFind st c none = AdminFind st c (some NewFindOptions) ∧
    FindForCustomer B st c none = FindForCustomer B st c (some NewFindOptions) ∧
    FindForCustomerWithGlobals B st c none =
      FindForCustomerWithGlobals B st c (some NewFindOptions) ∧
    GetAllForCustomer B st c false = FindForCustomer B st c none ∧
    GetAllForCustomer B st c true = FindForCustomerWithGlobals B st c none ∧
    (∀ docs, st.find collection ops.filter ops.projection ops.sort ops.skip = .ok (.ok docs) →
      (AdminFind st c (some ops)).2 = some (some docs, none)) := by
  refine ⟨?_, rfl, rfl, rfl, rfl, rfl, rfl, rfl, rfl, ?_⟩
  · rw [AdminFind_eq st c collection customerGUID _ hctx]
    rfl
  · intro docs h
    rw [AdminFind_eq st c collection customerGUID _ hctx]
    simp only [Option.getD_some, h]

theorem AdminFind_forwards_all_but_limit_witness :
    (AdminFind { failingStore Nat with find := fun _ _ _ _ _ => .ok (.ok []) }
        (stringContext (some "col") (some "guid"))
        (some ⟨[("n", BVal.int 1)], [("p", BVal.int 1)], [("s", BVal.int 1)], 5, 7⟩)).1 =
      [Call.find "col" [("n", BVal.int 1)] [("p", BVal.int 1)] [("s", BVal.int 1)] 5] ∧
    (AdminFind { failingStore Nat with find := fun _ _ _ _ _ => .ok (.ok []) }
        (stringContext (some "col") (some "guid"))
        (some ⟨[("n", BVal.int 1)], [("p", BVal.int 1)], [("s", BVal.int 1)], 5, 7⟩)).2 =
      some (some [], none) :=
  ⟨(AdminFind_forwards_all_but_limit exampleBuilders
      { failingStore Nat with find := fun _ _ _ _ _ => .ok (.ok []) }
      (stringContext (some "col") (some "guid")) "col" "guid"
      ⟨[("n", BVal.int 1)], [("p", BVal.int 1)], [("s", BVal.int 1)], 5, 7⟩ 9 rfl).1,
   (AdminFind_forwards_all_but_limit exampleBuilders
      { failingStore Nat with find := fun _ _ _ _ _ => .ok (.ok []) }
      (stringContext (some "col") (some "guid")) "col" "guid"
      ⟨[("n", BVal.int 1)], [("p", BVal.int 1)], [("s", BVal.int 1)], 5, 7⟩ 9 rfl).2.2.2.2.2.2.2.2.2
      [] rfl⟩

/-- C21: with the context values present, `InsertDocuments` sends the
multi-insert to the store exactly when more than one document is supplied and
the single insert exactly when one document is supplied (for no document the
driver refuses with `ErrEmptySlice` and nothing is sent); each document is
wrapped by `NewDocument` with the tenant of the context, in the order
supplied. When the store reports no error the supplied list is returned
unchanged with a nil error, and when it reports an error the result is nil
and that error. -/
theorem InsertDocuments_insert_call {T : Type} (newDocument : T → String → Document T)
    (st : Store T) (c : Context) (collection customerGUID : String) (docs : List T)
    (hctx : ReadContext c = some (collection, customerGUID, none)) :
    (∀ doc, docs = [doc] →
      InsertDocuments newDocument st c docs =
        ([Call.insertOne collection (newDocument doc customerGUID)],
          match st.insertOne collection (newDocument doc customerGUID) with
          | none => some (some docs, none)
          | some err => some (none, goErr err))) ∧
    (1 < docs.length →
      InsertDocuments newDocument st c docs =
        ([Call.insertMany collection (docs.map fun doc => newDocument doc customerGUID)],
          match st.insertMany collection (docs.map fun doc => newDocument doc customerGUID) with
          | none => some (some docs, none)
          | some err => some (none, goErr err))) ∧
    (docs = [] →
      InsertDocuments newDocument st c docs = ([], some (none, goErr ErrEmptySlice))) ∧
    ((∃ dbDocs, Call.insertMany collection dbDocs ∈ (InsertDocuments newDocument st c docs).1) ↔
      1 < docs.length) ∧
    ((∃ dbDoc, Call.insertOne collection dbDoc ∈ (InsertDocuments newDocument st c docs).1) ↔
      docs.length = 1) := by
  have h1 : ∀ doc, docs = [doc] →
      InsertDocuments newDocument st c docs =
        ([Call.insertOne collection (newDocument doc customerGUID)],
          match st.insertOne collection (newDocument doc customerGUID) with
          | none => some (some docs, none)
          | some err => some (none, goErr err)) := by
    intro doc hdocs
    subst hdocs
    unfold InsertDocuments
    simp only [hctx, List.map_cons, List.map_nil]
    cases st.insertOne collection (newDocument doc customerGUID) <;> rfl
  have h2 : 1 < docs.length →
      InsertDocuments newDocument st c docs =
        ([Call.insertMany collection (docs.map fun doc => newDocument doc customerGUID)],
          match st.insertMany collection (docs.map fun doc => newDocument doc customerGUID) with
          | none => some (some docs, none)
          | some err => some (none, goErr err)) := by
    intro hlen
    unfold InsertDocuments
    simp only [hctx]
    cases docs with
    | nil => simp at hlen
    | cons a rest =>
      cases rest with
      | nil => simp at hlen
      | cons b rest =>
        simp only [List.map_cons]
        cases st.insertMany collection
          (newDocument a customerGUID :: newDocument b customerGUID ::
            rest.map fun doc => newDocument doc customerGUID) <;> rfl
  have h3 : docs = [] →
      InsertDocuments newDocument st c docs = ([], some (none, goErr ErrEmptySlice)) := by
    intro hdocs
    subst hdocs
    unfold InsertDocuments
    simp only [hctx, List.map_nil]
  refine ⟨h1, h2, h3, ?_, ?_⟩
  · cases docs with
    | nil => rw [h3 rfl]; simp
    | cons a rest =>
      cases rest with
      | nil => rw [h1 a rfl]; simp
      | cons b rest =>
        rw [h2 (by simp)]
        simp
  · cases docs with
    | nil => rw [h3 rfl]; simp
    | cons a rest =>
      cases rest with
      | nil => rw [h1 a rfl]; simp
      | cons b rest =>
        rw [h2 (by simp)]
        simp

theorem InsertDocuments_insert_call_witness :
    InsertDocuments (fun doc guid => ⟨"id", doc, [guid]⟩)
        { failingStore Nat with insertOne := fun _ _ => none }
        (stringContext (some "col") (some "guid")) [4] =
      ([Call.insertOne "col" ⟨"id", 4, ["guid"]⟩], some (some [4], none)) ∧
    InsertDocuments (fun doc guid => ⟨"id", doc, [guid]⟩)
        { failingStore Nat with insertMany := fun _ _ => none }
        (stringContext (some "col") (some "guid")) [4, 5] =
      ([Call.insertMany "col" [⟨"id", 4, ["guid"]⟩, ⟨"id", 5, ["guid"]⟩]],
        some (some [4, 5], none)) ∧
    InsertDocuments (fun doc guid => ⟨"id", doc, [guid]⟩) (failingStore Nat)
        (stringContext (some "col") (some "guid")) [4, 5] =
      ([Call.insertMany "col" [⟨"id", 4, ["guid"]⟩, ⟨"id", 5, ["guid"]⟩]],
        some (none, some (GoErr.base (BaseErr.driver 0)))) ∧
    InsertDocuments (fun doc guid => ⟨"id", doc, [guid]⟩)
        { failingStore Nat with insertMany := fun _ _ => none }
        (stringContext (some "col") (some "guid")) [] =
      ([], some (none, some (GoErr.base ErrEmptySlice))) :=
  ⟨(InsertDocuments_insert_call (fun doc guid => ⟨"id", doc, [guid]⟩)
      { failingStore Nat with insertOne := fun _ _ => none }
      (stringContext (some "col") (some "guid")) "col" "guid" [4] rfl).1 4 rfl,
   (InsertDocuments_insert_call (fun doc guid => ⟨"id", doc, [guid]⟩)
      { failingStore Nat with insertMany := fun _ _ => none }
      (stringContext (some "col") (some "guid")) "col" "guid" [4, 5] rfl).2.1 (by decide),
   (InsertDocuments_insert_call (fun doc guid => ⟨"id", doc, [guid]⟩) (failingStore Nat)
      (stringContext (some "col") (some "guid")) "col" "guid" [4, 5] rfl).2.1 (by decide),
   (InsertDocuments_insert_call (fun doc guid => ⟨"id", doc, [guid]⟩)
      { failingStore Nat with insertMany := fun _ _ => none }
      (stringContext (some "col") (some "guid")) "col" "guid" [] rfl).2.2.1 rfl⟩

theorem readCollection_of_ReadContext_ok (c : Context) (collection customerGUID : String)
    (h : ReadContext c = some (collection, customerGUID, none)) :
    readCollection c = some (collection, none) := by
  unfold ReadContext at h
  cases hr : readCollection c with
  | none => simp [hr] at h
  | some r =>
    obtain ⟨coll, e⟩ := r
    simp only [hr] at h
    cases hg : readCustomerGUID c with
    | none => simp [hg] at h
    | some g =>
      obtain ⟨guid, eg⟩ := g
      simp only [hg, Option.some.injEq, Prod.mk.injEq] at h
      obtain ⟨h1, _, h3⟩ := h
      subst h1
      cases e with
      | none => rfl
      | some e =>
        cases eg with
        | none => simp [multierrorAppend] at h3
        | some eg => simp [multierrorAppend] at h3

theorem DeleteByGUID_eq {T : Type} (B : Builders) (st : Store T) (c : Context)
    (collection customerGUID guid : String)
    (hctx : ReadContext c = some (collection, customerGUID, none)) :
    DeleteByGUID B st c guid =
      ((deleteFound B st collection
          (findOneDoc st collection (B.notDeleteForCustomer c ++ B.withID guid))
          fun _ => guid).1,
        some (deleteFound B st collection
          (findOneDoc st collection (B.notDeleteForCustomer c ++ B.withID guid))
          fun _ => guid).2) := by
  unfold DeleteByGUID GetDocByGUID
  simp only [readCollection_of_ReadContext_ok c collection customerGUID hctx, hctx]

theorem DeleteByName_eq {T : Type} (B : Builders) (st : Store T) (getGUID : T → String)
    (c : Context) (collection customerGUID name : String)
    (hctx : ReadContext c = some (collection, customerGUID, none)) :
    DeleteByName B st getGUID c name =
      ((deleteFound B st collection
          (findOneDoc st collection (B.notDeleteForCustomer c ++ B.withName name)) getGUID).1,
        some (deleteFound B st collection
          (findOneDoc st collection (B.notDeleteForCustomer c ++ B.withName name)) getGUID).2) := by
  unfold DeleteByName GetDocByName
  simp only [readCollection_of_ReadContext_ok c collection customerGUID hctx, hctx]

theorem deleteFound_cases {T : Type} (B : Builders) (st : Store T) (collection : String)
    (filter : BsonD) (idOf : T → String) :
    (∀ doc n, st.findOne collection filter = .ok doc →
      st.deleteOne collection [(B.idField, BVal.str (idOf doc))] = .ok n → n ≠ 0 →
      deleteFound B st collection (findOneDoc st collection filter) idOf =
        ([Call.findOne collection filter,
          Call.deleteOne collection [(B.idField, BVal.str (idOf doc))]], some doc, none)) ∧
    (st.findOne collection filter = .error BaseErr.noDocuments →
      deleteFound B st collection (findOneDoc st collection filter) idOf =
        ([Call.findOne collection filter], none, none)) ∧
    (∀ doc, st.findOne collection filter = .ok doc →
      st.deleteOne collection [(B.idField, BVal.str (idOf doc))] = .ok 0 →
      deleteFound B st collection (findOneDoc st collection filter) idOf =
        ([Call.findOne collection filter,
          Call.deleteOne collection [(B.idField, BVal.str (idOf doc))]], none, none)) ∧
    (∀ e, e ≠ BaseErr.noDocuments → st.findOne collection filter = .error e →
      deleteFound B st collection (findOneDoc st collection filter) idOf =
        ([Call.findOne collection filter], none, some (GoErr.base e))) ∧
    (∀ doc e, st.findOne collection filter = .ok doc →
      st.deleteOne collection [(B.idField, BVal.str (idOf doc))] = .error e →
      deleteFound B st collection (findOneDoc st collection filter) idOf =
        ([Call.findOne collection filter,
          Call.deleteOne collection [(B.idField, BVal.str (idOf doc))]], none,
          some (GoErr.base e))) := by
  refine ⟨?_, ?_, ?_, ?_, ?_⟩
  · intro doc n h1 h2 h3
    simp [deleteFound, findOneDoc, h1, h2, h3]
  · intro h1
    simp [deleteFound, findOneDoc, h1]
  · intro doc h1 h2
    simp [deleteFound, findOneDoc, h1, h2]
  · intro e he h1
    simp [deleteFound, findOneDoc, h1, he, goErr]
  · intro doc e h1 h2
    simp [deleteFound, findOneDoc, h1, h2, goErr]

/-- C22: with the context values present, `DeleteByGUID` and `DeleteByName`
first send the tenant-scoped lookup; when it finds the document and the store
deletes it (deleted count not 0) they return the document that the lookup
read, nil error; when the lookup finds nothing they return `(nil, nil)` and
the lookup is the only call sent; when the store reports the deleted count 0
they return `(nil, nil)`; an error of the lookup or of the delete is returned
with a nil document. -/
theorem DeleteBy_returns_prior_value {T : Type} (B : Builders) (st : Store T)
    (getGUID : T → String) (c : Context) (collection customerGUID guid name : String)
    (hctx : ReadContext c = some (collection, customerGUID, none)) :
    ((∀ doc n, st.findOne collection (B.notDeleteForCustomer c ++ B.withID guid) = .ok doc →
        st.deleteOne collection [(B.idField, BVal.str guid)] = .ok n → n ≠ 0 →
        DeleteByGUID B st c guid =
          ([Call.findOne collection (B.notDeleteForCustomer c ++ B.withID guid),
            Call.deleteOne collection [(B.idField, BVal.str guid)]], some (some doc, none))) ∧
      (st.findOne collection (B.notDeleteForCustomer c ++ B.withID guid) =
          .error BaseErr.noDocuments →
        DeleteByGUID B st c guid =
          ([Call.findOne collection (B.notDeleteForCustomer c ++ B.withID guid)],
            some (none, none))) ∧
      (∀ doc, st.findOne collection (B.notDeleteForCustomer c ++ B.withID guid) = .ok doc →
        st.deleteOne collection [(B.idField, BVal.str guid)] = .ok 0 →
        DeleteByGUID B st c guid =
          ([Call.findOne collection (B.notDeleteForCustomer c ++ B.withID guid),
            Call.deleteOne collection [(B.idField, BVal.str guid)]], some (none, none))) ∧
      (∀ e, e ≠ BaseErr.noDocuments →
        st.findOne collection (B.notDeleteForCustomer c ++ B.withID guid) = .error e →
        DeleteByGUID B st c guid =
          ([Call.findOne collection (B.notDeleteForCustomer c ++ B.withID guid)],
            some (none, some (GoErr.base e)))) ∧
      (∀ doc e, st.findOne collection (B.notDeleteForCustomer c ++ B.withID guid) = .ok doc →
        st.deleteOne collection [(B.idField, BVal.str guid)] = .error e →
        DeleteByGUID B st c guid =
          ([Call.findOne collection (B.notDeleteForCustomer c ++ B.withID guid),
            Call.deleteOne collection [(B.idField, BVal.str guid)]],
            some (none, some (GoErr.base e))))) ∧
    ((∀ doc n, st.findOne collection (B.notDeleteForCustomer c ++ B.withName name) = .ok doc →
        st.deleteOne collection [(B.idField, BVal.str (getGUID doc))] = .ok n → n ≠ 0 →
        DeleteByName B st getGUID c name =
          ([Call.findOne collection (B.notDeleteForCustomer c ++ B.withName name),
            Call.deleteOne collection [(B.idField, BVal.str (getGUID doc))]],
            some (some doc, none))) ∧
      (st.findOne collection (B.notDeleteForCustomer c ++ B.withName name) =
          .error BaseErr.noDocuments →
        DeleteByName B st getGUID c name =
          ([Call.findOne collection (B.notDeleteForCustomer c ++ B.withName name)],
            some (none, none))) ∧
      (∀ doc, st.findOne collection (B.notDeleteForCustomer c ++ B.withName name) = .ok doc →
        st.deleteOne collection [(B.idField, BVal.str (getGUID doc))] = .ok 0 →
        DeleteByName B st getGUID c name =
          ([Call.findOne collection (B.notDeleteForCustomer c ++ B.withName name),
            Call.deleteOne collection [(B.idField, BVal.str (getGUID doc))]],
            some (none, none))) ∧
      (∀ e, e ≠ BaseErr.noDocuments →
        st.findOne collection (B.notDeleteForCustomer c ++ B.withName name) = .error e →
        DeleteByName B st getGUID c name =
          ([Call.findOne collection (B.notDeleteForCustomer c ++ B.withName name)],
            some (none, some (GoErr.base e)))) ∧
      (∀ doc e, st.findOne collection (B.notDeleteForCustomer c ++ B.withName name) = .ok doc →
        st.deleteOne collection [(B.idField, BVal.str (getGUID doc))] = .error e →
        DeleteByName B st getGUID c name =
          ([Call.findOne collection (B.notDeleteForCustomer c ++ B.withName name),
            Call.deleteOne collection [(B.idField, BVal.str (getGUID doc))]],
            some (none, some (GoErr.base e))))) := by
  obtain ⟨g1, g2, g3, g4, g5⟩ :=
    deleteFound_cases B st collection (B.notDeleteForCustomer c ++ B.withID guid) fun _ => guid
  obtain ⟨n1, n2, n3, n4, n5⟩ :=
    deleteFound_cases B st collection (B.notDeleteForCustomer c ++ B.withName name) getGUID
  have hg := DeleteByGUID_eq B st c collection customerGUID guid hctx
  have hn := DeleteByName_eq B st getGUID c collection customerGUID name hctx
  refine ⟨⟨?_, ?_, ?_, ?_, ?_⟩, ⟨?_, ?_, ?_, ?_, ?_⟩⟩
  · intro doc n h1 h2 h3
    rw [hg, g1 doc n h1 h2 h3]
  · intro h1
    rw [hg, g2 h1]
  · intro doc h1 h2
    rw [hg, g3 doc h1 h2]
  · intro e he h1
    rw [hg, g4 e he h1]
  · intro doc e h1 h2
    rw [hg, g5 doc e h1 h2]
  · intro doc n h1 h2 h3
    rw [hn, n1 doc n h1 h2 h3]
  · intro h1
    rw [hn, n2 h1]
  · intro doc h1 h2
    rw [hn, n3 doc h1 h2]
  · intro e he h1
    rw [hn, n4 e he h1]
  · intro doc e h1 h2
    rw [hn, n5 doc e h1 h2]

theorem DeleteBy_returns_prior_value_witness :
    DeleteByGUID exampleBuilders
        { failingStore Nat with findOne := fun _ _ => .ok 7, deleteOne := fun _ _ => .ok 1 }
        (stringContext (some "col") (some "guid")) "id" =
      ([Call.findOne "col"
          (exampleBuilders.notDeleteForCustomer (stringContext (some "col") (some "guid")) ++
            exampleBuilders.withID "id"),
        Call.deleteOne "col" [("_id", BVal.str "id")]], some (some 7, none)) ∧
    DeleteByName exampleBuilders
        { failingStore Nat with findOne := fun _ _ => .error BaseErr.noDocuments }
        (fun doc => toString doc) (stringContext (some "col") (some "guid")) "n" =
      ([Call.findOne "col"
          (exampleBuilders.notDeleteForCustomer (stringContext (some "col") (some "guid")) ++
            exampleBuilders.withName "n")], some (none, none)) ∧
    DeleteByGUID exampleBuilders
        { failingStore Nat with findOne := fun _ _ => .ok 7, deleteOne := fun _ _ => .ok 0 }
        (stringContext (some "col") (some "guid")) "id" =
      ([Call.findOne "col"
          (exampleBuilders.notDeleteForCustomer (stringContext (some "col") (some "guid")) ++
            exampleBuilders.withID "id"),
        Call.deleteOne "col" [("_id", BVal.str "id")]], some (none, none)) :=
  ⟨(DeleteBy_returns_prior_value exampleBuilders
      { failingStore Nat with findOne := fun _ _ => .ok 7, deleteOne := fun _ _ => .ok 1 }
      (fun doc => toString doc) (stringContext (some "col") (some "guid")) "col" "guid" "id" "n"
      rfl).1.1 7 1 rfl rfl (by decide),
   (DeleteBy_returns_prior_value exampleBuilders
      { failingStore Nat with findOne := fun _ _ => .error BaseErr.noDocuments }
      (fun doc => toString doc) (stringContext (some "col") (some "guid")) "col" "guid" "id" "n"
      rfl).2.2.1 rfl,
   (DeleteBy_returns_prior_value exampleBuilders
      { failingStore Nat with findOne := fun _ _ => .ok 7, deleteOne := fun _ _ => .ok 0 }
      (fun doc => toString doc) (stringContext (some "col") (some "guid")) "col" "guid" "id" "n"
      rfl).1.2.2.1 7 rfl rfl⟩

/-! ## The customer routes -/

theorem getCustomer_holdingStore {T : Type} (B : Builders) (holds : BsonD → Document T → Bool)
    (docs : List (Document T)) (tenant : String)
    (hcoll : B.customersCollection ≠ "") (htenant : tenant ≠ "") :
    getCustomer ReadContext (GetDocByGUID B (holdingStore holds B.customersCollection docs))
        (stringContext (some B.customersCollection) (some tenant)) =
      ([Call.findOne B.customersCollection
          (B.notDeleteForCustomer (stringContext (some B.customersCollection) (some tenant)) ++
            B.withID tenant)],
        match docs.find? (holds
          (B.notDeleteForCustomer (stringContext (some B.customersCollection) (some tenant)) ++
            B.withID tenant)) with
        | some doc => some (.json 200 doc.Content)
        | none => some .documentNotFound) := by
  have hctx : ReadContext (stringContext (some B.customersCollection) (some tenant)) =
      some (B.customersCollection, tenant, none) := by
    rw [ReadContext_stringContext]
    simp [hcoll, htenant]
  unfold getCustomer GetDocByGUID
  simp only [hctx, findOneDoc, holdingStore, if_true]
  cases docs.find? (holds
    (B.notDeleteForCustomer (stringContext (some B.customersCollection) (some tenant)) ++
      B.withID tenant)) with
  | none => simp
  | some doc => simp

/-- C25 (counterexample): the customers collection holds the records of the
tenants `g` and `h`, each as `postCustomerTenant` inserts it; `getCustomer`
for the tenant `h`, a tenant other than `g`, answers 200 with the record of
`h`, not document-not-found. -/
theorem getCustomer_other_tenant_own_record :
    postCustomerTenant exampleBuilders ⟨fun s => s, fun s => s⟩ (fun _ => false) "guid"
        { failingStore String with insertOne := fun _ _ => none } (.ok (some "g")) =
      ([Call.insertOne "customers" ⟨"g", "g", ["g"]⟩], Response.json 201 "g") ∧
    postCustomerTenant exampleBuilders ⟨fun s => s, fun s => s⟩ (fun _ => false) "guid"
        { failingStore String with insertOne := fun _ _ => none } (.ok (some "h")) =
      ([Call.insertOne "customers" ⟨"h", "h", ["h"]⟩], Response.json 201 "h") ∧
    "h" ≠ "g" ∧
    getCustomer ReadContext
        (GetDocByGUID exampleBuilders
          (holdingStore exampleHolds "customers" [⟨"g", "g", ["g"]⟩, ⟨"h", "h", ["h"]⟩]))
        (stringContext (some "customers") (some "h")) =
      ([Call.findOne "customers"
          [("customers", BVal.str "h"), ("is_deleted", BVal.other 0), ("_id", BVal.str "h")]],
        some (Response.json 200 "h")) :=
  ⟨rfl, rfl, by decide, rfl⟩

/-- C25 (amended): for a customer body whose GUID `g` is not empty, with
`InitNew` keeping the GUID and the store accepting the insert,
`postCustomerTenant` inserts into the customers collection the document with
ID `g`, the customer as content and the owner list `[g]`, and answers 201 with
a customer whose GUID is `g`. On a store whose customers collection holds that
document among documents with pairwise distinct ids, where the lookup filter
of a tenant holds for the documents that the tenant owns and whose id is the
tenant GUID, `getCustomer` answers 200 with that customer to the tenant `g`;
for another tenant the filter does not hold for that document, and the answer
is 200 with the tenant's own document when the collection holds one, and
document-not-found otherwise. -/
theorem customer_routes_tenant_record {T : Type} (B : Builders) (K : CustomerType T)
    (isDuplicateKeyError : BaseErr → Bool) (guidField : String) (st : Store T)
    (holds : BsonD → Document T → Bool) (customer : T) (docs : List (Document T))
    (tenant : String)
    (hguid : K.GUID customer ≠ "")
    (hinit : ∀ x, K.GUID (K.InitNew x) = K.GUID x)
    (hins : st.insertOne B.customersCollection
      ⟨K.GUID customer, K.InitNew customer, [K.GUID customer]⟩ = none)
    (hcoll : B.customersCollection ≠ "") (htenant : tenant ≠ "")
    (hholds : ∀ id doc,
      holds (B.notDeleteForCustomer (stringContext (some B.customersCollection) (some tenant)) ++
        B.withID id) doc = (decide (tenant ∈ doc.Customers) && decide (doc.ID = id)))
    (hmem : (⟨K.GUID customer, K.InitNew customer, [K.GUID customer]⟩ : Document T) ∈ docs)
    (hids : (docs.map fun doc => doc.ID).Nodup) :
    postCustomerTenant B K isDuplicateKeyError guidField st (.ok (some customer)) =
      ([Call.insertOne B.customersCollection
          ⟨K.GUID customer, K.InitNew customer, [K.GUID customer]⟩],
        Response.json 201 (K.InitNew customer)) ∧
    K.GUID (K.InitNew customer) = K.GUID customer ∧
    (tenant = K.GUID customer →
      getCustomer ReadContext (GetDocByGUID B (holdingStore holds B.customersCollection docs))
          (stringContext (some B.customersCollection) (some tenant)) =
        ([Call.findOne B.customersCollection
            (B.notDeleteForCustomer (stringContext (some B.customersCollection) (some tenant)) ++
              B.withID tenant)],
          some (Response.json 200 (K.InitNew customer)))) ∧
    (tenant ≠ K.GUID customer →
      holds (B.notDeleteForCustomer (stringContext (some B.customersCollection) (some tenant)) ++
          B.withID tenant) ⟨K.GUID customer, K.InitNew customer, [K.GUID customer]⟩ = false ∧
      (∀ own ∈ docs, own.ID = tenant → tenant ∈ own.Customers →
        getCustomer ReadContext (GetDocByGUID B (holdingStore holds B.customersCollection docs))
            (stringContext (some B.customersCollection) (some tenant)) =
          ([Call.findOne B.customersCollection
              (B.notDeleteForCustomer
                  (stringContext (some B.customersCollection) (some tenant)) ++
                B.withID tenant)],
            some (Response.json 200 own.Content))) ∧
      ((∀ doc ∈ docs, ¬ (doc.ID = tenant ∧ tenant ∈ doc.Customers)) →
        getCustomer ReadContext (GetDocByGUID B (holdingStore holds B.customersCollection docs))
            (stringContext (some B.customersCollection) (some tenant)) =
          ([Call.findOne B.customersCollection
              (B.notDeleteForCustomer
                  (stringContext (some B.customersCollection) (some tenant)) ++
                B.withID tenant)],
            some Response.documentNotFound))) := by
  have hown : ∀ own ∈ docs, own.ID = tenant → tenant ∈ own.Customers →
      getCustomer ReadContext (GetDocByGUID B (holdingStore holds B.customersCollection docs))
          (stringContext (some B.customersCollection) (some tenant)) =
        ([Call.findOne B.customersCollection
            (B.notDeleteForCustomer
                (stringContext (some B.customersCollection) (some tenant)) ++
              B.withID tenant)],
          some (Response.json 200 own.Content)) := by
    intro own hown hid howner
    rw [getCustomer_holdingStore B holds docs tenant hcoll htenant]
    cases hfind : docs.find? (holds
      (B.notDeleteForCustomer (stringContext (some B.customersCollection) (some tenant)) ++
        B.withID tenant)) with
    | none =>
      have := List.find?_eq_none.mp hfind _ hown
      rw [hholds] at this
      simp [hid, howner] at this
    | some doc =>
      have hdoc := List.mem_of_find?_eq_some hfind
      have hp := List.find?_some hfind
      rw [hholds] at hp
      simp only [Bool.and_eq_true, decide_eq_true_eq] at hp
      have heq : doc = own :=
        List.inj_on_of_nodup_map hids hdoc hown (by rw [hp.2, hid])
      rw [heq]
  refine ⟨?_, hinit customer, ?_, ?_⟩
  · unfold postCustomerTenant
    simp only [hguid, if_false, hinit, hins]
  · intro ht
    exact hown _ hmem ht.symm (by simp [ht])
  · intro ht
    refine ⟨?_, hown, ?_⟩
    · rw [hholds]
      simp [ht]
    · intro hnone
      rw [getCustomer_holdingStore B holds docs tenant hcoll htenant]
      have hfind : docs.find? (holds
          (B.notDeleteForCustomer (stringContext (some B.customersCollection) (some tenant)) ++
            B.withID tenant)) = none := by
        rw [List.find?_eq_none]
        intro doc hdoc
        rw [hholds]
        have := hnone doc hdoc
        simp only [Bool.and_eq_true, decide_eq_true_eq]
        tauto
      rw [hfind]

theorem exampleHolds_lookup {T : Type} (collection tenant id : String) (doc : Document T) :
    exampleHolds
        (exampleBuilders.notDeleteForCustomer (stringContext (some collection) (some tenant)) ++
          exampleBuilders.withID id) doc =
      (decide (tenant ∈ doc.Customers) && decide (doc.ID = id)) := by
  simp [exampleHolds, exampleBuilders, stringContext, ctxString]

theorem customer_routes_tenant_record_witness :
    postCustomerTenant exampleBuilders ⟨fun s => s, fun s => s⟩ (fun _ => false) "guid"
        { failingStore String with insertOne := fun _ _ => none } (.ok (some "g")) =
      ([Call.insertOne "customers" ⟨"g", "g", ["g"]⟩], Response.json 201 "g") ∧
    getCustomer ReadContext
        (GetDocByGUID exampleBuilders
          (holdingStore exampleHolds "customers" [⟨"g", "g", ["g"]⟩]))
        (stringContext (some "customers") (some "g")) =
      ([Call.findOne "customers"
          (exampleBuilders.notDeleteForCustomer (stringContext (some "customers") (some "g")) ++
            exampleBuilders.withID "g")],
        some (Response.json 200 "g")) ∧
    getCustomer ReadContext
        (GetDocByGUID exampleBuilders
          (holdingStore exampleHolds "customers" [⟨"g", "g", ["g"]⟩]))
        (stringContext (some "customers") (some "h")) =
      ([Call.findOne "customers"
          (exampleBuilders.notDeleteForCustomer (stringContext (some "customers") (some "h")) ++
            exampleBuilders.withID "h")],
        some Response.documentNotFound) ∧
    getCustomer ReadContext
        (GetDocByGUID exampleBuilders
          (holdingStore exampleHolds "customers" [⟨"g", "g", ["g"]⟩, ⟨"h", "k", ["h"]⟩]))
        (stringContext (some "customers") (some "h")) =
      ([Call.findOne "customers"
          (exampleBuilders.notDeleteForCustomer (stringContext (some "customers") (some "h")) ++
            exampleBuilders.withID "h")],
        some (Response.json 200 "k")) :=
  ⟨(customer_routes_tenant_record exampleBuilders ⟨fun s => s, fun s => s⟩ (fun _ => false)
      "guid" { failingStore String with insertOne := fun _ _ => none } exampleHolds "g"
      [⟨"g", "g", ["g"]⟩] "g" (by decide) (fun _ => rfl) rfl (by decide) (by decide)
      (exampleHolds_lookup "customers" "g") (List.mem_cons_self _ _) (by decide)).1,
   (customer_routes_tenant_record exampleBuilders ⟨fun s => s, fun s => s⟩ (fun _ => false)
      "guid" { failingStore String with insertOne := fun _ _ => none } exampleHolds "g"
      [⟨"g", "g", ["g"]⟩] "g" (by decide) (fun _ => rfl) rfl (by decide) (by decide)
      (exampleHolds_lookup "customers" "g") (List.mem_cons_self _ _) (by decide)).2.2.1 rfl,
   ((customer_routes_tenant_record exampleBuilders ⟨fun s => s, fun s => s⟩ (fun _ => false)
      "guid" { failingStore String with insertOne := fun _ _ => none } exampleHolds "g"
      [⟨"g", "g", ["g"]⟩] "h" (by decide) (fun _ => rfl) rfl (by decide) (by decide)
      (exampleHolds_lookup "customers" "h") (List.mem_cons_self _ _) (by decide)).2.2.2
      (by decide)).2.2 (by
        intro doc hdoc
        simp only [List.mem_singleton] at hdoc
        subst hdoc
        simp),
   ((customer_routes_tenant_record exampleBuilders ⟨fun s => s, fun s => s⟩ (fun _ => false)
      "guid" { failingStore String with insertOne := fun _ _ => none } exampleHolds "g"
      [⟨"g", "g", ["g"]⟩, ⟨"h", "k", ["h"]⟩] "h" (by decide) (fun _ => rfl) rfl (by decide)
      (by decide) (exampleHolds_lookup "customers" "h") (List.mem_cons_self _ _)
      (by decide)).2.2.2 (by decide)).2.1 ⟨"h", "k", ["h"]⟩
      (List.mem_cons_of_mem _ (List.mem_cons_self _ _)) rfl (by simp)⟩

end ConfigService
